import Mathlib

/-!
# TCP stream reassembly (`reassembly` package): a shallow embedding

The development follows `reassembly/memory_safe.go` and
`reassembly/tcpassembly_safe.go`.

* Pages live in a heap (`List page`); a Go `*page` is an `Option Nat`
  (`none` is `nil`, `some i` is the page at index `i` of the heap).
* Pointer code is translated statement by statement into heap reads and writes.
* Go `for` loops are recursive functions on an explicit amount of fuel; an
  execution that needs more steps than the fuel allows ends in
  `Fault.outOfFuel`, and an index or slice expression outside its bounds ends
  in `Fault.indexOutOfRange`.  Go `error` return values are ordinary results.
* Payload bytes are natural numbers: the code copies them and never looks at
  their value.
* The counters (`int`, `int64`) are unbounded integers: they count pages and
  packets and stay far from the limits of a machine word.
* The table of the stream pool is an association list from keys to connection
  objects; calls on the pool are made one after the other, as the pool's lock
  orders them.
* A run-time panic of Go (a read through a nil pointer) is a result of its own,
  `Panic`.  A callback of the user returns or panics (`CallOutcome`); a panic
  that the code recovers adds a line to the log, which the state counts.
-/

namespace Reassembly

/-! ## Faults and errors -/

/-- Ways an execution of the model can stop without returning. -/
inductive Fault where
  | indexOutOfRange
  | outOfFuel
  deriving DecidableEq, Repr

/-- The Go `error` values built in the two source files. -/
inductive GoError where
  | invalidSkip
  | pageCacheLimit
  | nilStreamInConnection
  | poolClosed
  | connectionLimit
  | nilStream
  | invalidOptions
  | nilTCPLayer
  | contextCanceled
  deriving DecidableEq, Repr

deriving instance DecidableEq for Except

/-! ## Sequence numbers -/

/-- A TCP sequence number: a value in `[0, 2^32)`, or the sentinel
`invalidSequence`. -/
abbrev Sequence := Int

/-- Modelled from the spec: the constant `invalidSequence` is declared outside
the files at hand; the spec calls it a sentinel that denotes "no expected
sequence yet", distinct from every 32-bit value. -/
def invalidSequence : Sequence := -1

/-- Modelled from the spec: `Sequence.Add` is declared outside the files at
hand; the spec gives `add(n)` as addition modulo `2^32`. -/
def Sequence.Add (s : Sequence) (t : Int) : Sequence :=
  (s + t) % 4294967296

/-- Modelled from the spec: `Sequence.Difference` is declared outside the files
at hand; the spec gives `s.difference(t)` as the signed distance from `s` to
`t`, in `[-2^31, 2^31)`, a distance of exactly `2^31` counting as negative
(`a < b` iff `a.difference(b) > 0`). -/
def Sequence.Difference (s t : Sequence) : Int :=
  let d := (t - s) % 4294967296
  if d < 2147483648 then d else d - 4294967296

/-! ## Byte slices -/

/-- The slice expression `b[:n]`, checked against the length of `b`. -/
def sliceTo (b : List Nat) (n : Int) : Except Fault (List Nat) :=
  if 0 ≤ n ∧ n ≤ b.length then .ok (b.take n.toNat) else .error .indexOutOfRange

/-- The slice expression `b[n:]`, checked against the length of `b`. -/
def sliceFrom (b : List Nat) (n : Int) : Except Fault (List Nat) :=
  if 0 ≤ n ∧ n ≤ b.length then .ok (b.drop n.toNat) else .error .indexOutOfRange

/-! ## Pages and the heap -/

/-- Modelled from the spec: the struct `page` is declared outside the files at
hand; the fields are the ones the two source files read and write (`bytes`,
`seq`, `prev`, `next`, `ac`, `start`, `end`, `seen`), which are also the fields
the spec lists for a PageBuffer.  `ac` is a handle of the caller's context. -/
structure page where
  bytes : List Nat := []
  seq : Sequence := 0
  prev : Option Nat := none
  next : Option Nat := none
  ac : Option Nat := none
  start : Bool := false
  end_ : Bool := false
  seen : Int := 0
  deriving DecidableEq, Repr

/-- What `new(page)` returns: the zero value. -/
def page.zero : page := {}

/-- All page objects, addressed by index. -/
abbrev Heap := List page

/-- Read the page at address `i`. -/
def Heap.rd (h : Heap) (i : Nat) : page := h.getD i page.zero

/-- Update the page at address `i`. -/
def Heap.wr (h : Heap) (i : Nat) (f : page → page) : Heap := h.set i (f (h.rd i))

/-! ## `memory_safe.go`: the page cache -/

/-- The struct `SafePageCache`.  `pagePool` holds the addresses of the pages
that were put into the `sync.Pool` (most recent first).  `now` is the reading
of `time.Now()`; the times are in nanoseconds. -/
structure SafePageCache where
  pagePool : List Nat := []
  used : Int := 0
  pageRequests : Int := 0
  maxPages : Int := 0
  lastEviction : Int := 0
  evictionPeriod : Int := 0
  now : Int := 0
  deriving DecidableEq, Repr

/-- The memory the assembler works on: the pages and the page cache. -/
structure Store where
  heap : Heap := []
  pc : SafePageCache := {}
  deriving DecidableEq, Repr

/-- `newSafePageCache`. -/
def newSafePageCache (maxPages : Int) : SafePageCache :=
  let maxPages := if maxPages ≤ 0 then 10000 else maxPages
  { pagePool := [], maxPages := maxPages, evictionPeriod := 30 * 1000000000 }

/-- `SafePageCache.performEviction`: once per eviction period the pool of
recycled pages is replaced by an empty one. -/
def SafePageCache.performEviction (c : SafePageCache) : SafePageCache :=
  if c.now - c.lastEviction < c.evictionPeriod then c
  else { c with pagePool := [], lastEviction := c.now }

/-- `c.pagePool.Get().(*page)`: a recycled page when the pool holds one,
otherwise a page made by `New`. -/
def SafePageCache.poolGet (st : Store) : Store × Nat :=
  match st.pc.pagePool with
  | [] => ({ st with heap := st.heap ++ [page.zero] }, st.heap.length)
  | i :: rest => ({ st with pc := { st.pc with pagePool := rest } }, i)

/-- `SafePageCache.next`. -/
def SafePageCache.next (st : Store) (ts : Int) : Store × Except GoError Nat :=
  let st1 : Store := { st with pc := { st.pc with pageRequests := st.pc.pageRequests + 1 } }
  let st2 : Store :=
    if st1.pc.used ≥ st1.pc.maxPages then { st1 with pc := st1.pc.performEviction } else st1
  if st1.pc.used ≥ st1.pc.maxPages ∧ st2.pc.used ≥ st2.pc.maxPages then
    (st2, .error .pageCacheLimit)
  else
    let (st3, p) := SafePageCache.poolGet st2
    let clear : page → page := fun q =>
      { q with seen := ts, bytes := [], prev := none, next := none, ac := none }
    let heap := st3.heap.wr p clear
    ({ heap := heap, pc := { st3.pc with used := st3.pc.used + 1 } }, .ok p)

/-- `SafePageCache.replace`. -/
def SafePageCache.replace (st : Store) (p : Option Nat) : Store :=
  match p with
  | none => st
  | some i =>
    let clear : page → page := fun q => { q with bytes := [], prev := none, next := none, ac := none }
    let heap := st.heap.wr i clear
    { heap := heap, pc := { st.pc with used := st.pc.used - 1, pagePool := i :: st.pc.pagePool } }

/-- Modelled from the spec: the method `page.release` is declared outside the
files at hand; by the spec a page dropped by the overlap walk is released to
the page pool and counts as one page (`pages -= 1`). -/
def page.release (st : Store) (p : Nat) : Store × Int :=
  (SafePageCache.replace st (some p), 1)

/-! ## `tcpassembly_safe.go`: half connections and live packets -/

/-- Modelled from the spec: the struct `halfconnection` is declared outside the
files at hand; the fields are the ones the source files use, which the spec
lists for a HalfConnection.  `stream` is a handle of the user's stream (`none`
is `nil`). -/
structure halfconnection where
  pages : Int := 0
  first : Option Nat := none
  last : Option Nat := none
  nextSeq : Sequence := invalidSequence
  ackSeq : Sequence := invalidSequence
  lastSeen : Int := 0
  closed : Bool := false
  queuedPackets : Int := 0
  queuedBytes : Int := 0
  overlapPackets : Int := 0
  overlapBytes : Int := 0
  stream : Option Nat := none
  deriving DecidableEq, Repr

/-- Modelled from the spec: the struct `livePacket` is declared outside the
files at hand; the fields are the ones `handleBytesSafe` fills in, and `ci` is
the timestamp `captureInfo().Timestamp` returns. -/
structure livePacket where
  bytes : List Nat := []
  start : Bool := false
  end_ : Bool := false
  seq : Sequence := 0
  ac : Option Nat := none
  ci : Int := 0
  deriving DecidableEq, Repr

/-- The clean-up loop of `convertToPagesSafe`:
`for p := first; p != nil; { tmp := p.next; pc.replace(p); p = tmp }`. -/
def convertToPagesSafe.cleanup : Nat → Store → Option Nat → Except Fault Store
  | 0, _, _ => .error .outOfFuel
  | _ + 1, st, none => .ok st
  | fuel + 1, st, some p =>
    let tmp := (st.heap.rd p).next
    convertToPagesSafe.cleanup fuel (SafePageCache.replace st (some p)) tmp

/-- The statements `current.bytes = current.buf[:length]`,
`copy(current.bytes, bytes)` and `current.seq = seq` of `convertToPagesSafe`;
`b` holds the first `length` bytes of `bytes`. -/
def convertToPagesSafe.fill (st : Store) (current : Nat) (b : List Nat) (seq : Sequence) : Store :=
  { st with heap := st.heap.wr current (fun q => { q with bytes := b, seq := seq }) }

/-- The statements `current.end = lp.end` and `current.next = nil` of
`convertToPagesSafe`. -/
def convertToPagesSafe.finish (st : Store) (current : Nat) (e : Bool) : Store :=
  { st with heap := st.heap.wr current (fun q => { q with end_ := e, next := none }) }

/-- The statements `current.next = next`, `next.prev = current` and (with
`current = next`) `current.ac = nil` of `convertToPagesSafe`. -/
def convertToPagesSafe.link (st : Store) (current next : Nat) : Store :=
  let heap := st.heap.wr current (fun q => { q with next := some next })
  let heap := heap.wr next (fun q => { q with prev := some current })
  let heap := heap.wr next (fun q => { q with ac := none })
  { st with heap := heap }

/-- The main loop of `convertToPagesSafe`.  `pageBytes` is the size of a
page's buffer, `fuel0` the fuel of the clean-up loop. -/
def convertToPagesSafe.loop (pageBytes : Nat) (lp : livePacket) (ts : Int) (first : Nat)
    (fuel0 : Nat) : Nat → Store → Nat → Int → Sequence → List Nat →
    Except Fault (Store × Except GoError (Nat × Nat × Int))
  | 0, _, _, _, _, _ => .error .outOfFuel
  | fuel + 1, st, current, numPages, seq, bytes =>
    let length : Nat := min bytes.length pageBytes
    -- current.bytes = current.buf[:length]: the buffer has pageBytes bytes
    if length ≤ pageBytes then
      let st := convertToPagesSafe.fill st current (bytes.take length) seq
      -- bytes = bytes[length:]
      match sliceFrom bytes length with
      | .error f => .error f
      | .ok bytes =>
        if bytes.length = 0 then
          .ok (convertToPagesSafe.finish st current lp.end_, .ok (first, current, numPages))
        else
          let seq := seq.Add length
          match SafePageCache.next st ts with
          | (st, .error err) =>
            match convertToPagesSafe.cleanup fuel0 st (some first) with
            | .error f => .error f
            | .ok st => .ok (st, .error err)
          | (st, .ok next) =>
            convertToPagesSafe.loop pageBytes lp ts first fuel0 fuel
              (convertToPagesSafe.link st current next) next (numPages + 1) seq bytes
    else .error .indexOutOfRange

/-- `livePacket.convertToPagesSafe`.  On success the result is
`(first, last, numPages)`. -/
def livePacket.convertToPagesSafe (fuel pageBytes : Nat) (lp : livePacket) (st : Store)
    (skip : Int) (ac : Option Nat) : Except Fault (Store × Except GoError (Nat × Nat × Int)) :=
  if skip < 0 ∨ skip > lp.bytes.length then .ok (st, .error .invalidSkip)
  else
    let ts := lp.ci
    match SafePageCache.next st ts with
    | (st, .error err) => .ok (st, .error err)
    | (st, .ok first) =>
      let st := { st with heap := st.heap.wr first (fun q => { q with prev := none }) }
      let heap := st.heap.wr first (fun q => { q with ac := ac, start := lp.start && decide (skip = 0) })
      let st := { st with heap := heap }
      match sliceFrom lp.bytes skip with
      | .error f => .error f
      | .ok bytes =>
        convertToPagesSafe.loop pageBytes lp ts first fuel fuel st first 1 (lp.seq.Add skip) bytes

/-- The state of the overlap walk of `checkOverlapSafe`: the memory, the half
connection, and the local variables `cur` and `next`. -/
structure WalkState where
  st : Store
  half : halfconnection
  cur : Option Nat
  next : Option Nat
  deriving DecidableEq, Repr

/-- The statement `if cur.prev != nil { cur.prev.next = cur.next } else
{ half.first = cur.next }` of `checkOverlapSafe`. -/
def checkOverlapSafe.unlinkPrev (w : WalkState) (cur : Nat) : WalkState :=
  match (w.st.heap.rd cur).prev with
  | some p =>
    let heap := w.st.heap.wr p (fun q => { q with next := (w.st.heap.rd cur).next })
    { w with st := { w.st with heap := heap } }
  | none => { w with half := { w.half with first := (w.st.heap.rd cur).next } }

/-- The statement `if cur.next != nil { cur.next.prev = cur.prev } else
{ half.last = cur.prev }` of `checkOverlapSafe`. -/
def checkOverlapSafe.unlinkNext (w : WalkState) (cur : Nat) : WalkState :=
  match (w.st.heap.rd cur).next with
  | some n =>
    let heap := w.st.heap.wr n (fun q => { q with prev := (w.st.heap.rd cur).prev })
    { w with st := { w.st with heap := heap } }
  | none => { w with half := { w.half with last := (w.st.heap.rd cur).prev } }

/-- The "complete overlap" case of the walk of `checkOverlapSafe`: `cur` is
unlinked from its neighbours (or from `half.first`, `half.last`) and released,
and the walk goes on with `cur.prev`. -/
def checkOverlapSafe.dropCur (w : WalkState) (cur : Nat) : WalkState :=
  let w := checkOverlapSafe.unlinkPrev w cur
  let w := checkOverlapSafe.unlinkNext w cur
  let tmp := (w.st.heap.rd cur).prev
  let r := page.release w.st cur
  { w with st := r.1, half := { w.half with pages := w.half.pages - r.2 }, cur := tmp }

/-- The loop `for cur != nil { ... }` of `checkOverlapSafe`; `start` and `end`
are the bounds of the segment. -/
def checkOverlapSafe.walk (start end_ : Sequence) : Nat → WalkState → Except Fault WalkState
  | 0, _ => .error .outOfFuel
  | fuel + 1, w =>
    match w.cur with
    | none => .ok w
    | some cur =>
      let c := w.st.heap.rd cur
      let curEnd := c.seq.Add c.bytes.length
      let diffStart := start.Difference c.seq
      let diffEnd := end_.Difference curEnd
      if diffEnd ≤ 0 ∧ diffStart ≥ 0 then
        -- complete overlap: remove cur
        checkOverlapSafe.walk start end_ fuel (checkOverlapSafe.dropCur w cur)
      else if diffEnd < 0 ∧ start.Difference curEnd > 0 then
        -- trim the end of cur, then stop
        let trimLen := start.Difference c.seq
        if trimLen > 0 ∧ trimLen < c.bytes.length then
          match sliceTo c.bytes trimLen with
          | .error f => .error f
          | .ok b =>
            let heap := w.st.heap.wr cur (fun q => { q with bytes := b })
            .ok { w with st := { w.st with heap := heap } }
        else .ok w
      else if diffStart > 0 ∧ end_.Difference c.seq < 0 then
        -- trim the start of cur, remember it as next
        let trimLen := end_.Difference c.seq
        if trimLen > 0 ∧ trimLen < c.bytes.length then
          match sliceFrom c.bytes trimLen with
          | .error f => .error f
          | .ok b =>
            let heap := w.st.heap.wr cur (fun q => { q with bytes := b })
            let heap := heap.wr cur (fun q => { q with seq := q.seq.Add trimLen })
            checkOverlapSafe.walk start end_ fuel
              { w with st := { w.st with heap := heap }, next := some cur, cur := (heap.rd cur).prev }
        else
          checkOverlapSafe.walk start end_ fuel
            { w with next := some cur, cur := (w.st.heap.rd cur).prev }
      else
        checkOverlapSafe.walk start end_ fuel { w with cur := (w.st.heap.rd cur).prev }

/-- The statements of `checkOverlapSafe` under the comment "Link pages": the
run `p .. p2` is linked after `cur` (or becomes the head of the list) and
before `next` (or becomes its tail). -/
def checkOverlapSafe.link (st : Store) (half : halfconnection) (cur next : Option Nat)
    (p p2 : Nat) : Store × halfconnection :=
  let r : Store × halfconnection :=
    match cur with
    | some cur =>
      let heap := st.heap.wr cur (fun q => { q with next := some p })
      let heap := heap.wr p (fun q => { q with prev := some cur })
      ({ st with heap := heap }, half)
    | none => (st, { half with first := some p })
  match next with
  | some next =>
    let heap := r.1.heap.wr p2 (fun q => { q with next := some next })
    let heap := heap.wr next (fun q => { q with prev := some p2 })
    ({ r.1 with heap := heap }, r.2)
  | none => (r.1, { r.2 with last := some p2 })

/-- `SafeAssembler.checkOverlapSafe`; `lp` is `a.cacheLP` and `st.pc` is
`a.pc`.  The result holds the memory and the half connection after the call and
the returned `error` (`none` is `nil`). -/
def checkOverlapSafe (fuel pageBytes : Nat) (lp : livePacket) (st : Store) (half : halfconnection)
    (queue : Bool) (ac : Option Nat) : Except Fault (Store × halfconnection × Option GoError) :=
  if lp.bytes.length = 0 ∧ queue = false then .ok (st, half, none)
  else
    let bytes := lp.bytes
    let start := lp.seq
    let end_ := start.Add bytes.length
    match checkOverlapSafe.walk start end_ fuel { st := st, half := half, cur := half.last, next := none } with
    | .error f => .error f
    | .ok w =>
      if bytes.length > 0 ∧ queue = true then
        match lp.convertToPagesSafe fuel pageBytes w.st 0 ac with
        | .error f => .error f
        | .ok (st, .error err) => .ok (st, w.half, some err)
        | .ok (st, .ok (p, p2, numPages)) =>
          let half := { w.half with
            queuedPackets := w.half.queuedPackets + 1,
            queuedBytes := w.half.queuedBytes + bytes.length,
            pages := w.half.pages + numPages }
          let r := checkOverlapSafe.link st half w.cur w.next p p2
          .ok (r.1, r.2, none)
      else .ok (w.st, w.half, none)

/-- `SafeAssembler.overlapExistingSafe`: the result holds the half connection
after the call and the returned pair. -/
def overlapExistingSafe (half : halfconnection) (start _end : Sequence) (bytes : List Nat) :
    Except Fault (halfconnection × List Nat × Sequence) :=
  if half.nextSeq = invalidSequence ∨ bytes.length = 0 then .ok (half, bytes, start)
  else
    let diff := start.Difference half.nextSeq
    if diff ≤ 0 then .ok (half, bytes, start)
    else if diff ≥ bytes.length then .ok (half, [], half.nextSeq)
    else
      let half := { half with
        overlapPackets := half.overlapPackets + 1,
        overlapBytes := half.overlapBytes + diff }
      match sliceFrom bytes diff with
      | .error f => .error f
      | .ok b => .ok (half, b, half.nextSeq)

/-- The pages reached from `p` by following `next`, at most `fuel` of them. -/
def pagesFrom (h : Heap) : Nat → Option Nat → List Nat
  | 0, _ => []
  | _ + 1, none => []
  | fuel + 1, some i => i :: pagesFrom h fuel (h.rd i).next

/-- The list of pages of a half connection, from `first` along `next`. -/
def halfconnection.pageList (h : Heap) (half : halfconnection) : List Nat :=
  pagesFrom h (h.length + 1) half.first

/-- Page `a` lies wholly before page `b`: `b` starts after the start of `a`
and at or after the end of `a`. -/
def pageBefore (h : Heap) (a b : Nat) : Prop :=
  0 < (h.rd a).seq.Difference (h.rd b).seq ∧
    0 ≤ ((h.rd a).seq.Add (h.rd a).bytes.length).Difference (h.rd b).seq

instance (h : Heap) (a b : Nat) : Decidable (pageBefore h a b) := by
  unfold pageBefore
  infer_instance

/-- The pages `ids` are sorted by strictly increasing sequence and no two of
them cover the same byte. -/
def sortedPages (h : Heap) (ids : List Nat) : Prop :=
  ids.Pairwise (pageBefore h)

instance (h : Heap) (ids : List Nat) : Decidable (sortedPages h ids) := by
  unfold sortedPages
  infer_instance

/-! ## `tcpassembly_safe.go`: assembling a packet -/

/-- The fields of `layers.TCP` that `AssembleWithContext` reads. -/
structure TCP where
  SYN : Bool := false
  FIN : Bool := false
  RST : Bool := false
  ACK : Bool := false
  Seq : Nat := 0
  Ack : Nat := 0
  Payload : List Nat := []
  SrcPort : Nat := 0
  DstPort : Nat := 0
  deriving DecidableEq, Repr

/-- Modelled from the spec: the interface `byteContainer` is declared outside
the files at hand; an entry of `a.ret` is the address of `a.cacheLP` (which
`handleBytesSafe` appends) or a page drained from the list. -/
inductive byteContainer where
  | cacheLP
  | page (p : Nat)
  deriving DecidableEq, Repr

/-- The struct `AssemblerStats`. -/
structure AssemblerStats where
  PacketsProcessed : Nat := 0
  BytesProcessed : Nat := 0
  Errors : Nat := 0
  ConnectionsFlush : Nat := 0
  deriving DecidableEq, Repr

/-- The fields of `SafeAssembler` that assembling a packet uses; the page cache
`a.pc` is the `pc` of the `Store`. -/
structure SafeAssembler where
  MaxBufferedPagesTotal : Int := 0
  MaxBufferedPagesPerConnection : Int := 0
  ConnectionTimeout : Int := 0
  FlushInterval : Int := 0
  ret : List byteContainer := []
  cacheLP : livePacket := {}
  stats : AssemblerStats := {}
  deriving DecidableEq, Repr

/-- How a call of a callback of the user ends: it returns, or it panics. -/
inductive CallOutcome where
  | returns
  | panics
  deriving DecidableEq, Repr

/-- The callbacks of the user's `Stream` that decide what the assembler does:
`Accept` gets the packet, `nextSeq` and `*start`, and returns its verdict and
the value it leaves in `*start`; `ReassembledSG` gets the bytes of the batch
and returns or panics. -/
structure Stream where
  Accept : TCP → Sequence → Bool → Bool × Bool
  ReassembledSG : List Nat → CallOutcome := fun _ => .returns

/-- The stream of the test file: `testStream.Accept` returns `true` and leaves
`*start` as it is, and `testStream.ReassembledSG` returns. -/
def testStream : Stream := { Accept := fun _ _ start => (true, start) }

/-- The state around one half connection: memory, assembler, the half
connection, the bytes of every `ReassembledSG` call so far, oldest first, and
the number of lines "Stream handler panicked" in the log. -/
structure Machine where
  st : Store := {}
  a : SafeAssembler := {}
  half : halfconnection := {}
  delivered : List (List Nat) := []
  recovered : Nat := 0
  deriving DecidableEq, Repr

/-- Modelled from the spec: the bytes of an entry of the delivery batch. -/
def byteContainer.getBytes (m : Machine) : byteContainer → List Nat
  | .cacheLP => m.a.cacheLP.bytes
  | .page p => (m.st.heap.rd p).bytes

/-- Modelled from the spec: the sequence number of the first byte of an entry
of the delivery batch. -/
def byteContainer.getSeq (m : Machine) : byteContainer → Sequence
  | .cacheLP => m.a.cacheLP.seq
  | .page p => (m.st.heap.rd p).seq

/-- Modelled from the spec: the `end` flag of an entry of the delivery batch. -/
def byteContainer.isEnd (m : Machine) : byteContainer → Bool
  | .cacheLP => m.a.cacheLP.end_
  | .page p => (m.st.heap.rd p).end_

/-- Modelled from the spec: the draining of pages, which `buildSG` and
`addNextFromConn` do outside the files at hand.  The pages at the head of the
half connection's list move into `a.ret` for as long as the head page starts
at `pos`; the result holds the position after the last drained page. -/
def popContiguous : Nat → Machine → Sequence → Except Fault (Machine × Sequence)
  | 0, _, _ => .error .outOfFuel
  | fuel + 1, m, pos =>
    match m.half.first with
    | none => .ok (m, pos)
    | some p =>
      let pg := m.st.heap.rd p
      if pg.seq = pos then
        let m1 : Machine :=
          match pg.next with
          | some n =>
            let heap := m.st.heap.wr n (fun q => { q with prev := none })
            { m with st := { m.st with heap := heap }, half := { m.half with first := some n } }
          | none => { m with half := { m.half with first := none, last := none } }
        let m2 : Machine := { m1 with a := { m1.a with ret := m1.a.ret ++ [.page p] } }
        popContiguous fuel m2 (pos.Add pg.bytes.length)
      else .ok (m, pos)

/-- Modelled from the spec: `addNextFromConn` is declared outside the files at
hand; by the spec (§4.6 step 6) it force-drains the half connection "by
emitting its currently queued contiguous prefix as a delivery (even though gaps
remain past it)": the head page and the pages that follow it without a gap
move from the list to `a.ret`. -/
def addNextFromConn (fuel : Nat) (m : Machine) : Except Fault Machine :=
  match m.half.first with
  | none => .ok m
  | some p =>
    match popContiguous fuel m (m.st.heap.rd p).seq with
    | .error f => .error f
    | .ok r => .ok r.1

/-- Modelled from the spec: "the byte after the last delivered byte" of the
entries `ret`; `dflt` when they hold no byte. -/
def batchEnd (m : Machine) (dflt : Sequence) : List byteContainer → Sequence
  | [] => dflt
  | c :: rest =>
    let bytes := c.getBytes m
    batchEnd m (if bytes.length = 0 then dflt else (c.getSeq m).Add bytes.length) rest

/-- Modelled from the spec: `buildSG` is declared outside the files at hand; by
the spec (§4.6 step 7) the leading pages of the list "whose seq equals
half.next_seq (extended by prior emissions in this batch)" are drained into the
batch, and the sequence it returns is "the byte after the last delivered byte"
(`half.nextSeq` when the batch holds no byte).  The flag it returns is the
`end` flag of the last entry of the batch. -/
def buildSG (fuel : Nat) (m : Machine) : Except Fault (Machine × Bool × Sequence) :=
  let pos := batchEnd m m.half.nextSeq m.a.ret
  match popContiguous fuel m pos with
  | .error f => .error f
  | .ok (m1, nextSeq) =>
    let e := match m1.a.ret.getLast? with
      | some c => c.isEnd m1
      | none => false
    .ok (m1, e, nextSeq)

/-- Modelled from the spec: `cleanSG` is declared outside the files at hand; by
the spec (§4.6 step 7) "on return" of the consumer the pages of the batch are
released to the page pool. -/
def cleanSG (m : Machine) : List byteContainer → Machine
  | [] => m
  | .cacheLP :: rest => cleanSG m rest
  | .page p :: rest =>
    let r := page.release m.st p
    cleanSG { m with st := r.1, half := { m.half with pages := m.half.pages - r.2 } } rest

/-- Modelled from the spec: `closeHalfConnection` is declared outside the files
at hand; by the spec (§4.6 step 8) it marks the half connection `closed`. -/
def closeHalfConnection (m : Machine) : Machine :=
  { m with half := { m.half with closed := true } }

/-- The function literal of `sendToConnectionSafe` that calls
`half.stream.ReassembledSG` under a deferred `recover`.  The call appends the
bytes of the batch to `delivered`.  When the callback panics, the deferred
function recovers the panic and writes a line to the log, and the function
literal returns like after a callback that returned. -/
def sendToConnectionSafe.protectedCall (s : Stream) (m : Machine) (batch : List Nat) : Machine :=
  let m := { m with delivered := m.delivered ++ [batch] }
  match s.ReassembledSG batch with
  | .returns => m
  | .panics => { m with recovered := m.recovered + 1 }

/-- `SafeAssembler.sendToConnectionSafe`; `s` is `half.stream`. -/
def sendToConnectionSafe (fuel : Nat) (s : Stream) (m : Machine) :
    Except Fault (Machine × Sequence × Option GoError) :=
  if m.half.stream = none then .ok (m, invalidSequence, some .nilStreamInConnection)
  else
    match buildSG fuel m with
    | .error f => .error f
    | .ok (m, e, nextSeq) =>
      let batch := (m.a.ret.map (fun c => c.getBytes m)).flatten
      let m := sendToConnectionSafe.protectedCall s m batch
      let m := cleanSG m m.a.ret
      let m := if e then closeHalfConnection m else m
      .ok (m, nextSeq, none)

/-- `SafeAssembler.handleBytesSafe`; `queue` is `action.queue`. -/
def handleBytesSafe (fuel pageBytes : Nat) (m : Machine) (bytes : List Nat) (seq : Sequence)
    (start end_ : Bool) (queue : Bool) (ac : Option Nat) : Except Fault (Machine × Option GoError) :=
  let lp : livePacket := { m.a.cacheLP with bytes := bytes, start := start, end_ := end_, seq := seq, ac := ac }
  let m : Machine := { m with a := { m.a with cacheLP := lp } }
  let queued : Except Fault (Machine × Bool × Option GoError) :=
    if queue then
      match checkOverlapSafe fuel pageBytes m.a.cacheLP m.st m.half true ac with
      | .error f => .error f
      | .ok (st, half, some err) => .ok ({ m with st := st, half := half }, queue, some err)
      | .ok (st, half, none) =>
        let m : Machine := { m with st := st, half := half }
        if (m.a.MaxBufferedPagesPerConnection > 0 ∧ m.half.pages ≥ m.a.MaxBufferedPagesPerConnection) ∨
            (m.a.MaxBufferedPagesTotal > 0 ∧ m.st.pc.used ≥ m.a.MaxBufferedPagesTotal) then
          match addNextFromConn fuel m with
          | .error f => .error f
          | .ok m => .ok (m, false, none)
        else .ok (m, queue, none)
    else .ok (m, queue, none)
  match queued with
  | .error f => .error f
  | .ok (m, _, some err) => .ok (m, some err)
  | .ok (m, queue, none) =>
    if queue = false then
      match overlapExistingSafe m.half seq (seq.Add bytes.length) m.a.cacheLP.bytes with
      | .error f => .error f
      | .ok (half, b, s) =>
        let lp : livePacket := { m.a.cacheLP with bytes := b, seq := s }
        let m : Machine := { m with half := half, a := { m.a with cacheLP := lp } }
        match checkOverlapSafe fuel pageBytes m.a.cacheLP m.st m.half false ac with
        | .error f => .error f
        | .ok (st, half, some err) => .ok ({ m with st := st, half := half }, some err)
        | .ok (st, half, none) =>
          let m : Machine := { m with st := st, half := half }
          if m.a.cacheLP.bytes.length ≠ 0 ∨ end_ = true ∨ start = true then
            .ok ({ m with a := { m.a with ret := m.a.ret ++ [.cacheLP] } }, none)
          else .ok (m, none)
    else .ok (m, none)

/-- `SafeAssembler.AssembleWithContext` for a packet `t` whose connection is in
the table, `m.half` being the half connection of its direction: the statements
that update the statistics and reset `a.ret`, and the statements under the
connection's lock.  `timestamp` is the capture time of the packet and `s` the
stream of the half connection. -/
def AssembleWithContext.found (fuel pageBytes : Nat) (s : Stream) (m : Machine) (t : TCP)
    (timestamp : Int) (ac : Option Nat) : Except Fault (Machine × Option GoError) :=
  let stats := { m.a.stats with
    PacketsProcessed := (m.a.stats.PacketsProcessed + 1) % 18446744073709551616,
    BytesProcessed := (m.a.stats.BytesProcessed + t.Payload.length) % 18446744073709551616 }
  let m : Machine := { m with a := { m.a with stats := stats, ret := [] } }
  let m : Machine :=
    if m.half.lastSeen < timestamp then { m with half := { m.half with lastSeen := timestamp } }
    else m
  let start := decide (m.half.nextSeq = invalidSequence) && t.SYN
  let (accepted, start) := s.Accept t m.half.nextSeq start
  if accepted = false then .ok (m, none)
  else if m.half.closed then .ok (m, none)
  else
    let seq : Sequence := t.Seq
    let bytes := t.Payload
    let m : Machine := if t.ACK then { m with half := { m.half with ackSeq := t.Ack } } else m
    let r : Machine × Bool :=
      if m.half.nextSeq = invalidSequence then
        if t.SYN ∨ start then
          let nextSeq := if t.SYN then Sequence.Add seq 1 else seq
          ({ m with half := { m.half with nextSeq := nextSeq } }, false)
        else (m, true)
      else
        let diff := m.half.nextSeq.Difference seq
        if diff ≤ 0 then (m, false) else (m, true)
    match handleBytesSafe fuel pageBytes r.1 bytes seq t.SYN (t.RST || t.FIN) r.2 ac with
    | .error f => .error f
    | .ok (m, some err) =>
      let stats := { m.a.stats with Errors := (m.a.stats.Errors + 1) % 18446744073709551616 }
      .ok ({ m with a := { m.a with stats := stats } }, some err)
    | .ok (m, none) =>
      if m.a.ret.length > 0 then
        match sendToConnectionSafe fuel s m with
        | .error f => .error f
        | .ok (m, _, some err) =>
          let stats := { m.a.stats with Errors := (m.a.stats.Errors + 1) % 18446744073709551616 }
          .ok ({ m with a := { m.a with stats := stats } }, some err)
        | .ok (m, nextSeq, none) =>
          if nextSeq ≠ invalidSequence then
            let n := if t.FIN then Sequence.Add nextSeq 1 else nextSeq
            .ok ({ m with half := { m.half with nextSeq := n } }, none)
          else .ok (m, none)
      else .ok (m, none)

/-- The packets `ts` assembled one after the other on the same half
connection; the run stops at the first call that returns an error. -/
def assembleAll (fuel pageBytes : Nat) (s : Stream) :
    Machine → List TCP → Except Fault (Machine × Option GoError)
  | m, [] => .ok (m, none)
  | m, t :: rest =>
    match AssembleWithContext.found fuel pageBytes s m t 0 none with
    | .error f => .error f
    | .ok (m, some err) => .ok (m, some err)
    | .ok (m, none) => assembleAll fuel pageBytes s m rest

/-- An assembler with the default options, no page in memory, and a half
connection that has seen no packet. -/
def freshMachine : Machine :=
  { st := { heap := [], pc := newSafePageCache 50000 },
    a := { MaxBufferedPagesTotal := 50000, MaxBufferedPagesPerConnection := 1000 },
    half := { stream := some 0 } }

/-- The payload of a stream of ten bytes; its first byte has sequence 101. -/
def outOfOrderStream : List Nat := [1, 2, 3, 4, 5, 6, 7, 8, 9, 10]

/-- A SYN at 100 and the stream `outOfOrderStream` behind it, cut into three
segments and presented out of order: bytes 105..108, then 109..110, then
101..104. -/
def outOfOrderPackets : List TCP :=
  [ { SYN := true, Seq := 100 },
    { Seq := 105, Payload := [5, 6, 7, 8] },
    { Seq := 109, Payload := [9, 10] },
    { Seq := 101, Payload := [1, 2, 3, 4] } ]

/-! ## Well-formed lists -/

/-- `BackList h cur nxt ids`: following `prev` from `cur` visits the pages `ids`
and then reaches `nil`, and the `next` of every visited page is the page visited
just before it (`nxt` for the first one). -/
def BackList (h : Heap) : Option Nat → Option Nat → List Nat → Prop
  | cur, _, [] => cur = none
  | cur, nxt, i :: rest =>
    cur = some i ∧ i < h.length ∧ (h.rd i).next = nxt ∧ BackList h (h.rd i).prev (some i) rest

/-- `FwdSeg h a ids b`: following `next` from `a` visits the pages `ids` and
then reaches `b`. -/
def FwdSeg (h : Heap) : Option Nat → List Nat → Option Nat → Prop
  | a, [], b => a = b
  | a, i :: rest, b => a = some i ∧ FwdSeg h (h.rd i).next rest b

/-- The half connection's pages, from `half.last` back to the head of the list,
are `ids`: a doubly linked list without repetition; the recycled pages of the
cache are distinct allocated pages, none of which is in the list. -/
structure WellFormed (st : Store) (half : halfconnection) (ids : List Nat) : Prop where
  list : BackList st.heap half.last none ids
  nodup : ids.Nodup
  pool_nodup : st.pc.pagePool.Nodup
  pool_bound : ∀ i ∈ st.pc.pagePool, i < st.heap.length
  disjoint : ∀ i ∈ ids, i ∉ st.pc.pagePool

/-! ## Example states -/

/-- A memory with one queued page: ten bytes at sequence 10. -/
def exStore : Store :=
  { heap := [{ bytes := [0, 1, 2, 3, 4, 5, 6, 7, 8, 9], seq := 10 }],
    pc := { used := 1, maxPages := 100 } }

/-- The half connection that owns the page of `exStore`. -/
def exHalf : halfconnection :=
  { pages := 1, first := some 0, last := some 0, nextSeq := 5 }

/-- A segment of ten bytes at sequence `seq`. -/
def exSegment (seq : Sequence) : livePacket :=
  { bytes := [20, 21, 22, 23, 24, 25, 26, 27, 28, 29], seq := seq }

/-! ## Sequences of calls on the page cache -/

/-- What happens to a page cache: a call of `next`, a call of `replace` on a
page, or the clock that `time.Now()` reads moving on. -/
inductive CacheEvent where
  | next (ts : Int)
  | replace (p : Nat)
  | tick (now : Int)
  deriving DecidableEq, Repr

/-- Runs the events one after the other.  `out` holds the pages that `next`
has returned and `replace` has not taken back; the result is `none` when
`replace` is called on a page that is not among them. -/
def runCache : Store → List Nat → List CacheEvent → Option (Store × List Nat)
  | st, out, [] => some (st, out)
  | st, out, .next ts :: rest =>
    match SafePageCache.next st ts with
    | (st', .ok p) => runCache st' (p :: out) rest
    | (st', .error _) => runCache st' out rest
  | st, out, .replace p :: rest =>
    if p ∈ out then runCache (SafePageCache.replace st (some p)) (out.erase p) rest else none
  | st, out, .tick now :: rest =>
    runCache { st with pc := { st.pc with now := now } } out rest

/-! ## More example states -/

/-- A memory with two recycled pages in the pool of the cache: page 0 was the
last page of a run that ended a stream (its `end` flag is set), page 1 was the
first page of a run that started one (its `start` flag is set). -/
def recycledStore : Store :=
  { heap := [{ end_ := true }, { start := true }],
    pc := { used := 0, maxPages := 10, pagePool := [0, 1] } }

/-- A packet of 1901 bytes without start or end flag. -/
def longPacket : livePacket :=
  { bytes := List.replicate 1901 0, seq := 10, start := false, end_ := false }

/-- An assembler with `MaxBufferedPagesTotal = 2` whose cache has both pages in
use: the half connection holds the pages 10..13 and 20..23 and expects
sequence 5. -/
def saturatedMachine : Machine :=
  { st := { heap := [{ bytes := [0, 1, 2, 3], seq := 10, next := some 1 },
                     { bytes := [4, 5, 6, 7], seq := 20, prev := some 0 }],
            pc := { newSafePageCache 2 with used := 2 } },
    a := { MaxBufferedPagesTotal := 2, MaxBufferedPagesPerConnection := 1000 },
    half := { pages := 2, first := some 0, last := some 1, nextSeq := 5, stream := some 0 } }

/-! ## The stages of `AssembleWithContext` -/

/-- The first statements of `AssembleWithContext`: the statistics are updated,
`a.ret` is emptied and `half.lastSeen` moves to the packet's timestamp. -/
def AssembleWithContext.prelude (m : Machine) (t : TCP) (timestamp : Int) : Machine :=
  let stats := { m.a.stats with
    PacketsProcessed := (m.a.stats.PacketsProcessed + 1) % 18446744073709551616,
    BytesProcessed := (m.a.stats.BytesProcessed + t.Payload.length) % 18446744073709551616 }
  let m : Machine := { m with a := { m.a with stats := stats, ret := [] } }
  if m.half.lastSeen < timestamp then { m with half := { m.half with lastSeen := timestamp } }
  else m

/-- The statements of `AssembleWithContext` between the checks and the call of
`handleBytesSafe`: `half.ackSeq` and `half.nextSeq` are set, and the result
says whether the segment is to be queued (`action.queue`). -/
def AssembleWithContext.position (m : Machine) (t : TCP) (start : Bool) : Machine × Bool :=
  let seq : Sequence := t.Seq
  let m : Machine := if t.ACK then { m with half := { m.half with ackSeq := t.Ack } } else m
  if m.half.nextSeq = invalidSequence then
    if t.SYN ∨ start then
      let nextSeq := if t.SYN then Sequence.Add seq 1 else seq
      ({ m with half := { m.half with nextSeq := nextSeq } }, false)
    else (m, true)
  else
    let diff := m.half.nextSeq.Difference seq
    if diff ≤ 0 then (m, false) else (m, true)

/-- The statements of `AssembleWithContext` after the call of
`handleBytesSafe`, whose result is `r`. -/
def AssembleWithContext.finish (fuel : Nat) (s : Stream) (t : TCP)
    (r : Except Fault (Machine × Option GoError)) : Except Fault (Machine × Option GoError) :=
  match r with
  | .error f => .error f
  | .ok (m, some err) =>
    let stats := { m.a.stats with Errors := (m.a.stats.Errors + 1) % 18446744073709551616 }
    .ok ({ m with a := { m.a with stats := stats } }, some err)
  | .ok (m, none) =>
    if m.a.ret.length > 0 then
      match sendToConnectionSafe fuel s m with
      | .error f => .error f
      | .ok (m, _, some err) =>
        let stats := { m.a.stats with Errors := (m.a.stats.Errors + 1) % 18446744073709551616 }
        .ok ({ m with a := { m.a with stats := stats } }, some err)
      | .ok (m, nextSeq, none) =>
        if nextSeq ≠ invalidSequence then
          let n := if t.FIN then Sequence.Add nextSeq 1 else nextSeq
          .ok ({ m with half := { m.half with nextSeq := n } }, none)
        else .ok (m, none)
    else .ok (m, none)

/-- An assembler whose cache may hold two pages and has both in use: page 0,
bytes 10..13, is queued on the half connection, which expects sequence 5; page
1 belongs to another half connection. -/
def coveredMachine : Machine :=
  { st := { heap := [{ bytes := [0, 1, 2, 3], seq := 10 }, { bytes := [7], seq := 500 }],
            pc := { newSafePageCache 2 with used := 2 } },
    a := { MaxBufferedPagesTotal := 2, MaxBufferedPagesPerConnection := 1000 },
    half := { pages := 1, first := some 0, last := some 0, nextSeq := 5, stream := some 0 } }

/-- A segment of 1901 bytes at sequence 10: it covers the page of
`coveredMachine` and needs two pages. -/
def coveringPacket : TCP :=
  { Seq := 10, Payload := List.replicate 1901 0 }

/-! ## `memory_safe.go`: the stream pool -/

/-- Modelled from the spec: `gopacket.Flow` is declared outside the files at
hand; by the spec a flow is an "equality-comparable, hashable identifier for
one endpoint pair at one layer".  The endpoints are numbers here. -/
structure Flow where
  src : Nat := 0
  dst : Nat := 0
  deriving DecidableEq, Repr

/-- Modelled from the spec: the reverse of a flow swaps its endpoints. -/
def Flow.Reverse (f : Flow) : Flow := { src := f.dst, dst := f.src }

/-- Modelled from the spec: the type `key` is declared outside the files at
hand; by the spec a key is "an ordered pair (net_flow, transport_flow)". -/
abbrev key := Flow × Flow

/-- Modelled from the spec: the reverse of a key "swaps both flows'
endpoints". -/
def key.Reverse (k : key) : key := (k.1.Reverse, k.2.Reverse)

/-- Modelled from the spec: the struct `connection` is declared outside the
files at hand; by the spec a connection owns two half connections, `c2s` and
`s2c`, and the key it was created under. -/
structure connection where
  key : key := ({}, {})
  c2s : halfconnection := {}
  s2c : halfconnection := {}
  deriving DecidableEq, Repr

/-- Modelled from the spec: `connection.reset` is declared outside the files at
hand; by the spec the connection gets its key and two half connections that
have seen nothing (`nextSeq` invalid), whose stream is `s` and whose
`lastSeen` is `ts`. -/
def connection.reset (k : Reassembly.key) (s : Option Nat) (ts : Int) : connection :=
  { key := k,
    c2s := { nextSeq := invalidSequence, ackSeq := invalidSequence, lastSeen := ts, stream := s },
    s2c := { nextSeq := invalidSequence, ackSeq := invalidSequence, lastSeen := ts, stream := s } }

/-- The two half connections of a connection. -/
inductive Side where
  | c2s
  | s2c
  deriving DecidableEq, Repr

/-- A `*halfconnection`: the address of a connection and the side taken
(`&conn.c2s` or `&conn.s2c`). -/
abbrev HalfRef := Nat × Side

/-- The struct `SafeStreamPool`.  `conns` is the map from keys to connections
(a connection is the index of its object in `objs`), `connPool` holds the
connection objects put into the `sync.Pool`, `closeOnce` says whether
`p.closeOnce` has run its function.  `factoryCalls`, which is no field of the Go
struct, counts the calls of `factory.New`. -/
structure SafeStreamPool where
  conns : List (key × Nat) := []
  objs : List connection := []
  connPool : List Nat := []
  maxConns : Int := 0
  activeConns : Int := 0
  closed : Int := 0
  closeOnce : Bool := false
  newConnCount : Int := 0
  factoryCalls : Nat := 0
  deriving DecidableEq, Repr

/-- `NewSafeStreamPool`. -/
def NewSafeStreamPool (maxConns : Int) : SafeStreamPool :=
  let maxConns := if maxConns ≤ 0 then 100000 else maxConns
  { conns := [], maxConns := maxConns }

/-- The map read `p.conns[k]`: `none` is `nil`. -/
def connsGet : List (key × Nat) → key → Option Nat
  | [], _ => none
  | (k', c) :: rest, k => if k' = k then some c else connsGet rest k

/-- The map write `p.conns[k] = conn`. -/
def connsSet (conns : List (key × Nat)) (k : key) (c : Nat) : List (key × Nat) :=
  (k, c) :: conns.filter (fun e => decide (e.1 ≠ k))

/-- `SafeStreamPool.getHalf`: the connection and its two halves, the half of
the packet's direction first; `none` is `nil, nil, nil`. -/
def SafeStreamPool.getHalf (p : SafeStreamPool) (k : key) : Option (Nat × HalfRef × HalfRef) :=
  match connsGet p.conns k with
  | some conn => some (conn, (conn, .c2s), (conn, .s2c))
  | none =>
    let rk := k.Reverse
    match connsGet p.conns rk with
    | some conn => some (conn, (conn, .s2c), (conn, .c2s))
    | none => none

/-- `p.connPool.Get().(*connection)`: a recycled connection object when the
pool holds one, otherwise a new one. -/
def SafeStreamPool.connGet (p : SafeStreamPool) : SafeStreamPool × Nat :=
  match p.connPool with
  | [] => ({ p with objs := p.objs ++ [{}] }, p.objs.length)
  | c :: rest => ({ p with connPool := rest }, c)

/-- `SafeStreamPool.getConnection`.  `factory` is `p.factory.New`; it returns
the handle of a stream, or `none` for `nil`.  The result is an error, or
`none` for `nil, nil, nil, nil`, or the connection with its two halves. -/
def SafeStreamPool.getConnection (factory : Flow → Flow → TCP → Option Nat → Option Nat)
    (p : SafeStreamPool) (k : key) (end_ : Bool) (ts : Int) (tcp : TCP) (ac : Option Nat) :
    SafeStreamPool × Except GoError (Option (Nat × HalfRef × HalfRef)) :=
  if p.closed ≠ 0 then (p, .error .poolClosed)
  else
    match p.getHalf k with
    | some r => (p, .ok (some r))
    | none =>
      if end_ then (p, .ok none)
      else if p.activeConns ≥ p.maxConns then (p, .error .connectionLimit)
      else
        match p.getHalf k with
        | some r => (p, .ok (some r))
        | none =>
          let s := factory k.1 k.2 tcp ac
          let p : SafeStreamPool := { p with factoryCalls := p.factoryCalls + 1 }
          match s with
          | none => (p, .error .nilStream)
          | some s =>
            let r := p.connGet
            let conn := r.2
            let objs := r.1.objs.set conn (connection.reset k (some s) ts)
            let p : SafeStreamPool := { r.1 with
              objs := objs,
              conns := connsSet r.1.conns k conn,
              activeConns := r.1.activeConns + 1,
              newConnCount := r.1.newConnCount + 1 }
            (p, .ok (some (conn, (conn, .c2s), (conn, .s2c))))

/-- A key of the test file: 1.2.3.4 → 5.6.7.8, port 80 → port 8080. -/
def exKey : key := ({ src := 1234, dst := 5678 }, { src := 80, dst := 8080 })

/-! ## Runs of full pages -/

/-- `FullRun h P prv a s bs ids prv' b s' bs'`: following `next` from `a`
visits the pages `ids` and then reaches `b`.  The first page's `prev` is `prv`
and every other page's `prev` is the page before it (`prv'` is the last page of
`ids`, or `prv` when there is none).  The pages hold the bytes of `bs`, `P`
bytes each, and `bs'` is what is left of `bs`, which is not empty; the pages'
sequences start at `s` and advance by `P`, ending at `s'`. -/
def FullRun (h : Heap) (P : Nat) : Option Nat → Option Nat → Sequence → List Nat → List Nat →
    Option Nat → Option Nat → Sequence → List Nat → Prop
  | prv, a, s, bs, [], prv', b, s', bs' => prv = prv' ∧ a = b ∧ s = s' ∧ bs = bs'
  | prv, a, s, bs, i :: rest, prv', b, s', bs' =>
    a = some i ∧ (h.rd i).prev = prv ∧ (h.rd i).seq = s ∧ (h.rd i).bytes = bs.take P ∧
      P < bs.length ∧
      FullRun h P (some i) (h.rd i).next (Sequence.Add s P) (bs.drop P) rest prv' b s' bs'

/-- Two neighbouring pages of a run: the pointers agree and the sequence
number of the second page is the sequence number of the first plus the number
of bytes of the first. -/
def RunLink (h : Heap) (a b : Nat) : Prop :=
  (h.rd a).next = some b ∧ (h.rd b).prev = some a ∧
    (h.rd b).seq = (h.rd a).seq.Add ((h.rd a).bytes.length : Int)

instance (h : Heap) (a b : Nat) : Decidable (RunLink h a b) := by
  unfold RunLink
  infer_instance

/-- A packet of five bytes. -/
def shortPacket : livePacket :=
  { bytes := [1, 2, 3, 4, 5], seq := 4294967295, start := true, end_ := true }

/-! ## `memory_safe.go`: `remove`, `Close` and `Stats` -/

/-- The map operation `delete(p.conns, k)`. -/
def connsDelete (conns : List (key × Nat)) (k : key) : List (key × Nat) :=
  conns.filter (fun e => decide (e.1 ≠ k))

/-- `SafeStreamPool.remove`; `conn` is the pointer, `none` for `nil`.  The
connection object is reset with the zero key, no stream and the zero time, and
put into the pool of connection objects. -/
def SafeStreamPool.remove (p : SafeStreamPool) (conn : Option Nat) : SafeStreamPool :=
  match conn with
  | none => p
  | some c =>
    let k := (p.objs.getD c {}).key
    if (connsGet p.conns k).isSome then
      { p with
        conns := connsDelete p.conns k,
        activeConns := p.activeConns - 1,
        objs := p.objs.set c (connection.reset ({}, {}) none 0),
        connPool := c :: p.connPool }
    else p

/-- `SafeStreamPool.Close`, with the error it returns (always `nil`).  The
function given to `closeOnce` runs at the first call only; it stores 1 in
`closed` and deletes every key of the table, one after the other. -/
def SafeStreamPool.Close (p : SafeStreamPool) : SafeStreamPool × Option GoError :=
  if p.closeOnce then (p, none)
  else
    let p : SafeStreamPool := { p with closeOnce := true, closed := 1 }
    let conns := p.conns.foldl (fun m e => connsDelete m e.1) p.conns
    ({ p with conns := conns }, none)

/-- The struct `PoolStats`. -/
structure PoolStats where
  ActiveConnections : Int := 0
  TotalCreated : Int := 0
  PoolClosed : Bool := false
  deriving DecidableEq, Repr

/-- `SafeStreamPool.Stats`. -/
def SafeStreamPool.Stats (p : SafeStreamPool) : PoolStats :=
  { ActiveConnections := p.activeConns,
    TotalCreated := p.newConnCount,
    PoolClosed := decide (p.closed ≠ 0) }

/-- A call on the pool: `getConnection` with its arguments, `remove` with a
connection pointer, or `Close`. -/
inductive PoolEvent where
  | getConnection (k : key) (end_ : Bool) (ts : Int) (tcp : TCP) (ac : Option Nat)
  | remove (conn : Option Nat)
  | Close
  deriving DecidableEq, Repr

/-- The pool after a sequence of calls, made one after the other. -/
def runPool (factory : Flow → Flow → TCP → Option Nat → Option Nat) :
    SafeStreamPool → List PoolEvent → SafeStreamPool
  | p, [] => p
  | p, .getConnection k e ts tcp ac :: rest =>
    runPool factory (p.getConnection factory k e ts tcp ac).1 rest
  | p, .remove conn :: rest => runPool factory (p.remove conn) rest
  | p, .Close :: rest => runPool factory p.Close.1 rest

/-- The calls `getConnection(k, false, ts, tcp, ac)` for the arguments of
`calls`, made one after the other: the pool after the last call and the results
of the calls, oldest first. -/
def getConnections (factory : Flow → Flow → TCP → Option Nat → Option Nat) :
    SafeStreamPool → List (key × Int × TCP × Option Nat) →
    SafeStreamPool × List (Except GoError (Option (Nat × HalfRef × HalfRef)))
  | p, [] => (p, [])
  | p, (k, ts, tcp, ac) :: rest =>
    let r := p.getConnection factory k false ts tcp ac
    let rs := getConnections factory r.1 rest
    (rs.1, r.2 :: rs.2)

/-- The counter `created` of `TestSafeAssemblerRaceCondition`: the number of
calls that returned `err == nil && conn != nil`. -/
def created (rs : List (Except GoError (Option (Nat × HalfRef × HalfRef)))) : Nat :=
  (rs.filter (fun r => match r with
    | .ok (some _) => true
    | _ => false)).length

/-- The factory of the test file with `returnNil` unset: `New` returns a
stream (its handle is 0). -/
def testStreamFactory : Flow → Flow → TCP → Option Nat → Option Nat :=
  fun _ _ _ _ => some 0

/-- The factory of the test file with `returnNil` set: `New` returns `nil`. -/
def nilStreamFactory : Flow → Flow → TCP → Option Nat → Option Nat :=
  fun _ _ _ _ => none

/-- No conversation has an entry under a key and another under the reverse of
that key. -/
def OneDirection (conns : List (key × Nat)) : Prop :=
  ∀ k : key, k ≠ k.Reverse → connsGet conns k = none ∨ connsGet conns k.Reverse = none

/-- The segment of `TestSafeAssemblerRaceCondition`: a SYN with sequence 1000
from port 80 to port 8080. -/
def synPacket : TCP := { SYN := true, Seq := 1000, SrcPort := 80, DstPort := 8080 }

/-! ## `tcpassembly_safe.go`: options and construction -/

/-- An `error` as a caller gets it: the error `e` itself (a package variable
such as `ErrNilStream`, or the result of `errors.New`), or an error made by
`fmt.Errorf` with the verb `%w`, which wraps `e`.  The text around the wrapped
error is left out. -/
inductive WrappedError where
  | plain (e : GoError)
  | wrapping (e : GoError)
  deriving DecidableEq, Repr

/-- The test `errors.Is(err, target)`: the error is `target` or wraps it. -/
def WrappedError.Is : WrappedError → GoError → Bool
  | .plain e, target => decide (e = target)
  | .wrapping e, target => decide (e = target)

/-- Ways a call ends without returning: a run-time panic of Go, or a fault of
the model. -/
inductive Panic where
  | nilPointerDereference
  | nonPositiveInterval
  | fault (f : Fault)
  deriving DecidableEq, Repr

/-- The struct `SafeAssemblerOptions`; a `time.Duration` is a number of
nanoseconds. -/
structure SafeAssemblerOptions where
  MaxBufferedPagesTotal : Int := 0
  MaxBufferedPagesPerConnection : Int := 0
  ConnectionTimeout : Int := 0
  FlushInterval : Int := 0
  deriving DecidableEq, Repr

/-- `SafeAssemblerOptions.Validate`: the options after the call and the error
returned, `none` for `nil`.  `2 * time.Minute` is 120000000000 and
`10 * time.Second` is 10000000000. -/
def SafeAssemblerOptions.Validate (o : SafeAssemblerOptions) :
    SafeAssemblerOptions × Option WrappedError :=
  if o.MaxBufferedPagesTotal < 0 then (o, some (.wrapping .invalidOptions))
  else if o.MaxBufferedPagesPerConnection < 0 then (o, some (.wrapping .invalidOptions))
  else
    let o := if o.MaxBufferedPagesTotal = 0 then { o with MaxBufferedPagesTotal := 50000 } else o
    let o :=
      if o.MaxBufferedPagesPerConnection = 0 then { o with MaxBufferedPagesPerConnection := 1000 }
      else o
    let o := if o.ConnectionTimeout = 0 then { o with ConnectionTimeout := 120000000000 } else o
    let o := if o.FlushInterval = 0 then { o with FlushInterval := 10000000000 } else o
    (o, none)

/-- The state that a `*SafeAssembler` gives access to: the memory with the page
cache `a.pc`, the fields of the assembler, the pool `a.connPool`, the error of
`a.ctx` (`none` while the assembler is open), the bytes of every
`ReassembledSG` call so far, oldest first, and the number of lines "Stream
handler panicked" in the log. -/
structure AssemblerState where
  st : Store := {}
  a : SafeAssembler := {}
  connPool : SafeStreamPool := {}
  ctxErr : Option GoError := none
  delivered : List (List Nat) := []
  recovered : Nat := 0
  deriving DecidableEq, Repr

/-- `NewSafeAssembler`: the error of `Validate` with no assembler, or the new
assembler.  `Validate` works on the function's copy of the options, which the
assembler keeps.  `time.NewTicker` panics when the interval is not positive. -/
def NewSafeAssembler (pool : SafeStreamPool) (options : SafeAssemblerOptions) :
    Except Panic (Except WrappedError AssemblerState) :=
  match options.Validate with
  | (_, some err) => .ok (.error err)
  | (options, none) =>
    let pc := newSafePageCache options.MaxBufferedPagesTotal
    let a : SafeAssembler := { MaxBufferedPagesTotal := options.MaxBufferedPagesTotal, MaxBufferedPagesPerConnection := options.MaxBufferedPagesPerConnection, ConnectionTimeout := options.ConnectionTimeout, FlushInterval := options.FlushInterval, ret := [] }
    if options.FlushInterval ≤ 0 then .error .nonPositiveInterval
    else .ok (.ok { st := { heap := [], pc := pc }, a := a, connPool := pool, ctxErr := none })

/-! ## `tcpassembly_safe.go`: `AssembleWithContext` with the lookup -/

/-- Modelled from the spec: `layers.TCP.TransportFlow` is declared outside the
files at hand; by the spec the key of a segment is
`(net_flow, tcp.transport_flow)`, the transport flow being the one from the
segment's source port to its destination port. -/
def TCP.TransportFlow (t : TCP) : Flow := { src := t.SrcPort, dst := t.DstPort }

/-- The half connection `&conn.c2s` or `&conn.s2c`. -/
def connection.half (c : connection) : Side → halfconnection
  | .c2s => c.c2s
  | .s2c => c.s2c

/-- A write through `&conn.c2s` or `&conn.s2c`. -/
def connection.setHalf (c : connection) (side : Side) (h : halfconnection) : connection :=
  match side with
  | .c2s => { c with c2s := h }
  | .s2c => { c with s2c := h }

/-- The statements of `AssembleWithContext` that count the packet and empty
`a.ret`. -/
def AssembleWithContext.count (a : SafeAssembler) (t : TCP) : SafeAssembler :=
  let stats := { a.stats with
    PacketsProcessed := (a.stats.PacketsProcessed + 1) % 18446744073709551616,
    BytesProcessed := (a.stats.BytesProcessed + t.Payload.length) % 18446744073709551616 }
  { a with stats := stats, ret := [] }

/-- The statement `atomic.AddUint64(&a.stats.Errors, 1)`. -/
def SafeAssembler.countError (a : SafeAssembler) : SafeAssembler :=
  let stats := { a.stats with Errors := (a.stats.Errors + 1) % 18446744073709551616 }
  { a with stats := stats }

/-- `SafeAssembler.AssembleWithContext`.  `t` is the pointer to the TCP layer
and `ac` the context, `none` for `nil`; `streams` gives the stream behind a
handle.  The expression `len(t.Payload)` reads through `t` before `t` is
compared with `nil`.  The call `ac.GetCaptureInfo()` is a method call on the
interface value `ac`: on a nil context it ends in a nil pointer dereference,
on any other context it returns the capture information, whose time is
`timestamp`.  When the lookup returns a
connection, the call goes on as `AssembleWithContext.found` says, on the half
connection of the packet's direction; `found` begins with the statements that
count the packet, which the lookup neither reads nor writes. -/
def SafeAssembler.AssembleWithContext (factory : Flow → Flow → TCP → Option Nat → Option Nat)
    (streams : Nat → Stream) (fuel pageBytes : Nat) (w : AssemblerState) (netFlow : Flow)
    (t : Option TCP) (timestamp : Int) (ac : Option Nat) :
    Except Panic (AssemblerState × Option WrappedError) :=
  match w.ctxErr with
  | some err => .ok (w, some (.wrapping err))
  | none =>
    match t with
    | none => .error .nilPointerDereference
    | some t =>
      let k : key := (netFlow, t.TransportFlow)
      match ac with
      | none => .error .nilPointerDereference
      | some ctx =>
        match w.connPool.getConnection factory k false timestamp t (some ctx) with
        | (pool, .error err) =>
          let a := (AssembleWithContext.count w.a t).countError
          .ok ({ w with connPool := pool, a := a }, some (.wrapping err))
        | (pool, .ok none) =>
          .ok ({ w with connPool := pool, a := AssembleWithContext.count w.a t }, none)
        | (pool, .ok (some (conn, half, _))) =>
          let c := pool.objs.getD conn {}
          match (c.half half.2).stream with
          | none => .error .nilPointerDereference
          | some s =>
            let m : Machine := { st := w.st, a := w.a, half := c.half half.2, delivered := w.delivered, recovered := w.recovered }
            match AssembleWithContext.found fuel pageBytes (streams s) m t timestamp (some ctx) with
            | .error f => .error (.fault f)
            | .ok (m, err) =>
              let objs := pool.objs.set conn (c.setHalf half.2 m.half)
              let pool : SafeStreamPool := { pool with objs := objs }
              .ok ({ w with st := m.st, a := m.a, connPool := pool, delivered := m.delivered, recovered := m.recovered },
                err.map .wrapping)

/-- The assembler of `TestSafeAssemblerRaceCondition`: a pool for 1000
connections, 100 pages in total and 10 for each connection, the other options
at their defaults. -/
def freshAssembler : AssemblerState :=
  { st := { heap := [], pc := newSafePageCache 100 },
    a := { MaxBufferedPagesTotal := 100, MaxBufferedPagesPerConnection := 10, ConnectionTimeout := 120000000000, FlushInterval := 10000000000 },
    connPool := NewSafeStreamPool 1000 }

/-- A segment with FIN from port 80 to port 8080, with sequence 1000 and no
payload. -/
def finPacket : TCP := { FIN := true, Seq := 1000, SrcPort := 80, DstPort := 8080 }

/-! ## A callback that panics -/

/-- A stream like the one of the test file whose `ReassembledSG` panics. -/
def panickingStream : Stream :=
  { Accept := fun _ _ start => (true, start), ReassembledSG := fun _ => .panics }

/-- The first segment of `TestSafeAssemblerNilHandling`: a SYN with sequence
1000 and the payload 1, 2, 3, from port 80 to port 8080. -/
def synDataPacket : TCP :=
  { SYN := true, Seq := 1000, SrcPort := 80, DstPort := 8080, Payload := [1, 2, 3] }

/-- An assembler with `MaxBufferedPagesTotal = 2` whose cache holds one page of
two: the half connection has queued the bytes 10..13 and expects sequence 5
(the state after a SYN at 4 and four bytes at 10). -/
def pressedMachine : Machine :=
  { st := { heap := [{ bytes := [0, 1, 2, 3], seq := 10 }],
            pc := { newSafePageCache 2 with used := 1 } },
    a := { MaxBufferedPagesTotal := 2, MaxBufferedPagesPerConnection := 1000 },
    half := { pages := 1, first := some 0, last := some 0, nextSeq := 5, stream := some 0,
              queuedPackets := 1, queuedBytes := 4 } }

/-! ## Reassembly of a stream -/

/-- C1 fails on the code: after a SYN at 100, the ten bytes 1..10 of the stream
are presented as the segments 105..108, 109..110 and 101..104.  Every call
returns nil, and the bytes handed to `ReassembledSG` are 1, 2, 3, 4: the bytes
5..10 are missing (the page with 5..8 left the list when 9..10 was queued, and
`nextSeq` stays at 105). -/
theorem assemble_out_of_order_loses_bytes :
    (∀ t ∈ outOfOrderPackets,
        t.Payload = (outOfOrderStream.drop (t.Seq - 101)).take t.Payload.length) ∧
      (outOfOrderPackets.map (fun t => t.Payload.length)).sum = outOfOrderStream.length ∧
      (assembleAll 8 1900 testStream freshMachine outOfOrderPackets).map
          (fun r => (r.1.delivered.flatten, r.1.half.nextSeq, r.2)) =
        .ok ([1, 2, 3, 4], 105, none) := by
  decide

/-! ## `overlapExistingSafe` -/

/-- C9: when the segment starts `d` bytes before `nextSeq`, with
`0 < d < len(bytes)`, `overlapExistingSafe` returns the bytes without their
first `d` bytes and the sequence `nextSeq`, and adds 1 to `overlapPackets` and
`d` to `overlapBytes`; when the start is at or after `nextSeq`, or `nextSeq` is
invalid, it returns bytes and start as they are and changes no counter. -/
theorem overlapExistingSafe_spec (half : halfconnection) (start end_ : Sequence)
    (bytes : List Nat) :
    (∀ d : Int, half.nextSeq ≠ invalidSequence → start.Difference half.nextSeq = d →
        0 < d → d < bytes.length →
        overlapExistingSafe half start end_ bytes =
          .ok ({ half with overlapPackets := half.overlapPackets + 1,
                           overlapBytes := half.overlapBytes + d },
               bytes.drop d.toNat, half.nextSeq)) ∧
    (half.nextSeq = invalidSequence ∨ start.Difference half.nextSeq ≤ 0 →
        overlapExistingSafe half start end_ bytes = .ok (half, bytes, start)) := by
  constructor
  · intro d hv hd hpos hlt
    subst hd
    have hlen : ¬ (half.nextSeq = invalidSequence ∨ bytes.length = 0) := by
      intro h0
      rcases h0 with h0 | h0
      · exact hv h0
      · rw [h0] at hlt
        simp at hlt
        omega
    have h1 : ¬ (start.Difference half.nextSeq ≤ 0) := by omega
    have h2 : ¬ (start.Difference half.nextSeq ≥ (bytes.length : Int)) := by omega
    have h3 : 0 ≤ start.Difference half.nextSeq ∧
        start.Difference half.nextSeq ≤ (bytes.length : Int) := by omega
    unfold overlapExistingSafe
    rw [if_neg hlen]
    simp only [if_neg h1, if_neg h2, sliceFrom, if_pos h3]
  · intro h
    unfold overlapExistingSafe
    by_cases hc : half.nextSeq = invalidSequence ∨ bytes.length = 0
    · rw [if_pos hc]
    · rw [if_neg hc]
      have h1 : start.Difference half.nextSeq ≤ 0 := by
        rcases h with h | h
        · exact absurd (Or.inl h) hc
        · exact h
      simp only [if_pos h1]

/-- Witness of C9: a segment of five bytes that starts at 7 when `nextSeq` is
10 loses its first three bytes; one that starts at 10 is left as it is. -/
theorem overlapExistingSafe_spec_witness :
    overlapExistingSafe { nextSeq := 10 } 7 12 [1, 2, 3, 4, 5] =
        .ok ({ nextSeq := 10, overlapPackets := 1, overlapBytes := 3 }, [4, 5], 10) ∧
      overlapExistingSafe { nextSeq := 10 } 10 15 [1, 2, 3, 4, 5] =
        .ok ({ nextSeq := 10 }, [1, 2, 3, 4, 5], 10) :=
  ⟨(overlapExistingSafe_spec { nextSeq := 10 } 7 12 [1, 2, 3, 4, 5]).1 3
      (by decide) (by decide) (by decide) (by decide),
   (overlapExistingSafe_spec { nextSeq := 10 } 10 15 [1, 2, 3, 4, 5]).2
      (Or.inr (by decide))⟩

/-- C10 fails on the code: a segment of five bytes at sequence 2 lies wholly
before `nextSeq = 10`; `overlapExistingSafe` returns no bytes, and neither
`overlapBytes` nor `overlapPackets` has changed. -/
theorem overlapExistingSafe_full_overlap_counters_unchanged :
    overlapExistingSafe { nextSeq := 10, overlapPackets := 0, overlapBytes := 0 } 2 7
        [1, 2, 3, 4, 5] =
      .ok ({ nextSeq := 10, overlapPackets := 0, overlapBytes := 0 }, [], 10) := by
  decide

/-! ## `checkOverlapSafe` on concrete lists -/

/-- C2 fails on the code: the half connection holds one page, bytes 10..19; a
segment with bytes 30..39 is queued.  Afterwards the list of the half
connection holds the new page alone: the old page is no longer in it, although
it was not released (the cache counts two pages in use). -/
theorem checkOverlapSafe_disjoint_segment_drops_queued_page :
    exHalf.pageList exStore.heap = [0] ∧
      (checkOverlapSafe 8 1900 (exSegment 30) exStore exHalf true none).map
          (fun r => (r.2.1.pageList r.1.heap, r.2.1.first, r.2.1.last, r.1.pc.used, r.2.2)) =
        .ok ([1], some 1, some 1, 2, none) := by
  decide

/-- C3 fails on the code: the half connection holds one page, bytes 10..19; a
segment with bytes 15..24 is queued.  Afterwards the list holds the old page,
still with bytes 10..19, followed by the new page with bytes 15..24: the two
pages share the bytes 15..19. -/
theorem checkOverlapSafe_queue_breaks_sortedness :
    sortedPages exStore.heap (exHalf.pageList exStore.heap) ∧
      (checkOverlapSafe 8 1900 (exSegment 15) exStore exHalf true none).map
          (fun r => (r.2.1.pageList r.1.heap, decide (sortedPages r.1.heap (r.2.1.pageList r.1.heap)),
            (r.1.heap.rd 0).seq, (r.1.heap.rd 0).bytes.length, (r.1.heap.rd 1).seq)) =
        .ok ([0, 1], false, 10, 10, 15) := by
  decide

/-- C4 fails on the code: the half connection holds one page (`pages = 1`); a
segment that lies wholly before the page is queued.  Afterwards `pages` is 2
and one page is reachable from `first`. -/
theorem checkOverlapSafe_pages_counter_exceeds_list :
    exHalf.pages = (exHalf.pageList exStore.heap).length ∧
      (checkOverlapSafe 8 1900 { bytes := [1, 2, 3, 4], seq := 2 } exStore exHalf true none).map
          (fun r => (r.2.1.pages, (r.2.1.pageList r.1.heap).length, r.2.2)) =
        .ok (2, 1, none) := by
  decide

/-- C6 fails on the code: the page holds bytes 10..19 and the segment starts at
15, inside the page, and ends at 25, beyond it.  The page is not truncated: it
still holds ten bytes and ends at 20. -/
theorem checkOverlapSafe_suffix_overlap_not_trimmed :
    (checkOverlapSafe 8 1900 (exSegment 15) exStore exHalf false none).map
        (fun r => ((r.1.heap.rd 0).seq, (r.1.heap.rd 0).bytes)) =
      .ok (10, [0, 1, 2, 3, 4, 5, 6, 7, 8, 9]) := by
  decide

/-- C7 fails on the code: the page holds bytes 10..19 and the segment starts at
5, before the page, and ends at 15, inside it.  The page keeps its sequence 10
and its ten bytes; it does become the successor of the queued run. -/
theorem checkOverlapSafe_prefix_overlap_not_trimmed :
    (checkOverlapSafe 8 1900 (exSegment 5) exStore exHalf true none).map
        (fun r => ((r.1.heap.rd 0).seq, (r.1.heap.rd 0).bytes, r.2.1.pageList r.1.heap)) =
      .ok (10, [0, 1, 2, 3, 4, 5, 6, 7, 8, 9], [1, 0]) := by
  decide

/-! ## No slice expression leaves its bounds -/

theorem sliceFrom_ok (b : List Nat) (n : Int) (h : 0 ≤ n ∧ n ≤ b.length) :
    sliceFrom b n = .ok (b.drop n.toNat) := by
  simp only [sliceFrom, if_pos h]

theorem sliceTo_ok (b : List Nat) (n : Int) (h : 0 ≤ n ∧ n ≤ b.length) :
    sliceTo b n = .ok (b.take n.toNat) := by
  simp only [sliceTo, if_pos h]

theorem walk_ne_indexOutOfRange (s e : Sequence) : ∀ (fuel : Nat) (w : WalkState),
    checkOverlapSafe.walk s e fuel w ≠ .error .indexOutOfRange := by
  intro fuel
  induction fuel with
  | zero => intro w; simp [checkOverlapSafe.walk]
  | succ n ih =>
    intro w
    rw [checkOverlapSafe.walk]
    split
    · simp
    · dsimp only
      split_ifs with h1 h2 h3 h4 h5
      · apply ih
      · rw [sliceTo_ok _ _ ⟨by omega, by omega⟩]
        simp
      · simp
      · rw [sliceFrom_ok _ _ ⟨by omega, by omega⟩]
        apply ih
      · apply ih
      · apply ih

theorem cleanup_ne_indexOutOfRange : ∀ (fuel : Nat) (st : Store) (p : Option Nat),
    convertToPagesSafe.cleanup fuel st p ≠ .error .indexOutOfRange := by
  intro fuel
  induction fuel with
  | zero => intro st p; simp [convertToPagesSafe.cleanup]
  | succ n ih =>
    intro st p
    cases p with
    | none => simp [convertToPagesSafe.cleanup]
    | some i =>
      rw [convertToPagesSafe.cleanup]
      apply ih

theorem loop_ne_indexOutOfRange (pageBytes : Nat) (lp : livePacket) (ts : Int) (first fuel0 : Nat) :
    ∀ (fuel : Nat) (st : Store) (current : Nat) (numPages : Int) (seq : Sequence)
      (bytes : List Nat),
    convertToPagesSafe.loop pageBytes lp ts first fuel0 fuel st current numPages seq bytes
      ≠ .error .indexOutOfRange := by
  intro fuel
  induction fuel with
  | zero => intro st current numPages seq bytes; simp [convertToPagesSafe.loop]
  | succ n ih =>
    intro st current numPages seq bytes
    rw [convertToPagesSafe.loop]
    dsimp only
    rw [if_pos (Nat.min_le_right _ _)]
    rw [sliceFrom_ok _ _ ⟨by omega, by
      have := Nat.min_le_left bytes.length pageBytes
      omega⟩]
    dsimp only
    split_ifs with h1
    · simp
    · split
      · rename_i st1 err heq
        have hc := cleanup_ne_indexOutOfRange fuel0 st1 (some first)
        split
        · rename_i f hf
          intro hcontra
          injection hcontra with hcontra
          subst hcontra
          exact hc hf
        · simp
      · apply ih

theorem convertToPagesSafe_ne_indexOutOfRange (fuel pageBytes : Nat) (lp : livePacket)
    (st : Store) (skip : Int) (ac : Option Nat) :
    lp.convertToPagesSafe fuel pageBytes st skip ac ≠ .error .indexOutOfRange := by
  unfold livePacket.convertToPagesSafe
  split_ifs with h1
  · simp
  · have hs := sliceFrom_ok lp.bytes skip ⟨by omega, by omega⟩
    simp only [hs]
    split
    · simp
    · apply loop_ne_indexOutOfRange

/-- C8: for every half connection, every memory, every segment and every
amount of fuel, `checkOverlapSafe` does not stop on a slice expression outside
its bounds, and neither does `overlapExistingSafe`, which always returns. -/
theorem slices_stay_in_bounds (fuel pageBytes : Nat) (lp : livePacket) (st : Store)
    (half : halfconnection) (queue : Bool) (ac : Option Nat) (start end_ : Sequence)
    (bytes : List Nat) :
    checkOverlapSafe fuel pageBytes lp st half queue ac ≠ .error .indexOutOfRange ∧
      ∃ r, overlapExistingSafe half start end_ bytes = .ok r := by
  constructor
  · unfold checkOverlapSafe
    split_ifs with h1
    · simp
    · dsimp only
      split
      · rename_i f hf
        intro hcontra
        injection hcontra with hcontra
        subst hcontra
        exact walk_ne_indexOutOfRange _ _ _ _ hf
      · rename_i w hw
        split_ifs with h2
        · split
          · rename_i f hf
            intro hcontra
            injection hcontra with hcontra
            subst hcontra
            exact convertToPagesSafe_ne_indexOutOfRange _ _ _ _ _ _ hf
          · simp
          · simp
        · simp
  · unfold overlapExistingSafe
    dsimp only
    split_ifs with h1 h2 h3
    · exact ⟨_, rfl⟩
    · exact ⟨_, rfl⟩
    · exact ⟨_, rfl⟩
    · rw [sliceFrom_ok _ _ ⟨by omega, by omega⟩]
      exact ⟨_, rfl⟩

/-! ## The `used` counter of the cache and `half.pages` -/

theorem Heap.length_wr (h : Heap) (i : Nat) (f : page → page) :
    (h.wr i f).length = h.length := by
  simp [Heap.wr]

theorem Heap.rd_wr_ne (h : Heap) {i j : Nat} (f : page → page) (hne : i ≠ j) :
    (h.wr i f).rd j = h.rd j := by
  simp [Heap.wr, Heap.rd, List.getD_eq_getElem?_getD, List.getElem?_set_ne hne]

theorem Heap.rd_wr_same (h : Heap) {i : Nat} (f : page → page) (hi : i < h.length) :
    (h.wr i f).rd i = f (h.rd i) := by
  simp [Heap.wr, Heap.rd, List.getD_eq_getElem?_getD, hi]

theorem Heap.rd_append (h l : Heap) {j : Nat} (hj : j < h.length) :
    Heap.rd (h ++ l) j = h.rd j := by
  simp [Heap.rd, List.getD_eq_getElem?_getD, List.getElem?_append_left hj]

theorem BackList_frame {h h' : Heap} (hlen : h'.length = h.length) :
    ∀ (ids : List Nat) (c n : Option Nat), (∀ j ∈ ids, h'.rd j = h.rd j) →
      BackList h c n ids → BackList h' c n ids := by
  intro ids
  induction ids with
  | nil => intro c n _ hb; exact hb
  | cons i rest ih =>
    intro c n hsame hb
    obtain ⟨hc, hi, hn, hrest⟩ := hb
    have hi' : h'.rd i = h.rd i := hsame i (List.mem_cons_self _ _)
    refine ⟨hc, by omega, by rw [hi']; exact hn, ?_⟩
    rw [hi']
    exact ih _ _ (fun j hj => hsame j (List.mem_cons_of_mem _ hj)) hrest

theorem FwdSeg_frame {h h' : Heap} :
    ∀ (ids : List Nat) (a b : Option Nat), (∀ j ∈ ids, (h'.rd j).next = (h.rd j).next) →
      FwdSeg h a ids b → FwdSeg h' a ids b := by
  intro ids
  induction ids with
  | nil => intro a b _ hf; exact hf
  | cons i rest ih =>
    intro a b hsame hf
    obtain ⟨ha, hrest⟩ := hf
    refine ⟨ha, ?_⟩
    rw [hsame i (List.mem_cons_self _ _)]
    exact ih _ _ (fun j hj => hsame j (List.mem_cons_of_mem _ hj)) hrest

theorem FwdSeg_snoc {h : Heap} :
    ∀ (ids : List Nat) (a : Option Nat) (c : Nat) (b : Option Nat),
      FwdSeg h a ids (some c) → (h.rd c).next = b → FwdSeg h a (ids ++ [c]) b := by
  intro ids
  induction ids with
  | nil =>
    intro a c b hf hb
    exact ⟨hf, hb⟩
  | cons i rest ih =>
    intro a c b hf hb
    obtain ⟨ha, hrest⟩ := hf
    exact ⟨ha, ih _ _ _ hrest hb⟩

theorem replace_rd_ne (st : Store) {i j : Nat} (hne : i ≠ j) :
    (SafePageCache.replace st (some i)).heap.rd j = st.heap.rd j := by
  simp only [SafePageCache.replace]
  exact Heap.rd_wr_ne _ _ hne

theorem replace_length (st : Store) (i : Nat) :
    (SafePageCache.replace st (some i)).heap.length = st.heap.length := by
  simp only [SafePageCache.replace]
  exact Heap.length_wr _ _ _

theorem replace_pool (st : Store) (i : Nat) :
    (SafePageCache.replace st (some i)).pc.pagePool = i :: st.pc.pagePool := rfl

theorem replace_maxPages (st : Store) (i : Nat) :
    (SafePageCache.replace st (some i)).pc.maxPages = st.pc.maxPages := rfl

theorem replace_used (st : Store) (i : Nat) :
    (SafePageCache.replace st (some i)).pc.used = st.pc.used - 1 := rfl

theorem cleanup_spec : ∀ (ids : List Nat) (fuel : Nat) (st : Store) (p : Option Nat),
    FwdSeg st.heap p ids none → ids.Nodup → ids.length < fuel →
    ∃ st', convertToPagesSafe.cleanup fuel st p = .ok st' ∧
      st'.pc.used = st.pc.used - ids.length ∧ st'.pc.maxPages = st.pc.maxPages := by
  intro ids
  induction ids with
  | nil =>
    intro fuel st p hf _ hfuel
    have hp : p = none := hf
    subst hp
    cases fuel with
    | zero => simp at hfuel
    | succ k => exact ⟨st, rfl, by simp, rfl⟩
  | cons i rest ih =>
    intro fuel st p hf hnd hfuel
    obtain ⟨hp, hrest⟩ := hf
    subst hp
    cases fuel with
    | zero => simp at hfuel
    | succ k =>
      rw [convertToPagesSafe.cleanup]
      have hi : i ∉ rest := (List.nodup_cons.mp hnd).1
      have hframe : FwdSeg (SafePageCache.replace st (some i)).heap (st.heap.rd i).next rest none := by
        apply FwdSeg_frame rest _ _ _ hrest
        intro j hj
        have hne : i ≠ j := fun e => hi (e ▸ hj)
        rw [replace_rd_ne st hne]
      obtain ⟨st', h1, h2, h3⟩ := ih k _ _ hframe (List.nodup_cons.mp hnd).2 (by simpa using hfuel)
      refine ⟨st', h1, ?_, ?_⟩
      · rw [h2, replace_used]
        simp only [List.length_cons, Nat.cast_add, Nat.cast_one]
        omega
      · rw [h3]
        rfl

theorem performEviction_used (c : SafePageCache) : c.performEviction.used = c.used := by
  unfold SafePageCache.performEviction
  split_ifs <;> rfl

theorem performEviction_maxPages (c : SafePageCache) :
    c.performEviction.maxPages = c.maxPages := by
  unfold SafePageCache.performEviction
  split_ifs <;> rfl

theorem next_of_full (st : Store) (ts : Int) (h : st.pc.maxPages ≤ st.pc.used) :
    ∃ st', SafePageCache.next st ts = (st', .error .pageCacheLimit) ∧ st'.heap = st.heap ∧
      st'.pc.used = st.pc.used ∧ st'.pc.maxPages = st.pc.maxPages := by
  unfold SafePageCache.next
  dsimp only
  have h1 : st.pc.used ≥ st.pc.maxPages := h
  rw [if_pos h1]
  have h2 : st.pc.used ≥ st.pc.maxPages ∧
      (SafePageCache.performEviction { st.pc with pageRequests := st.pc.pageRequests + 1 }).used ≥
      (SafePageCache.performEviction { st.pc with pageRequests := st.pc.pageRequests + 1 }).maxPages := by
    rw [performEviction_used, performEviction_maxPages]
    exact ⟨h1, h1⟩
  rw [if_pos h2]
  refine ⟨_, rfl, rfl, ?_, ?_⟩
  · exact performEviction_used _
  · exact performEviction_maxPages _

theorem next_of_free (st : Store) (ts : Int) (h : st.pc.used < st.pc.maxPages)
    (hnd : st.pc.pagePool.Nodup) (hb : ∀ i ∈ st.pc.pagePool, i < st.heap.length) :
    ∃ st' p, SafePageCache.next st ts = (st', .ok p) ∧
      st'.pc.used = st.pc.used + 1 ∧ st'.pc.maxPages = st.pc.maxPages ∧
      st.heap.length ≤ st'.heap.length ∧ p < st'.heap.length ∧
      (p ∈ st.pc.pagePool ∨ p = st.heap.length) ∧
      st'.pc.pagePool.Nodup ∧ (∀ i ∈ st'.pc.pagePool, i < st'.heap.length) ∧
      (∀ i ∈ st'.pc.pagePool, i ∈ st.pc.pagePool ∧ i ≠ p) ∧
      (∀ j, j < st.heap.length → j ≠ p → st'.heap.rd j = st.heap.rd j) ∧
      (st'.heap.rd p).next = none := by
  unfold SafePageCache.next
  dsimp only
  have h1 : ¬ (st.pc.used ≥ st.pc.maxPages) := by omega
  rw [if_neg h1]
  rw [if_neg (fun hc => h1 hc.1)]
  unfold SafePageCache.poolGet
  cases hp : st.pc.pagePool with
  | nil =>
    dsimp only
    refine ⟨_, _, rfl, rfl, rfl, ?_, ?_, Or.inr rfl, ?_, ?_, ?_, ?_, ?_⟩
    · simp [Heap.length_wr]
    · simp [Heap.length_wr]
    · simp [hp]
    · simp [hp]
    · simp [hp]
    · intro j hj hne
      dsimp only
      rw [Heap.rd_wr_ne _ _ (Ne.symm hne), Heap.rd_append _ _ hj]
    · dsimp only
      rw [Heap.rd_wr_same _ _ (by simp)]
  | cons i rest =>
    dsimp only
    rw [hp] at hnd hb
    have hi : i < st.heap.length := hb i (List.mem_cons_self _ _)
    refine ⟨_, _, rfl, rfl, rfl, ?_, ?_, Or.inl (List.mem_cons_self _ _), ?_, ?_, ?_, ?_, ?_⟩
    · simp [Heap.length_wr]
    · simp [Heap.length_wr, hi]
    · exact (List.nodup_cons.mp hnd).2
    · intro j hj
      dsimp only
      rw [Heap.length_wr]
      exact hb j (List.mem_cons_of_mem _ hj)
    · intro j hj
      refine ⟨List.mem_cons_of_mem _ hj, ?_⟩
      intro e
      exact (List.nodup_cons.mp hnd).1 (e ▸ hj)
    · intro j hj hne
      dsimp only
      rw [Heap.rd_wr_ne _ _ (Ne.symm hne)]
    · dsimp only
      rw [Heap.rd_wr_same _ _ hi]

theorem Heap.rd_wr (h : Heap) (i j : Nat) (f : page → page) :
    (h.wr i f).rd j = if i = j ∧ i < h.length then f (h.rd i) else h.rd j := by
  by_cases hij : i = j
  · subst hij
    by_cases hi : i < h.length
    · rw [Heap.rd_wr_same _ _ hi, if_pos ⟨rfl, hi⟩]
    · rw [if_neg (fun hc => hi hc.2)]
      simp only [Heap.wr, Heap.rd]
      rw [List.set_eq_of_length_le (by omega)]
  · rw [Heap.rd_wr_ne _ _ hij, if_neg (fun hc => hij hc.1)]

theorem fill_next (st : Store) (current : Nat) (b : List Nat) (seq : Sequence) (j : Nat) :
    ((convertToPagesSafe.fill st current b seq).heap.rd j).next = (st.heap.rd j).next := by
  simp only [convertToPagesSafe.fill, Heap.rd_wr]
  split_ifs with h
  · rw [h.1]
  · rfl

theorem fill_length (st : Store) (current : Nat) (b : List Nat) (seq : Sequence) :
    (convertToPagesSafe.fill st current b seq).heap.length = st.heap.length := by
  simp only [convertToPagesSafe.fill, Heap.length_wr]

theorem fill_pc (st : Store) (current : Nat) (b : List Nat) (seq : Sequence) :
    (convertToPagesSafe.fill st current b seq).pc = st.pc := rfl

theorem finish_pc (st : Store) (current : Nat) (e : Bool) :
    (convertToPagesSafe.finish st current e).pc = st.pc := rfl

theorem link_pc (st : Store) (current nx : Nat) :
    (convertToPagesSafe.link st current nx).pc = st.pc := rfl

theorem link_length (st : Store) (current nx : Nat) :
    (convertToPagesSafe.link st current nx).heap.length = st.heap.length := by
  simp only [convertToPagesSafe.link, Heap.length_wr]

theorem link_rd_other (st : Store) {current nx j : Nat} (h1 : current ≠ j) (h2 : nx ≠ j) :
    (convertToPagesSafe.link st current nx).heap.rd j = st.heap.rd j := by
  simp only [convertToPagesSafe.link]
  rw [Heap.rd_wr_ne _ _ h2, Heap.rd_wr_ne _ _ h2, Heap.rd_wr_ne _ _ h1]

theorem link_next_current (st : Store) {current nx : Nat} (h1 : current ≠ nx)
    (h2 : current < st.heap.length) :
    ((convertToPagesSafe.link st current nx).heap.rd current).next = some nx := by
  simp only [convertToPagesSafe.link]
  rw [Heap.rd_wr_ne _ _ (Ne.symm h1), Heap.rd_wr_ne _ _ (Ne.symm h1), Heap.rd_wr_same _ _ h2]

theorem link_next_new (st : Store) {current nx : Nat} (h1 : current ≠ nx) :
    ((convertToPagesSafe.link st current nx).heap.rd nx).next = (st.heap.rd nx).next := by
  simp only [convertToPagesSafe.link, Heap.rd_wr]
  split_ifs <;> simp_all

theorem loop_spec (pageBytes : Nat) (lp : livePacket) (ts : Int) (first fuel0 : Nat)
    (used0 : Int) :
    ∀ (fuel : Nat) (st : Store) (current : Nat) (numPages : Int) (seq : Sequence)
      (bytes : List Nat) (pre : List Nat),
      FwdSeg st.heap (some first) pre (some current) →
      (st.heap.rd current).next = none →
      (pre ++ [current]).Nodup →
      (∀ i ∈ pre ++ [current], i < st.heap.length ∧ i ∉ st.pc.pagePool) →
      st.pc.pagePool.Nodup →
      (∀ i ∈ st.pc.pagePool, i < st.heap.length) →
      st.pc.used = used0 + ((pre.length : Int) + 1) →
      numPages = (pre.length : Int) + 1 →
      st.pc.used ≤ st.pc.maxPages →
      (st.pc.maxPages - st.pc.used).toNat < fuel →
      (st.pc.maxPages - used0).toNat < fuel0 →
      ∃ st' r, convertToPagesSafe.loop pageBytes lp ts first fuel0 fuel st current numPages
          seq bytes = .ok (st', r) ∧
        st'.pc.maxPages = st.pc.maxPages ∧
        ((∃ a b n, r = .ok (a, b, n) ∧ st'.pc.used = used0 + n) ∨
          (∃ e, r = .error e ∧ st'.pc.used = used0)) := by
  intro fuel
  induction fuel with
  | zero =>
    intro st current numPages seq bytes pre _ _ _ _ _ _ _ _ _ hfuel _
    simp at hfuel
  | succ k ih =>
    intro st current numPages seq bytes pre hseg hnone hnd hacq hpnd hpb hused hnum hle hfuel hfuel0
    rw [convertToPagesSafe.loop]
    dsimp only
    rw [if_pos (Nat.min_le_right _ _)]
    rw [sliceFrom_ok _ _ ⟨by omega, by
      have := Nat.min_le_left bytes.length pageBytes
      omega⟩]
    dsimp only
    by_cases hb : (List.drop (↑(min bytes.length pageBytes) : Int).toNat bytes).length = 0
    · rw [if_pos hb]
      refine ⟨_, _, rfl, rfl, Or.inl ⟨_, _, _, rfl, ?_⟩⟩
      rw [finish_pc, fill_pc, hused, hnum]
    · rw [if_neg hb]
      by_cases hfull : st.pc.maxPages ≤ st.pc.used
      · obtain ⟨st1, hnext, hheap, hu, hm⟩ := next_of_full
          (convertToPagesSafe.fill st current (List.take (min bytes.length pageBytes) bytes) seq)
          ts hfull
        rw [hnext]
        dsimp only
        have hchain : FwdSeg st1.heap (some first) (pre ++ [current]) none := by
          rw [hheap]
          apply FwdSeg_snoc
          · exact FwdSeg_frame pre _ _ (fun j _ => fill_next st current _ seq j) hseg
          · rw [fill_next]
            exact hnone
        have hlen : (pre ++ [current]).length < fuel0 := by
          simp only [List.length_append, List.length_singleton]
          omega
        obtain ⟨st2, hc, hu2, hm2⟩ := cleanup_spec _ fuel0 st1 _ hchain hnd hlen
        rw [hc]
        dsimp only
        refine ⟨_, _, rfl, ?_, Or.inr ⟨_, rfl, ?_⟩⟩
        · rw [hm2, hm, fill_pc]
        · rw [hu2, hu, fill_pc, hused]
          simp only [List.length_append, List.length_singleton, Nat.cast_add, Nat.cast_one]
          omega
      · have hfree : st.pc.used < st.pc.maxPages := by omega
        obtain ⟨st1, nx, hnext, hu, hm, hlen1, hnx, hfresh, hpnd1, hpb1, hsub, hsame, hnxnone⟩ :=
          next_of_free
            (convertToPagesSafe.fill st current (List.take (min bytes.length pageBytes) bytes) seq)
            ts hfree hpnd (by
              intro i hi
              rw [fill_length]
              exact hpb i hi)
        rw [hnext]
        dsimp only
        rw [fill_length] at hlen1 hfresh
        rw [fill_pc] at hu hm hfresh hsub
        have hnxacq : ∀ i ∈ pre ++ [current], i ≠ nx := by
          intro i hi e
          subst e
          rcases hfresh with hf | hf
          · exact (hacq i hi).2 hf
          · have := (hacq i hi).1
            omega
        have hcur : current ≠ nx := hnxacq current (by simp)
        have hcurlt : current < st.heap.length := (hacq current (by simp)).1
        have hrec := ih (convertToPagesSafe.link st1 current nx) nx (numPages + 1)
          (seq.Add ↑(min bytes.length pageBytes))
          (List.drop (↑(min bytes.length pageBytes) : Int).toNat bytes) (pre ++ [current])
        have hfin : ∀ {P : Prop}, P → (P → ∃ st' r,
            convertToPagesSafe.loop pageBytes lp ts first fuel0 k
                (convertToPagesSafe.link st1 current nx) nx (numPages + 1)
                (seq.Add ↑(min bytes.length pageBytes))
                (List.drop (↑(min bytes.length pageBytes) : Int).toNat bytes) = .ok (st', r) ∧
              st'.pc.maxPages = (convertToPagesSafe.link st1 current nx).pc.maxPages ∧
              ((∃ a b n, r = .ok (a, b, n) ∧ st'.pc.used = used0 + n) ∨
                (∃ e, r = .error e ∧ st'.pc.used = used0))) → ∃ st' r,
            convertToPagesSafe.loop pageBytes lp ts first fuel0 k
                (convertToPagesSafe.link st1 current nx) nx (numPages + 1)
                (seq.Add ↑(min bytes.length pageBytes))
                (List.drop (↑(min bytes.length pageBytes) : Int).toNat bytes) = .ok (st', r) ∧
              st'.pc.maxPages = st.pc.maxPages ∧
              ((∃ a b n, r = .ok (a, b, n) ∧ st'.pc.used = used0 + n) ∨
                (∃ e, r = .error e ∧ st'.pc.used = used0)) := by
          intro P hP himp
          obtain ⟨st', r, h1, h2, h3⟩ := himp hP
          exact ⟨st', r, h1, by rw [h2, link_pc, hm], h3⟩
        apply hfin (P := True) trivial
        intro _
        apply hrec
        · apply FwdSeg_snoc
          · apply FwdSeg_frame pre _ _ _ hseg
            intro j hj
            have hjm : j ∈ pre ++ [current] := List.mem_append_left _ hj
            have hjc : current ≠ j := by
              intro e
              subst e
              have := List.nodup_append.mp hnd
              exact this.2.2 hj (List.mem_singleton_self _)
            rw [link_rd_other st1 hjc (Ne.symm (hnxacq j hjm))]
            rw [hsame j (by rw [fill_length]; exact (hacq j hjm).1) (hnxacq j hjm)]
            rw [fill_next]
          · exact link_next_current st1 hcur (by omega)
        · rw [link_next_new st1 hcur]
          exact hnxnone
        · rw [List.nodup_append]
          refine ⟨hnd, List.nodup_singleton _, ?_⟩
          intro a ha hb'
          rw [List.mem_singleton] at hb'
          exact hnxacq a ha hb'
        · intro i hi
          rw [link_length, link_pc]
          rcases List.mem_append.mp hi with hi | hi
          · exact ⟨by have := (hacq i hi).1; omega, fun hc => (hacq i hi).2 (hsub i hc).1⟩
          · rw [List.mem_singleton] at hi
            subst hi
            exact ⟨hnx, fun hc => (hsub i hc).2 rfl⟩
        · rw [link_pc]
          exact hpnd1
        · rw [link_pc, link_length]
          exact hpb1
        · rw [link_pc, hu, hused]
          simp only [List.length_append, List.length_singleton, Nat.cast_add, Nat.cast_one]
          omega
        · rw [hnum]
          simp only [List.length_append, List.length_singleton, Nat.cast_add, Nat.cast_one]
        · rw [link_pc, hu, hm]
          omega
        · rw [link_pc, hu, hm]
          omega
        · rw [link_pc, hm]
          exact hfuel0

theorem convertToPagesSafe_spec (fuel pageBytes : Nat) (lp : livePacket) (st : Store)
    (skip : Int) (ac : Option Nat) (hpnd : st.pc.pagePool.Nodup)
    (hpb : ∀ i ∈ st.pc.pagePool, i < st.heap.length)
    (hfuel : (st.pc.maxPages - st.pc.used).toNat < fuel) :
    ∃ st' r, lp.convertToPagesSafe fuel pageBytes st skip ac = .ok (st', r) ∧
      st'.pc.maxPages = st.pc.maxPages ∧
      ((∃ a b n, r = .ok (a, b, n) ∧ st'.pc.used = st.pc.used + n) ∨
        (∃ e, r = .error e ∧ st'.pc.used = st.pc.used)) := by
  unfold livePacket.convertToPagesSafe
  by_cases hskip : skip < 0 ∨ skip > lp.bytes.length
  · rw [if_pos hskip]
    exact ⟨_, _, rfl, rfl, Or.inr ⟨_, rfl, rfl⟩⟩
  · rw [if_neg hskip]
    have hs := sliceFrom_ok lp.bytes skip ⟨by omega, by omega⟩
    simp only [hs]
    by_cases hfull : st.pc.maxPages ≤ st.pc.used
    · obtain ⟨st1, hnext, _, hu, hm⟩ := next_of_full st lp.ci hfull
      rw [hnext]
      exact ⟨_, _, rfl, hm, Or.inr ⟨_, rfl, hu⟩⟩
    · have hfree : st.pc.used < st.pc.maxPages := by omega
      obtain ⟨st1, first, hnext, hu, hm, hlen1, hfirst, hfresh, hpnd1, hpb1, hsub, hsame, hnone⟩ :=
        next_of_free st lp.ci hfree hpnd hpb
      rw [hnext]
      dsimp only
      have hrec := loop_spec pageBytes lp lp.ci first fuel st.pc.used fuel
        { heap := (st1.heap.wr first fun q => { q with prev := none }).wr first fun q =>
            { q with ac := ac, start := lp.start && decide (skip = 0) },
          pc := st1.pc }
        first 1 (lp.seq.Add skip) (List.drop skip.toNat lp.bytes) []
        rfl
        (by
          dsimp only
          simp only [Heap.rd_wr]
          split_ifs <;> simp_all)
        (by simp)
        (by
          intro i hi
          simp only [List.nil_append, List.mem_singleton] at hi
          subst hi
          dsimp only
          simp only [Heap.length_wr]
          exact ⟨hfirst, fun hc => (hsub i hc).2 rfl⟩)
        hpnd1
        (by
          dsimp only
          simp only [Heap.length_wr]
          exact hpb1)
        (by
          dsimp only
          rw [hu]
          simp)
        (by simp)
        (by
          dsimp only
          omega)
        (by
          dsimp only
          omega)
        (by
          dsimp only
          omega)
      obtain ⟨st', r, h1, h2, h3⟩ := hrec
      exact ⟨st', r, h1, by rw [h2]; exact hm, h3⟩

theorem unlinkPrev_rd (w : WalkState) (i j : Nat) :
    (checkOverlapSafe.unlinkPrev w i).st.heap.rd j =
      if (w.st.heap.rd i).prev = some j ∧ j < w.st.heap.length then
        { w.st.heap.rd j with next := (w.st.heap.rd i).next }
      else w.st.heap.rd j := by
  unfold checkOverlapSafe.unlinkPrev
  cases h : (w.st.heap.rd i).prev with
  | none => simp
  | some p =>
    simp only [Heap.rd_wr, Option.some.injEq]
    by_cases hpj : p = j
    · subst hpj
      simp
    · simp [hpj]

theorem unlinkNext_rd (w : WalkState) (i j : Nat) :
    (checkOverlapSafe.unlinkNext w i).st.heap.rd j =
      if (w.st.heap.rd i).next = some j ∧ j < w.st.heap.length then
        { w.st.heap.rd j with prev := (w.st.heap.rd i).prev }
      else w.st.heap.rd j := by
  unfold checkOverlapSafe.unlinkNext
  cases h : (w.st.heap.rd i).next with
  | none => simp
  | some p =>
    simp only [Heap.rd_wr, Option.some.injEq]
    by_cases hpj : p = j
    · subst hpj
      simp
    · simp [hpj]

theorem unlinkPrev_frame (w : WalkState) (i : Nat) :
    (checkOverlapSafe.unlinkPrev w i).st.pc = w.st.pc ∧
      (checkOverlapSafe.unlinkPrev w i).half.pages = w.half.pages ∧
      (checkOverlapSafe.unlinkPrev w i).st.heap.length = w.st.heap.length := by
  unfold checkOverlapSafe.unlinkPrev
  cases (w.st.heap.rd i).prev <;> simp [Heap.length_wr]

theorem unlinkNext_frame (w : WalkState) (i : Nat) :
    (checkOverlapSafe.unlinkNext w i).st.pc = w.st.pc ∧
      (checkOverlapSafe.unlinkNext w i).half.pages = w.half.pages ∧
      (checkOverlapSafe.unlinkNext w i).st.heap.length = w.st.heap.length := by
  unfold checkOverlapSafe.unlinkNext
  cases (w.st.heap.rd i).next <;> simp [Heap.length_wr]

theorem dropCur_frame (w : WalkState) (i : Nat) :
    (checkOverlapSafe.dropCur w i).st.pc.used = w.st.pc.used - 1 ∧
      (checkOverlapSafe.dropCur w i).half.pages = w.half.pages - 1 ∧
      (checkOverlapSafe.dropCur w i).st.pc.maxPages = w.st.pc.maxPages ∧
      (checkOverlapSafe.dropCur w i).st.pc.pagePool = i :: w.st.pc.pagePool ∧
      (checkOverlapSafe.dropCur w i).st.heap.length = w.st.heap.length := by
  obtain ⟨a1, a2, a3⟩ := unlinkPrev_frame w i
  obtain ⟨b1, b2, b3⟩ := unlinkNext_frame (checkOverlapSafe.unlinkPrev w i) i
  simp only [checkOverlapSafe.dropCur, page.release]
  refine ⟨?_, ?_, ?_, ?_, ?_⟩
  · rw [replace_used, b1, a1]
  · rw [b2, a2]
  · rw [replace_maxPages, b1, a1]
  · rw [replace_pool, b1, a1]
  · rw [replace_length, b3, a3]

theorem dropCur_rd (w : WalkState) (i j : Nat) (hne : i ≠ j) :
    (checkOverlapSafe.dropCur w i).st.heap.rd j =
      (checkOverlapSafe.unlinkNext (checkOverlapSafe.unlinkPrev w i) i).st.heap.rd j := by
  simp only [checkOverlapSafe.dropCur, page.release]
  rw [replace_rd_ne _ hne]

theorem dropCur_cur (w : WalkState) (i : Nat) :
    (checkOverlapSafe.dropCur w i).cur =
      ((checkOverlapSafe.unlinkNext (checkOverlapSafe.unlinkPrev w i) i).st.heap.rd i).prev := rfl

theorem dropCur_backList (w : WalkState) (i : Nat) (rest : List Nat) (nxt : Option Nat)
    (hnext : (w.st.heap.rd i).next = nxt)
    (hrest : BackList w.st.heap (w.st.heap.rd i).prev (some i) rest)
    (hnd : (i :: rest).Nodup) (hnxt : ∀ j, nxt = some j → j ∉ i :: rest) :
    BackList (checkOverlapSafe.dropCur w i).st.heap (checkOverlapSafe.dropCur w i).cur nxt rest := by
  have hirest : i ∉ rest := (List.nodup_cons.mp hnd).1
  have hprev_ne : (w.st.heap.rd i).prev ≠ some i := by
    intro hc
    cases rest with
    | nil =>
      have : (w.st.heap.rd i).prev = none := hrest
      rw [this] at hc
      cases hc
    | cons p rest' =>
      have hp : (w.st.heap.rd i).prev = some p := hrest.1
      rw [hp] at hc
      injection hc with hc
      exact hirest (hc ▸ List.mem_cons_self _ _)
  have hnext_ne : (w.st.heap.rd i).next ≠ some i := by
    intro hc
    rw [hnext] at hc
    exact hnxt i hc (List.mem_cons_self _ _)
  have h1i : (checkOverlapSafe.unlinkPrev w i).st.heap.rd i = w.st.heap.rd i := by
    rw [unlinkPrev_rd, if_neg (fun hc => hprev_ne hc.1)]
  have h2i : (checkOverlapSafe.unlinkNext (checkOverlapSafe.unlinkPrev w i) i).st.heap.rd i =
      w.st.heap.rd i := by
    rw [unlinkNext_rd, h1i, if_neg (fun hc => hnext_ne hc.1)]
  rw [dropCur_cur, h2i]
  have hlen := (dropCur_frame w i).2.2.2.2
  cases rest with
  | nil => exact hrest
  | cons p rest' =>
    obtain ⟨hp, hplt, hpn, hrest'⟩ := hrest
    have hpi : i ≠ p := fun e => hirest (e ▸ List.mem_cons_self _ _)
    have hnp : (w.st.heap.rd i).next ≠ some p := by
      intro hc
      rw [hnext] at hc
      exact hnxt p hc (List.mem_cons_of_mem _ (List.mem_cons_self _ _))
    have hp3 : (checkOverlapSafe.dropCur w i).st.heap.rd p =
        { w.st.heap.rd p with next := nxt } := by
      rw [dropCur_rd _ _ _ hpi, unlinkNext_rd, h1i, if_neg (fun hc => hnp hc.1), unlinkPrev_rd,
        if_pos ⟨hp, hplt⟩, hnext]
    refine ⟨hp, by omega, by rw [hp3], ?_⟩
    rw [hp3]
    apply BackList_frame hlen rest' _ _ _ hrest'
    intro j hj
    have hji : i ≠ j := fun e => hirest (e ▸ List.mem_cons_of_mem _ hj)
    have hjp : p ≠ j := by
      intro e
      have := (List.nodup_cons.mp (List.nodup_cons.mp hnd).2).1
      exact this (e ▸ hj)
    have hjn : (w.st.heap.rd i).next ≠ some j := by
      intro hc
      rw [hnext] at hc
      exact hnxt j hc (List.mem_cons_of_mem _ (List.mem_cons_of_mem _ hj))
    have hjprev : ¬ ((w.st.heap.rd i).prev = some j ∧ j < w.st.heap.length) := by
      intro hc
      rw [hp] at hc
      injection hc.1 with hc'
      exact hjp hc'
    rw [dropCur_rd _ _ _ hji, unlinkNext_rd, h1i, if_neg (fun hc => hjn hc.1), unlinkPrev_rd,
      if_neg hjprev]

theorem walk_spec (s e : Sequence) :
    ∀ (ids : List Nat) (fuel : Nat) (w : WalkState) (nxt : Option Nat),
      BackList w.st.heap w.cur nxt ids → ids.Nodup → (∀ j, nxt = some j → j ∉ ids) →
      w.st.pc.pagePool.Nodup → (∀ i ∈ w.st.pc.pagePool, i < w.st.heap.length) →
      (∀ i ∈ ids, i ∉ w.st.pc.pagePool) → ids.length < fuel →
      ∃ w', checkOverlapSafe.walk s e fuel w = .ok w' ∧
        w'.st.pc.used - w'.half.pages = w.st.pc.used - w.half.pages ∧
        w'.st.pc.maxPages = w.st.pc.maxPages ∧
        w.st.pc.used - ids.length ≤ w'.st.pc.used ∧
        w'.st.pc.pagePool.Nodup ∧ (∀ i ∈ w'.st.pc.pagePool, i < w'.st.heap.length) := by
  intro ids
  induction ids with
  | nil =>
    intro fuel w nxt hb _ _ hpnd hpb _ hfuel
    have hcur : w.cur = none := hb
    cases fuel with
    | zero => simp at hfuel
    | succ k =>
      rw [checkOverlapSafe.walk, hcur]
      exact ⟨w, rfl, rfl, rfl, by simp, hpnd, hpb⟩
  | cons i rest ih =>
    intro fuel w nxt hb hnd hnxt hpnd hpb hdisj hfuel
    obtain ⟨hcur, hi, hnext, hrest⟩ := hb
    have hirest : i ∉ rest := (List.nodup_cons.mp hnd).1
    have hndrest : rest.Nodup := (List.nodup_cons.mp hnd).2
    cases fuel with
    | zero => simp at hfuel
    | succ k =>
      have hk : rest.length < k := by simpa using hfuel
      rw [checkOverlapSafe.walk, hcur]
      dsimp only
      split_ifs with h1 h2 h3 h4 h5
      · -- complete overlap
        obtain ⟨f1, f2, f3, f4, f5⟩ := dropCur_frame w i
        have hbl := dropCur_backList w i rest nxt hnext hrest hnd hnxt
        obtain ⟨w', hw, c1, c2, c3, c4, c5⟩ := ih k (checkOverlapSafe.dropCur w i) nxt hbl hndrest
          (fun j hj hm => hnxt j hj (List.mem_cons_of_mem _ hm))
          (by
            rw [f4]
            exact List.nodup_cons.mpr ⟨hdisj i (List.mem_cons_self _ _), hpnd⟩)
          (by
            intro j hj
            rw [f4] at hj
            rw [f5]
            rcases List.mem_cons.mp hj with hj | hj
            · rw [hj]; exact hi
            · exact hpb j hj)
          (by
            intro j hj
            rw [f4]
            intro hc
            rcases List.mem_cons.mp hc with hc | hc
            · exact hirest (hc ▸ hj)
            · exact hdisj j (List.mem_cons_of_mem _ hj) hc)
          hk
        refine ⟨w', hw, ?_, ?_, ?_, c4, c5⟩
        · rw [c1, f1, f2]; omega
        · rw [c2, f3]
        · rw [f1] at c3
          simp only [List.length_cons, Nat.cast_add, Nat.cast_one]
          omega
      · -- trim the end of cur
        rw [sliceTo_ok _ _ ⟨by omega, by omega⟩]
        refine ⟨_, rfl, rfl, rfl, ?_, hpnd, ?_⟩
        · dsimp only
          have : (0 : Int) ≤ ((i :: rest).length : Int) := Int.natCast_nonneg _
          omega
        · dsimp only
          rw [Heap.length_wr]
          exact hpb
      · refine ⟨_, rfl, rfl, rfl, ?_, hpnd, hpb⟩
        have : (0 : Int) ≤ ((i :: rest).length : Int) := Int.natCast_nonneg _
        omega
      · -- trim the start of cur: the guard contradicts the branch condition
        exfalso
        omega
      · obtain ⟨w', hw, c1, c2, c3, c4, c5⟩ := ih k
          { w with next := some i, cur := (w.st.heap.rd i).prev } (some i) hrest hndrest
          (by
            intro j hj hm
            injection hj with hj
            exact hirest (hj ▸ hm))
          hpnd hpb (fun j hj => hdisj j (List.mem_cons_of_mem _ hj)) hk
        refine ⟨w', hw, c1, c2, ?_, c4, c5⟩
        dsimp only at c3
        simp only [List.length_cons, Nat.cast_add, Nat.cast_one]
        omega
      · obtain ⟨w', hw, c1, c2, c3, c4, c5⟩ := ih k
          { w with cur := (w.st.heap.rd i).prev } (some i) hrest hndrest
          (by
            intro j hj hm
            injection hj with hj
            exact hirest (hj ▸ hm))
          hpnd hpb (fun j hj => hdisj j (List.mem_cons_of_mem _ hj)) hk
        refine ⟨w', hw, c1, c2, ?_, c4, c5⟩
        dsimp only at c3
        simp only [List.length_cons, Nat.cast_add, Nat.cast_one]
        omega

theorem checkOverlapSafe_link_frame (st : Store) (half : halfconnection) (cur next : Option Nat)
    (p p2 : Nat) :
    (checkOverlapSafe.link st half cur next p p2).1.pc = st.pc ∧
      (checkOverlapSafe.link st half cur next p p2).2.pages = half.pages := by
  unfold checkOverlapSafe.link
  cases cur <;> cases next <;> exact ⟨rfl, rfl⟩

/-- C5: for a half connection with a well-formed page list, served by a page
cache whose recycled pages are distinct and not in the list, every call of
`checkOverlapSafe` returns (with or without an error) once the fuel covers the
pages of the list and the free capacity of the cache, and the difference
between the cache's `used` counter and `half.pages` is the same after the call
as before it. -/
theorem checkOverlapSafe_used_minus_pages (pageBytes : Nat) (lp : livePacket) (st : Store)
    (half : halfconnection) (queue : Bool) (ac : Option Nat) (ids : List Nat)
    (hwf : WellFormed st half ids) (fuel : Nat)
    (hfuel : (st.pc.maxPages - st.pc.used).toNat + ids.length < fuel) :
    ∃ st' half' err,
      checkOverlapSafe fuel pageBytes lp st half queue ac = .ok (st', half', err) ∧
        st'.pc.used - half'.pages = st.pc.used - half.pages := by
  unfold checkOverlapSafe
  by_cases h0 : lp.bytes.length = 0 ∧ queue = false
  · rw [if_pos h0]
    exact ⟨_, _, _, rfl, rfl⟩
  · rw [if_neg h0]
    dsimp only
    obtain ⟨w, hw, c1, c2, c3, c4, c5⟩ := walk_spec lp.seq (lp.seq.Add lp.bytes.length) ids fuel
      { st := st, half := half, cur := half.last, next := none } none hwf.list hwf.nodup
      (fun j hj => by cases hj) hwf.pool_nodup hwf.pool_bound hwf.disjoint (by omega)
    rw [hw]
    dsimp only at c1 c2 c3 ⊢
    by_cases hq : lp.bytes.length > 0 ∧ queue = true
    · rw [if_pos hq]
      obtain ⟨st1, r, hconv, d1, d2⟩ := convertToPagesSafe_spec fuel pageBytes lp w.st 0 ac c4 c5
        (by rw [c2]; omega)
      rw [hconv]
      rcases d2 with ⟨a, b, n, hr, hu⟩ | ⟨err, hr, hu⟩
      · subst hr
        dsimp only
        obtain ⟨l1, l2⟩ := checkOverlapSafe_link_frame st1
          { w.half with
            queuedPackets := w.half.queuedPackets + 1,
            queuedBytes := w.half.queuedBytes + lp.bytes.length,
            pages := w.half.pages + n } w.cur w.next a b
        refine ⟨_, _, _, rfl, ?_⟩
        rw [l1, l2, hu]
        dsimp only
        omega
      · subst hr
        dsimp only
        refine ⟨_, _, _, rfl, ?_⟩
        rw [hu]
        exact c1
    · rw [if_neg hq]
      exact ⟨_, _, _, rfl, c1⟩

/-- Witness of C5: the half connection of `exHalf` with its one page, and a
segment that is queued behind it. -/
theorem checkOverlapSafe_used_minus_pages_witness :
    WellFormed exStore exHalf [0] ∧
      ∃ st' half' err,
        checkOverlapSafe 200 1900 (exSegment 30) exStore exHalf true none =
            .ok (st', half', err) ∧
          st'.pc.used - half'.pages = exStore.pc.used - exHalf.pages :=
  have hwf : WellFormed exStore exHalf [0] :=
    { list := ⟨rfl, by decide, rfl, rfl⟩
      nodup := by decide
      pool_nodup := by decide
      pool_bound := by decide
      disjoint := by decide }
  ⟨hwf, checkOverlapSafe_used_minus_pages 1900 (exSegment 30) exStore exHalf true none [0] hwf 200
    (by decide)⟩

/-! ## The page cache -/

theorem next_fails_iff (st : Store) (ts : Int) :
    (∃ e, (SafePageCache.next st ts).2 = .error e) ↔ st.pc.used ≥ st.pc.maxPages := by
  constructor
  · rintro ⟨e, he⟩
    by_contra hlt
    unfold SafePageCache.next at he
    dsimp only at he
    rw [if_neg hlt, if_neg (fun hc => hlt hc.1)] at he
    cases he
  · intro h
    obtain ⟨st', hn, _⟩ := next_of_full st ts h
    exact ⟨_, by rw [hn]⟩

theorem next_ok_used (st : Store) (ts : Int) (h : st.pc.used < st.pc.maxPages) :
    ∃ p, (SafePageCache.next st ts).2 = .ok p ∧
      (SafePageCache.next st ts).1.pc.used = st.pc.used + 1 ∧
      (SafePageCache.next st ts).1.pc.maxPages = st.pc.maxPages := by
  unfold SafePageCache.next
  dsimp only
  have h1 : ¬ (st.pc.used ≥ st.pc.maxPages) := by omega
  rw [if_neg h1, if_neg (fun hc => h1 hc.1)]
  unfold SafePageCache.poolGet
  cases st.pc.pagePool <;> exact ⟨_, rfl, rfl, rfl⟩

/-- C18: `SafePageCache.next` returns an error exactly when `used >= maxPages`
at the call; `performEviction` leaves `used` as it is; and a failing `next`
leaves `used` as it is (the error result carries no page). -/
theorem next_error_iff_saturated (st : Store) (ts : Int) :
    ((∃ e, (SafePageCache.next st ts).2 = .error e) ↔ st.pc.used ≥ st.pc.maxPages) ∧
      st.pc.performEviction.used = st.pc.used ∧
      ((∃ e, (SafePageCache.next st ts).2 = .error e) →
        (SafePageCache.next st ts).1.pc.used = st.pc.used) := by
  refine ⟨next_fails_iff st ts, performEviction_used _, ?_⟩
  intro h
  obtain ⟨st', hn, _, hu, _⟩ := next_of_full st ts ((next_fails_iff st ts).mp h)
  rw [hn]
  exact hu

/-- Witness of C18: a cache with two pages in use and `maxPages = 2` refuses a
page and keeps `used = 2`. -/
theorem next_error_iff_saturated_witness :
    (SafePageCache.next { heap := [{}, {}], pc := { used := 2, maxPages := 2 } } 0).1.pc.used = 2 :=
  (next_error_iff_saturated { heap := [{}, {}], pc := { used := 2, maxPages := 2 } } 0).2.2
    ⟨.pageCacheLimit, by decide⟩

/-- C19 fails on the code: a page with sequence 7 is given back through
`replace` and handed out again by `next`; its bytes, links and context are
cleared, and its sequence is still 7. -/
theorem next_recycled_page_keeps_seq :
    (SafePageCache.next
        (SafePageCache.replace
          { heap := [{ bytes := [1, 2], seq := 7 }], pc := { used := 1, maxPages := 10 } }
          (some 0)) 5).2 = .ok 0 ∧
      ((SafePageCache.next
        (SafePageCache.replace
          { heap := [{ bytes := [1, 2], seq := 7 }], pc := { used := 1, maxPages := 10 } }
          (some 0)) 5).1.heap.rd 0).seq = 7 := by
  decide

/-- C19 as amended: every page returned by a successful `next` has empty bytes
and nil `prev`, `next` and `ac`; its sequence is the one the page had before
the call, which is 0 for a page made by `New`; `used` grows by exactly 1. -/
theorem next_returns_cleared_page (st st' : Store) (ts : Int) (p : Nat)
    (h : SafePageCache.next st ts = (st', .ok p)) :
    (st'.heap.rd p).bytes = [] ∧ (st'.heap.rd p).prev = none ∧ (st'.heap.rd p).next = none ∧
      (st'.heap.rd p).ac = none ∧
      (st'.heap.rd p).seq = (st.heap.rd p).seq ∧
      (st.heap.length ≤ p → (st'.heap.rd p).seq = 0) ∧
      st'.pc.used = st.pc.used + 1 := by
  have hz : ∀ (hp : Heap) (j : Nat), hp.length ≤ j → hp.rd j = page.zero := by
    intro hp j hj
    simp [Heap.rd, List.getD_eq_getElem?_getD, List.getElem?_eq_none hj]
  have hseq0 : ∀ j, st.heap.length ≤ j → (st.heap.rd j).seq = 0 := by
    intro j hj
    rw [hz _ _ hj]
    rfl
  unfold SafePageCache.next at h
  dsimp only at h
  by_cases hfull : st.pc.used ≥ st.pc.maxPages
  · have h2 : st.pc.used ≥ st.pc.maxPages ∧
        (SafePageCache.performEviction { st.pc with pageRequests := st.pc.pageRequests + 1 }).used ≥
        (SafePageCache.performEviction { st.pc with pageRequests := st.pc.pageRequests + 1 }).maxPages := by
      rw [performEviction_used, performEviction_maxPages]
      exact ⟨hfull, hfull⟩
    rw [if_pos hfull, if_pos h2] at h
    cases h
  · rw [if_neg hfull, if_neg (fun hc => hfull hc.1)] at h
    unfold SafePageCache.poolGet at h
    cases hp : st.pc.pagePool with
    | nil =>
      rw [hp] at h
      dsimp only at h
      injection h with h1 h2
      injection h2 with h2
      subst h2
      subst h1
      dsimp only
      rw [Heap.rd_wr_same _ _ (by simp)]
      have hlast : Heap.rd (st.heap ++ [page.zero]) st.heap.length = page.zero := by
        simp [Heap.rd, List.getD_eq_getElem?_getD]
      rw [hlast]
      refine ⟨rfl, rfl, rfl, rfl, ?_, fun _ => rfl, rfl⟩
      rw [hseq0 _ (le_refl _)]
      rfl
    | cons i rest =>
      rw [hp] at h
      dsimp only at h
      injection h with h1 h2
      injection h2 with h2
      subst h2
      subst h1
      dsimp only
      by_cases hi : i < st.heap.length
      · rw [Heap.rd_wr_same _ _ hi]
        refine ⟨rfl, rfl, rfl, rfl, rfl, ?_, rfl⟩
        intro hle
        omega
      · have hle : st.heap.length ≤ i := by omega
        have hwr : (st.heap.wr i fun q =>
            { q with seen := ts, bytes := [], prev := none, next := none, ac := none }).rd i =
            page.zero := by
          apply hz
          rw [Heap.length_wr]
          exact hle
        rw [hwr, hz _ _ hle]
        exact ⟨rfl, rfl, rfl, rfl, rfl, fun _ => rfl, rfl⟩

/-- Witness of C19 as amended: a cache with an empty pool hands out a new
page. -/
theorem next_returns_cleared_page_witness :
    ((SafePageCache.next { heap := [], pc := { used := 0, maxPages := 10 } } 3).1.heap.rd 0).bytes = [] ∧
      (SafePageCache.next { heap := [], pc := { used := 0, maxPages := 10 } } 3).1.pc.used = 1 :=
  have h := next_returns_cleared_page { heap := [], pc := { used := 0, maxPages := 10 } }
    (SafePageCache.next { heap := [], pc := { used := 0, maxPages := 10 } } 3).1 3 0 (by decide)
  ⟨h.1, h.2.2.2.2.2.2⟩

theorem runCache_invariant : ∀ (events : List CacheEvent) (st : Store) (out : List Nat)
    (st' : Store) (out' : List Nat),
    st.pc.used = out.length → st.pc.used ≤ st.pc.maxPages →
    runCache st out events = some (st', out') →
    st'.pc.used = out'.length ∧ st'.pc.used ≤ st'.pc.maxPages := by
  intro events
  induction events with
  | nil =>
    intro st out st' out' h1 h2 hr
    simp only [runCache, Option.some.injEq, Prod.mk.injEq] at hr
    obtain ⟨rfl, rfl⟩ := hr
    exact ⟨h1, h2⟩
  | cons ev rest ih =>
    intro st out st' out' h1 h2 hr
    cases ev with
    | next ts =>
      simp only [runCache] at hr
      by_cases hfull : st.pc.used ≥ st.pc.maxPages
      · obtain ⟨st1, hn, _, hu, hm⟩ := next_of_full st ts hfull
        rw [hn] at hr
        exact ih st1 out st' out' (by rw [hu, h1]) (by rw [hu, hm]; exact h2) hr
      · obtain ⟨p, hp, hu, hm⟩ := next_ok_used st ts (by omega)
        have hn : SafePageCache.next st ts = ((SafePageCache.next st ts).1, .ok p) := by
          rw [← hp]
        rw [hn] at hr
        exact ih _ (p :: out) st' out' (by rw [hu, h1]; simp) (by rw [hu, hm]; omega) hr
    | replace p =>
      simp only [runCache] at hr
      by_cases hmem : p ∈ out
      · rw [if_pos hmem] at hr
        have hlen : 0 < out.length := List.length_pos_of_mem hmem
        refine ih _ (out.erase p) st' out' ?_ ?_ hr
        · rw [replace_used, h1, List.length_erase_of_mem hmem]
          omega
        · rw [replace_used, replace_maxPages]
          omega
      · rw [if_neg hmem] at hr
        cases hr
    | tick now =>
      simp only [runCache] at hr
      exact ih { st with pc := { st.pc with now := now } } out st' out' h1 h2 hr

/-- C17: a cache made by `newSafePageCache` goes through any sequence of
`next` calls and of `replace` calls on pages that `next` has returned and that
were not yet given back (the clock may move in between); after the sequence,
hence after every call of it, `0 <= used <= maxPages`. -/
theorem used_stays_within_bounds (maxPages : Int) (heap : Heap) (events : List CacheEvent)
    (st : Store) (out : List Nat)
    (h : runCache { heap := heap, pc := newSafePageCache maxPages } [] events = some (st, out)) :
    0 ≤ st.pc.used ∧ st.pc.used ≤ st.pc.maxPages := by
  have hinit : (newSafePageCache maxPages).used ≤ (newSafePageCache maxPages).maxPages := by
    unfold newSafePageCache
    dsimp only
    split_ifs <;> omega
  obtain ⟨h1, h2⟩ := runCache_invariant events
    { heap := heap, pc := newSafePageCache maxPages } [] st out rfl hinit h
  exact ⟨by rw [h1]; exact Int.natCast_nonneg _, h2⟩

/-- Witness of C17: with `maxPages = 2`, three `next` calls (the third one
fails), a `replace` and another `next`. -/
theorem used_stays_within_bounds_witness :
    ∃ st out,
      runCache { heap := [], pc := newSafePageCache 2 } []
          [.next 0, .next 0, .next 0, .replace 0, .tick 7, .next 1] = some (st, out) ∧
        0 ≤ st.pc.used ∧ st.pc.used ≤ st.pc.maxPages := by
  have hsome : (runCache { heap := [], pc := newSafePageCache 2 } []
      [.next 0, .next 0, .next 0, .replace 0, .tick 7, .next 1]).isSome = true := by decide
  obtain ⟨⟨st, out⟩, h⟩ := Option.isSome_iff_exists.mp hsome
  exact ⟨st, out, h, used_stays_within_bounds 2 [] _ st out h⟩

/-! ## `convertToPagesSafe`: failure -/

/-- C14: with a well-formed pool of recycled pages and enough fuel,
`convertToPagesSafe` returns; whenever it returns an error (an invalid skip, or
a page refused at the first or at a later acquisition) the cache's `used`
counter is what it was before the call.  The error result carries neither
pages nor a page count. -/
theorem convertToPagesSafe_error_restores_used (fuel pageBytes : Nat) (lp : livePacket)
    (st : Store) (skip : Int) (ac : Option Nat) (hpnd : st.pc.pagePool.Nodup)
    (hpb : ∀ i ∈ st.pc.pagePool, i < st.heap.length)
    (hfuel : (st.pc.maxPages - st.pc.used).toNat < fuel) :
    ∃ st' r, lp.convertToPagesSafe fuel pageBytes st skip ac = .ok (st', r) ∧
      ∀ e, r = .error e → st'.pc.used = st.pc.used := by
  obtain ⟨st', r, h1, _, h3⟩ := convertToPagesSafe_spec fuel pageBytes lp st skip ac hpnd hpb hfuel
  refine ⟨st', r, h1, ?_⟩
  intro e he
  rcases h3 with ⟨a, b, n, hr, _⟩ | ⟨e', _, hu⟩
  · rw [hr] at he
    cases he
  · exact hu

/-- Witness of C14: the cache may hold two pages and one is in use; a packet
of five bytes needs three pages of two bytes, the second acquisition is
refused, and `used` is 1 again. -/
theorem convertToPagesSafe_error_restores_used_witness :
    livePacket.convertToPagesSafe 5 2 { bytes := [1, 2, 3, 4, 5], seq := 10 }
        { heap := [{}], pc := { used := 1, maxPages := 2 } } 0 none =
      .ok ({ heap := [{}, { seq := 10 }], pc := { used := 1, maxPages := 2, pageRequests := 2, pagePool := [1] } },
        .error .pageCacheLimit) ∧
    ∃ st' r, livePacket.convertToPagesSafe 5 2 { bytes := [1, 2, 3, 4, 5], seq := 10 }
        { heap := [{}], pc := { used := 1, maxPages := 2 } } 0 none = .ok (st', r) ∧
      ∀ e, r = .error e → st'.pc.used = 1 :=
  ⟨by decide,
    convertToPagesSafe_error_restores_used 5 2 { bytes := [1, 2, 3, 4, 5], seq := 10 }
      { heap := [{}], pc := { used := 1, maxPages := 2 } } 0 none (by decide) (by decide)
      (by decide)⟩

/-! ## `convertToPagesSafe`: flags of recycled pages -/

/-- C13 fails on the code: the pool holds two recycled pages, page 0 with a
stale `end` flag and page 1 with a stale `start` flag; a packet of 1901 bytes
without flags becomes the run page 0 (1900 bytes), page 1 (1 byte).  Page 0 is
not the last page and has `end` set; page 1 is not the first page and has
`start` set. -/
theorem convertToPagesSafe_keeps_stale_flags :
    (longPacket.convertToPagesSafe 5 1900 recycledStore 0 none).map
        (fun r => (r.2, (r.1.heap.rd 0).end_, (r.1.heap.rd 1).start,
          (r.1.heap.rd 0).bytes.length, (r.1.heap.rd 1).bytes.length)) =
      .ok (.ok (0, 1, 2), true, true, 1900, 1) := by
  decide!

/-! ## `handleBytesSafe` under buffer pressure -/

/-- C16 fails on the code: the cache's `used` counter is 2, which is
`MaxBufferedPagesTotal`, and a segment of four bytes at sequence 30 is marked
for queueing.  `handleBytesSafe` returns the error of the page cache; nothing
is drained into `a.ret` and the two queued pages stay in the list. -/
theorem handleBytesSafe_fails_when_cache_is_full :
    (handleBytesSafe 8 1900 saturatedMachine [8, 9, 10, 11] 30 false false true none).map
        (fun r => (r.2, r.1.a.ret, r.1.half.pageList r.1.st.heap, r.1.st.pc.used)) =
      .ok (some .pageCacheLimit, [], [0, 1], 2) := by
  decide

/-! ## A segment that was delivered before -/

theorem Difference_eq (s t : Int) :
    Sequence.Difference s t =
      if (t - s) % 4294967296 < 2147483648 then (t - s) % 4294967296
      else (t - s) % 4294967296 - 4294967296 := rfl

theorem Difference_pos_flip (s t : Int) (h : 0 < Sequence.Difference s t) :
    Sequence.Difference t s < 0 := by
  rw [Difference_eq] at h ⊢
  split_ifs at h ⊢ <;> omega

theorem overlapExistingSafe_full (half : halfconnection) (start e : Sequence) (bytes : List Nat)
    (hvalid : half.nextSeq ≠ invalidSequence) (hne : bytes.length ≠ 0)
    (hdel : (bytes.length : Int) ≤ start.Difference half.nextSeq) :
    overlapExistingSafe half start e bytes = .ok (half, [], half.nextSeq) := by
  unfold overlapExistingSafe
  have h0 : ¬ (half.nextSeq = invalidSequence ∨ bytes.length = 0) := by
    rintro (h | h)
    · exact hvalid h
    · exact hne h
  have h1 : ¬ (start.Difference half.nextSeq ≤ 0) := by omega
  have h2 : start.Difference half.nextSeq ≥ (bytes.length : Int) := hdel
  rw [if_neg h0]
  simp only [if_neg h1, if_pos h2]

theorem checkOverlapSafe_nothing (fuel pageBytes : Nat) (lp : livePacket) (st : Store)
    (half : halfconnection) (ac : Option Nat) (h : lp.bytes = []) :
    checkOverlapSafe fuel pageBytes lp st half false ac = .ok (st, half, none) := by
  unfold checkOverlapSafe
  rw [if_pos ⟨by rw [h]; rfl, rfl⟩]

theorem handleBytesSafe_delivered (fuel pageBytes : Nat) (m : Machine) (bytes : List Nat)
    (seq : Sequence) (ac : Option Nat) (hvalid : m.half.nextSeq ≠ invalidSequence)
    (hne : bytes.length ≠ 0) (hdel : (bytes.length : Int) ≤ seq.Difference m.half.nextSeq) :
    ∃ m', handleBytesSafe fuel pageBytes m bytes seq false false false ac = .ok (m', none) ∧
      m'.st = m.st ∧ m'.half = m.half ∧ m'.a.ret = m.a.ret ∧ m'.delivered = m.delivered ∧
      m'.a.stats = m.a.stats := by
  unfold handleBytesSafe
  simp only [Bool.false_eq_true, if_false]
  rw [overlapExistingSafe_full m.half seq _ bytes hvalid hne hdel]
  simp only []
  rw [checkOverlapSafe_nothing _ _ _ _ _ _ rfl]
  simp only [List.length_nil, ne_eq, not_true_eq_false, Bool.false_eq_true, or_self, if_false]
  exact ⟨_, rfl, rfl, rfl, rfl, rfl, rfl⟩

theorem found_eq (fuel pageBytes : Nat) (s : Stream) (m : Machine) (t : TCP)
    (timestamp : Int) (ac : Option Nat) :
    AssembleWithContext.found fuel pageBytes s m t timestamp ac =
      if (s.Accept t (AssembleWithContext.prelude m t timestamp).half.nextSeq
          (decide ((AssembleWithContext.prelude m t timestamp).half.nextSeq = invalidSequence)
            && t.SYN)).1 = false then
        .ok (AssembleWithContext.prelude m t timestamp, none)
      else if (AssembleWithContext.prelude m t timestamp).half.closed then
        .ok (AssembleWithContext.prelude m t timestamp, none)
      else
        AssembleWithContext.finish fuel s t
          (handleBytesSafe fuel pageBytes
            (AssembleWithContext.position (AssembleWithContext.prelude m t timestamp) t
              (s.Accept t (AssembleWithContext.prelude m t timestamp).half.nextSeq
                (decide ((AssembleWithContext.prelude m t timestamp).half.nextSeq = invalidSequence)
                  && t.SYN)).2).1
            t.Payload t.Seq t.SYN (t.RST || t.FIN)
            (AssembleWithContext.position (AssembleWithContext.prelude m t timestamp) t
              (s.Accept t (AssembleWithContext.prelude m t timestamp).half.nextSeq
                (decide ((AssembleWithContext.prelude m t timestamp).half.nextSeq = invalidSequence)
                  && t.SYN)).2).2
            ac) := by
  rfl

theorem prelude_frame (m : Machine) (t : TCP) (timestamp : Int) :
    (AssembleWithContext.prelude m t timestamp).st = m.st ∧
      (AssembleWithContext.prelude m t timestamp).delivered = m.delivered ∧
      (AssembleWithContext.prelude m t timestamp).a.ret = [] ∧
      (AssembleWithContext.prelude m t timestamp).half.nextSeq = m.half.nextSeq ∧
      (AssembleWithContext.prelude m t timestamp).half.closed = m.half.closed ∧
      (AssembleWithContext.prelude m t timestamp).half.first = m.half.first ∧
      (AssembleWithContext.prelude m t timestamp).half.last = m.half.last ∧
      (AssembleWithContext.prelude m t timestamp).half.pages = m.half.pages ∧
      (AssembleWithContext.prelude m t timestamp).half.queuedPackets = m.half.queuedPackets ∧
      (AssembleWithContext.prelude m t timestamp).half.queuedBytes = m.half.queuedBytes ∧
      (AssembleWithContext.prelude m t timestamp).a.stats.Errors = m.a.stats.Errors := by
  unfold AssembleWithContext.prelude
  dsimp only
  split_ifs <;> exact ⟨rfl, rfl, rfl, rfl, rfl, rfl, rfl, rfl, rfl, rfl, rfl⟩

theorem position_frame (m : Machine) (t : TCP) (start : Bool) :
    (AssembleWithContext.position m t start).1.st = m.st ∧
      (AssembleWithContext.position m t start).1.delivered = m.delivered ∧
      (AssembleWithContext.position m t start).1.a = m.a ∧
      (AssembleWithContext.position m t start).1.half.first = m.half.first ∧
      (AssembleWithContext.position m t start).1.half.last = m.half.last ∧
      (AssembleWithContext.position m t start).1.half.pages = m.half.pages ∧
      (AssembleWithContext.position m t start).1.half.queuedPackets = m.half.queuedPackets ∧
      (AssembleWithContext.position m t start).1.half.queuedBytes = m.half.queuedBytes := by
  unfold AssembleWithContext.position
  dsimp only
  split_ifs <;> exact ⟨rfl, rfl, rfl, rfl, rfl, rfl, rfl, rfl⟩

theorem position_behind (m : Machine) (t : TCP) (start : Bool)
    (hvalid : m.half.nextSeq ≠ invalidSequence)
    (hdiff : m.half.nextSeq.Difference (t.Seq : Int) ≤ 0) :
    (AssembleWithContext.position m t start).2 = false ∧
      (AssembleWithContext.position m t start).1.half.nextSeq = m.half.nextSeq := by
  unfold AssembleWithContext.position
  dsimp only
  by_cases hack : t.ACK = true
  · simp only [hack, if_true]
    rw [if_neg hvalid, if_pos hdiff]
    exact ⟨rfl, rfl⟩
  · simp only [hack, Bool.false_eq_true, if_false]
    rw [if_neg hvalid, if_pos hdiff]
    exact ⟨rfl, rfl⟩

/-- C11: the half connection is open, its `nextSeq` is valid and its stream
accepts the packet; the segment has no SYN, FIN or RST, its payload is not
empty, and `nextSeq` lies at least `len(payload)` bytes after the segment's
sequence (the payload was delivered in full).  Then `AssembleWithContext`
returns nil, calls `ReassembledSG` not at all, and leaves `nextSeq`, the pages
and the ends of the half connection's list as they are. -/
theorem found_redelivered_segment (fuel pageBytes : Nat) (s : Stream) (m : Machine) (t : TCP)
    (timestamp : Int) (ac : Option Nat)
    (hvalid : m.half.nextSeq ≠ invalidSequence) (hopen : m.half.closed = false)
    (hacc : (s.Accept t m.half.nextSeq false).1 = true)
    (hsyn : t.SYN = false) (hfin : t.FIN = false) (hrst : t.RST = false)
    (hne : t.Payload ≠ [])
    (hdel : (t.Payload.length : Int) ≤ Sequence.Difference (t.Seq : Int) m.half.nextSeq) :
    ∃ m', AssembleWithContext.found fuel pageBytes s m t timestamp ac = .ok (m', none) ∧
      m'.delivered = m.delivered ∧ m'.half.nextSeq = m.half.nextSeq ∧
      m'.st.heap = m.st.heap ∧ m'.half.first = m.half.first ∧ m'.half.last = m.half.last ∧
      m'.half.pages = m.half.pages := by
  have hlen : t.Payload.length ≠ 0 := by
    intro h
    exact hne (List.length_eq_zero.mp h)
  have hpos : 0 < Sequence.Difference (t.Seq : Int) m.half.nextSeq := by
    have : 0 < t.Payload.length := Nat.pos_of_ne_zero hlen
    omega
  have hflip := Difference_pos_flip _ _ hpos
  obtain ⟨p1, p2, p3, p4, p5, p6, p7, p8, _, _, _⟩ := prelude_frame m t timestamp
  have hvalid1 : (AssembleWithContext.prelude m t timestamp).half.nextSeq ≠ invalidSequence := by
    rw [p4]
    exact hvalid
  obtain ⟨q1, q2, q3, q4, q5, q6, _, _⟩ := position_frame (AssembleWithContext.prelude m t timestamp) t
    (s.Accept t (AssembleWithContext.prelude m t timestamp).half.nextSeq
      (decide ((AssembleWithContext.prelude m t timestamp).half.nextSeq = invalidSequence)
        && t.SYN)).2
  obtain ⟨b1, b2⟩ := position_behind (AssembleWithContext.prelude m t timestamp) t
    (s.Accept t (AssembleWithContext.prelude m t timestamp).half.nextSeq
      (decide ((AssembleWithContext.prelude m t timestamp).half.nextSeq = invalidSequence)
        && t.SYN)).2 hvalid1 (by rw [p4]; omega)
  obtain ⟨m', hh, r1, r2, r3, r4, r5⟩ := handleBytesSafe_delivered fuel pageBytes
    (AssembleWithContext.position (AssembleWithContext.prelude m t timestamp) t
      (s.Accept t (AssembleWithContext.prelude m t timestamp).half.nextSeq
        (decide ((AssembleWithContext.prelude m t timestamp).half.nextSeq = invalidSequence)
          && t.SYN)).2).1
    t.Payload t.Seq ac (by rw [b2]; exact hvalid1) hlen (by rw [b2, p4]; exact hdel)
  rw [found_eq]
  have hacc1 : ¬ ((s.Accept t (AssembleWithContext.prelude m t timestamp).half.nextSeq
      (decide ((AssembleWithContext.prelude m t timestamp).half.nextSeq = invalidSequence)
        && t.SYN)).1 = false) := by
    rw [p4, hsyn, Bool.and_false, hacc]
    decide
  have hopen1 : ¬ ((AssembleWithContext.prelude m t timestamp).half.closed = true) := by
    rw [p5, hopen]
    decide
  rw [if_neg hacc1, if_neg hopen1, b1, hsyn, hfin, hrst]
  have hh1 : handleBytesSafe fuel pageBytes
      (AssembleWithContext.position (AssembleWithContext.prelude m t timestamp) t
        (s.Accept t (AssembleWithContext.prelude m t timestamp).half.nextSeq
          (decide ((AssembleWithContext.prelude m t timestamp).half.nextSeq = invalidSequence)
            && false)).2).1
      t.Payload t.Seq false (false || false) false ac = .ok (m', none) := by
    rw [hsyn] at hh
    exact hh
  rw [hh1]
  unfold AssembleWithContext.finish
  have hret : ¬ (m'.a.ret.length > 0) := by
    rw [r3, q3, p3]
    decide
  simp only [if_neg hret]
  refine ⟨m', rfl, ?_, ?_, ?_, ?_, ?_, ?_⟩
  · rw [r4, q2, p2]
  · rw [r2, b2, p4]
  · rw [r1, q1, p1]
  · rw [r2, q4, p6]
  · rw [r2, q5, p7]
  · rw [r2, q6, p8]

/-- Witness of C11: `nextSeq` is 105 and the four bytes at 101..104 are
presented again. -/
theorem found_redelivered_segment_witness :
    ∃ m', AssembleWithContext.found 8 1900 testStream
        { half := { nextSeq := 105, stream := some 0 }, delivered := [[1, 2, 3, 4]] }
        { Seq := 101, Payload := [1, 2, 3, 4] } 0 none = .ok (m', none) ∧
      m'.delivered = [[1, 2, 3, 4]] ∧ m'.half.nextSeq = 105 :=
  have h := found_redelivered_segment 8 1900 testStream
    { half := { nextSeq := 105, stream := some 0 }, delivered := [[1, 2, 3, 4]] }
    { Seq := 101, Payload := [1, 2, 3, 4] } 0 none (by decide) rfl rfl rfl rfl rfl (by decide)
    (by decide)
  h.elim fun m' hm => ⟨m', hm.1, hm.2.1, hm.2.2.1⟩

/-! ## A page refused while queueing -/

theorem dropCur_half (w : WalkState) (i : Nat) :
    (checkOverlapSafe.dropCur w i).half.queuedPackets = w.half.queuedPackets ∧
      (checkOverlapSafe.dropCur w i).half.queuedBytes = w.half.queuedBytes := by
  simp only [checkOverlapSafe.dropCur, checkOverlapSafe.unlinkNext, checkOverlapSafe.unlinkPrev]
  cases (w.st.heap.rd i).prev <;> dsimp only <;> split <;> exact ⟨rfl, rfl⟩

theorem walk_half (s e : Sequence) : ∀ (fuel : Nat) (w w' : WalkState),
    checkOverlapSafe.walk s e fuel w = .ok w' →
    w'.half.queuedPackets = w.half.queuedPackets ∧ w'.half.queuedBytes = w.half.queuedBytes ∧
      w'.half.pages ≤ w.half.pages := by
  intro fuel
  induction fuel with
  | zero =>
    intro w w' h
    simp [checkOverlapSafe.walk] at h
  | succ n ih =>
    intro w w' h
    rw [checkOverlapSafe.walk] at h
    split at h
    · injection h with h
      subst h
      exact ⟨rfl, rfl, le_refl _⟩
    · rename_i cur hcur
      dsimp only at h
      split_ifs at h with h1 h2 h3 h4 h5
      · obtain ⟨a1, a2, a3⟩ := ih _ _ h
        obtain ⟨d1, d2⟩ := dropCur_half w cur
        have d3 := (dropCur_frame w cur).2.1
        exact ⟨by rw [a1, d1], by rw [a2, d2], by omega⟩
      · rw [sliceTo_ok _ _ ⟨by omega, by omega⟩] at h
        injection h with h
        subst h
        exact ⟨rfl, rfl, le_refl _⟩
      · injection h with h
        subst h
        exact ⟨rfl, rfl, le_refl _⟩
      · exfalso
        omega
      · exact ih { w with next := some cur, cur := (w.st.heap.rd cur).prev } _ h
      · exact ih { w with cur := (w.st.heap.rd cur).prev } _ h

theorem checkOverlapSafe_error (fuel pageBytes : Nat) (lp : livePacket) (st st' : Store)
    (half half' : halfconnection) (queue : Bool) (ac : Option Nat) (err : GoError)
    (h : checkOverlapSafe fuel pageBytes lp st half queue ac = .ok (st', half', some err)) :
    queue = true ∧ half'.queuedPackets = half.queuedPackets ∧
      half'.queuedBytes = half.queuedBytes ∧ half'.pages ≤ half.pages := by
  unfold checkOverlapSafe at h
  split_ifs at h with h0
  · cases h
  · dsimp only at h
    split at h
    · cases h
    · rename_i w hw
      obtain ⟨a1, a2, a3⟩ := walk_half _ _ _ _ _ hw
      dsimp only at a1 a2 a3
      split_ifs at h with hq
      · split at h
        · cases h
        · injection h with h
          injection h with h1 h2
          injection h2 with h2 h3
          subst h2
          exact ⟨hq.2, a1, a2, a3⟩
        · cases h
      · cases h

theorem handleBytesSafe_error (fuel pageBytes : Nat) (m m' : Machine) (bytes : List Nat)
    (seq : Sequence) (start end_ queue : Bool) (ac : Option Nat) (err : GoError)
    (h : handleBytesSafe fuel pageBytes m bytes seq start end_ queue ac = .ok (m', some err)) :
    m'.delivered = m.delivered ∧ m'.a.stats = m.a.stats ∧
      m'.half.queuedPackets = m.half.queuedPackets ∧
      m'.half.queuedBytes = m.half.queuedBytes ∧ m'.half.pages ≤ m.half.pages := by
  unfold handleBytesSafe at h
  dsimp only at h
  split at h
  · cases h
  · rename_i m1 q1 e1 hq
    injection h with h
    injection h with h1 h2
    injection h2 with h2
    subst h1
    subst h2
    split_ifs at hq with hqueue
    · split at hq
      · cases hq
      · rename_i st1 half1 e2 hc
        injection hq with hq
        injection hq with hq1 hq2
        injection hq2 with hq2 hq3
        injection hq3 with hq3
        subst hq1
        subst hq3
        obtain ⟨_, c1, c2, c3⟩ := checkOverlapSafe_error _ _ _ _ _ _ _ _ _ _ hc
        exact ⟨rfl, rfl, c1, c2, c3⟩
      · split_ifs at hq
        · split at hq
          · cases hq
          · cases hq
        · cases hq
    · cases hq
  · rename_i m1 q1 hq
    split_ifs at h with hq1
    · split at h
      · cases h
      · split at h
        · cases h
        · rename_i hc
          have := (checkOverlapSafe_error _ _ _ _ _ _ _ _ _ _ hc).1
          cases this
        · split_ifs at h <;> cases h
    · cases h

theorem sendToConnectionSafe_error (fuel : Nat) (s : Stream) (m m' : Machine) (ns : Sequence)
    (err : GoError) (h : sendToConnectionSafe fuel s m = .ok (m', ns, some err)) :
    err = .nilStreamInConnection := by
  unfold sendToConnectionSafe at h
  split_ifs at h
  · injection h with h
    injection h with _ h
    injection h with _ h
    injection h with h
    exact h.symm
  · split at h
    · cases h
    · cases h

/-- C15 fails on the code: the cache holds two pages, both in use; the half
connection holds page 0 (bytes 10..13) and expects sequence 5.  A segment of
1901 bytes at sequence 10 is out of order and covers page 0: the overlap walk
removes and releases page 0, the first page of the new run is granted, the
second one is refused.  `AssembleWithContext` returns the error and `Errors`
becomes 1, nothing is delivered, and the half connection's list is empty with
`pages = 0`: it is not as it was. -/
theorem found_queue_failure_changes_list :
    coveredMachine.half.pageList coveredMachine.st.heap = [0] ∧ coveredMachine.half.pages = 1 ∧
      (AssembleWithContext.found 8 1900 testStream coveredMachine coveringPacket 0 none).map
          (fun r => (r.2, r.1.half.pageList r.1.st.heap, r.1.half.pages)) =
        .ok (some .pageCacheLimit, [], 0) ∧
      (AssembleWithContext.found 8 1900 testStream coveredMachine coveringPacket 0 none).map
          (fun r => (r.1.a.stats.Errors, r.1.delivered, r.1.st.pc.used)) =
        .ok (1, [], 1) := by
  refine ⟨by decide, by decide, ?_, ?_⟩
  · decide!
  · decide!

/-- C15 as amended: whenever `AssembleWithContext` returns the page cache's
error, `Errors` has grown by 1, no `ReassembledSG` call was made, the half
connection's `queuedPackets` and `queuedBytes` are as before, and `pages` has
not grown (the overlap walk may have removed pages that the segment covers). -/
theorem found_queue_failure (fuel pageBytes : Nat) (s : Stream) (m m' : Machine) (t : TCP)
    (timestamp : Int) (ac : Option Nat)
    (h : AssembleWithContext.found fuel pageBytes s m t timestamp ac =
      .ok (m', some .pageCacheLimit)) :
    m'.a.stats.Errors = (m.a.stats.Errors + 1) % 18446744073709551616 ∧
      m'.delivered = m.delivered ∧
      m'.half.queuedPackets = m.half.queuedPackets ∧
      m'.half.queuedBytes = m.half.queuedBytes ∧ m'.half.pages ≤ m.half.pages := by
  rw [found_eq] at h
  obtain ⟨p1, p2, p3, p4, p5, p6, p7, p8, p9, p10, p11⟩ := prelude_frame m t timestamp
  split_ifs at h with h1 h2
  · cases h
  · cases h
  · obtain ⟨q1, q2, q3, q4, q5, q6, q7, q8⟩ :=
      position_frame (AssembleWithContext.prelude m t timestamp) t
        (s.Accept t (AssembleWithContext.prelude m t timestamp).half.nextSeq
          (decide ((AssembleWithContext.prelude m t timestamp).half.nextSeq = invalidSequence)
            && t.SYN)).2
    unfold AssembleWithContext.finish at h
    split at h
    · cases h
    · rename_i m1 err hh
      injection h with h
      injection h with h3 h4
      injection h4 with h4
      subst h4
      subst h3
      obtain ⟨r1, r2, r3, r4, r5⟩ := handleBytesSafe_error _ _ _ _ _ _ _ _ _ _ _ hh
      dsimp only
      refine ⟨?_, ?_, ?_, ?_, ?_⟩
      · rw [r2, q3, p11]
      · rw [r1, q2, p2]
      · rw [r3, q7, p9]
      · rw [r4, q8, p10]
      · rw [q6, p8] at r5
        exact r5
    · rename_i m1 hh
      by_cases hret : m1.a.ret.length > 0
      · rw [if_pos hret] at h
        split at h
        · cases h
        · rename_i hs
          have := sendToConnectionSafe_error _ _ _ _ _ _ hs
          injection h with h
          injection h with _ h
          injection h with h
          rw [this] at h
          cases h
        · split_ifs at h <;> cases h
      · rw [if_neg hret] at h
        cases h

/-- Witness of C15 as amended: the run of `found_queue_failure_changes_list`. -/
theorem found_queue_failure_witness :
    ∃ m', AssembleWithContext.found 8 1900 testStream coveredMachine coveringPacket 0 none =
        .ok (m', some .pageCacheLimit) ∧
      m'.a.stats.Errors = 1 ∧ m'.delivered = [] := by
  have hsome : ∃ m', AssembleWithContext.found 8 1900 testStream coveredMachine coveringPacket 0
      none = .ok (m', some .pageCacheLimit) := by
    have hd : (AssembleWithContext.found 8 1900 testStream coveredMachine coveringPacket 0
        none).map (fun r => r.2) = .ok (some .pageCacheLimit) := by decide!
    match hf : AssembleWithContext.found 8 1900 testStream coveredMachine coveringPacket 0 none with
    | .error f =>
      rw [hf] at hd
      cases hd
    | .ok (m', e) =>
      rw [hf] at hd
      injection hd with hd
      dsimp only at hd
      subst hd
      exact ⟨m', rfl⟩
  obtain ⟨m', hm⟩ := hsome
  have h := found_queue_failure 8 1900 testStream coveredMachine m' coveringPacket 0 none hm
  exact ⟨m', hm, h.1, h.2.1⟩

/-! ## The stream pool: lookup by a key and by its reverse -/

theorem key_Reverse_Reverse (k : key) : k.Reverse.Reverse = k := by
  obtain ⟨⟨a, b⟩, ⟨c, d⟩⟩ := k
  rfl

theorem connsGet_filter_ne (conns : List (key × Nat)) (k k' : key) (h : k' ≠ k) :
    connsGet (conns.filter (fun e => decide (e.1 ≠ k))) k' = connsGet conns k' := by
  induction conns with
  | nil => rfl
  | cons e rest ih =>
    obtain ⟨ke, c⟩ := e
    by_cases hke : ke = k
    · subst hke
      have hne : ¬ (ke = k') := fun e => h e.symm
      simp only [List.filter, ne_eq, not_true_eq_false, decide_False, connsGet, if_neg hne]
      exact ih
    · simp only [List.filter, ne_eq, hke, not_false_eq_true, decide_True, connsGet]
      rw [ih]

theorem connsGet_connsSet_same (conns : List (key × Nat)) (k : key) (c : Nat) :
    connsGet (connsSet conns k c) k = some c := by
  simp [connsSet, connsGet]

theorem connsGet_connsSet_ne (conns : List (key × Nat)) (k k' : key) (c : Nat) (h : k' ≠ k) :
    connsGet (connsSet conns k c) k' = connsGet conns k' := by
  have hne : ¬ (k = k') := fun e => h e.symm
  simp only [connsSet, connsGet, if_neg hne]
  exact connsGet_filter_ne conns k k' h

theorem getConnection_found (factory : Flow → Flow → TCP → Option Nat → Option Nat)
    (q : SafeStreamPool) (k : key) (e : Bool) (ts : Int) (tcp : TCP) (ac : Option Nat)
    (r : Nat × HalfRef × HalfRef) (hopen : q.closed = 0) (h : q.getHalf k = some r) :
    q.getConnection factory k e ts tcp ac = (q, .ok (some r)) := by
  unfold SafeStreamPool.getConnection
  rw [if_neg (by rw [hopen]; decide), h]

/-- C20: let `k` differ from its reverse.  When the pool is open and below its
limit, holds no connection under `k` or its reverse, and the factory returns a
stream, `getConnection(k, end=false)` creates a connection `c`, returns
`(c, c.c2s, c.s2c)` and leaves a table that maps `k` to `c` and has no entry
under the reverse of `k`.  In every open pool with such a table,
`getConnection` with the reverse of `k` returns `(c, c.s2c, c.c2s)` and
`getConnection` with `k` returns `(c, c.c2s, c.s2c)`, and both leave the pool
(the table and the count of factory calls included) as it is. -/
theorem getConnection_reverse_lookup (factory : Flow → Flow → TCP → Option Nat → Option Nat)
    (k : key) (hk : k ≠ k.Reverse) :
    (∀ (p : SafeStreamPool) (ts : Int) (tcp : TCP) (ac : Option Nat),
        p.closed = 0 → connsGet p.conns k = none → connsGet p.conns k.Reverse = none →
        p.activeConns < p.maxConns → factory k.1 k.2 tcp ac ≠ none →
        ∃ c p1, p.getConnection factory k false ts tcp ac =
            (p1, .ok (some (c, (c, .c2s), (c, .s2c)))) ∧
          p1.closed = 0 ∧ connsGet p1.conns k = some c ∧ connsGet p1.conns k.Reverse = none) ∧
      (∀ (q : SafeStreamPool) (c : Nat) (e : Bool) (ts : Int) (tcp : TCP) (ac : Option Nat),
        q.closed = 0 → connsGet q.conns k = some c → connsGet q.conns k.Reverse = none →
        q.getConnection factory k.Reverse e ts tcp ac =
            (q, .ok (some (c, (c, .s2c), (c, .c2s)))) ∧
          q.getConnection factory k e ts tcp ac = (q, .ok (some (c, (c, .c2s), (c, .s2c))))) := by
  constructor
  · intro p ts tcp ac hopen habs habsr hlim hf
    have hgh : p.getHalf k = none := by
      simp only [SafeStreamPool.getHalf, habs, habsr]
    unfold SafeStreamPool.getConnection
    rw [if_neg (by rw [hopen]; decide), hgh]
    dsimp only
    rw [if_neg (by decide), if_neg (by omega)]
    cases hs : factory k.1 k.2 tcp ac with
    | none => exact absurd hs hf
    | some s =>
      dsimp only
      refine ⟨_, _, rfl, ?_, ?_, ?_⟩
      · unfold SafeStreamPool.connGet
        cases p.connPool <;> exact hopen
      · dsimp only
        exact connsGet_connsSet_same _ _ _
      · dsimp only
        rw [connsGet_connsSet_ne _ _ _ _ (Ne.symm hk)]
        unfold SafeStreamPool.connGet
        cases p.connPool <;> exact habsr
  · intro q c e ts tcp ac hopen hkc hrev
    constructor
    · apply getConnection_found _ _ _ _ _ _ _ _ hopen
      simp only [SafeStreamPool.getHalf, hrev, key_Reverse_Reverse, hkc]
    · apply getConnection_found _ _ _ _ _ _ _ _ hopen
      simp only [SafeStreamPool.getHalf, hkc]

/-- Witness of C20: the key of the test file in a new pool. -/
theorem getConnection_reverse_lookup_witness :
    ∃ c p1, (NewSafeStreamPool 1000).getConnection (fun _ _ _ _ => some 7) exKey false 0 {} none =
        (p1, .ok (some (c, (c, .c2s), (c, .s2c)))) ∧
      p1.closed = 0 ∧ connsGet p1.conns exKey = some c ∧ connsGet p1.conns exKey.Reverse = none :=
  (getConnection_reverse_lookup (fun _ _ _ _ => some 7) exKey (by decide)).1
    (NewSafeStreamPool 1000) 0 {} none (by decide) (by decide) (by decide) (by decide) (by decide)

/-! ## `convertToPagesSafe`: the run of pages -/

theorem FullRun_frame {h h' : Heap} (P : Nat) :
    ∀ (ids : List Nat) (prv a : Option Nat) (s : Sequence) (bs : List Nat) (prv' b : Option Nat)
      (s' : Sequence) (bs' : List Nat),
      (∀ j ∈ ids, h'.rd j = h.rd j) →
      FullRun h P prv a s bs ids prv' b s' bs' → FullRun h' P prv a s bs ids prv' b s' bs' := by
  intro ids
  induction ids with
  | nil => intro prv a s bs prv' b s' bs' _ hf; exact hf
  | cons i rest ih =>
    intro prv a s bs prv' b s' bs' hsame hf
    obtain ⟨h1, h2, h3, h4, h5, h6⟩ := hf
    have hi : h'.rd i = h.rd i := hsame i (List.mem_cons_self _ _)
    refine ⟨h1, by rw [hi]; exact h2, by rw [hi]; exact h3, by rw [hi]; exact h4, h5, ?_⟩
    rw [hi]
    exact ih _ _ _ _ _ _ _ _ (fun j hj => hsame j (List.mem_cons_of_mem _ hj)) h6

theorem FullRun_snoc {h : Heap} (P : Nat) :
    ∀ (ids : List Nat) (prv a : Option Nat) (s : Sequence) (bs : List Nat) (prv' : Option Nat)
      (c : Nat) (s' : Sequence) (bs' : List Nat) (b : Option Nat),
      FullRun h P prv a s bs ids prv' (some c) s' bs' →
      (h.rd c).prev = prv' → (h.rd c).seq = s' → (h.rd c).bytes = bs'.take P → P < bs'.length →
      (h.rd c).next = b →
      FullRun h P prv a s bs (ids ++ [c]) (some c) b (Sequence.Add s' P) (bs'.drop P) := by
  intro ids
  induction ids with
  | nil =>
    intro prv a s bs prv' c s' bs' b hf h1 h2 h3 h4 h5
    obtain ⟨e1, e2, e3, e4⟩ := hf
    subst e1 e3 e4
    exact ⟨e2, h1, h2, h3, h4, rfl, h5, rfl, rfl⟩
  | cons i rest ih =>
    intro prv a s bs prv' c s' bs' b hf h1 h2 h3 h4 h5
    obtain ⟨f1, f2, f3, f4, f5, f6⟩ := hf
    exact ⟨f1, f2, f3, f4, f5, ih _ _ _ _ _ _ _ _ _ f6 h1 h2 h3 h4 h5⟩

theorem fill_rd_same (st : Store) {current : Nat} (b : List Nat) (seq : Sequence)
    (h : current < st.heap.length) :
    (convertToPagesSafe.fill st current b seq).heap.rd current =
      { st.heap.rd current with bytes := b, seq := seq } := by
  simp only [convertToPagesSafe.fill]
  rw [Heap.rd_wr_same _ _ h]

theorem fill_rd_ne (st : Store) {current j : Nat} (b : List Nat) (seq : Sequence)
    (h : current ≠ j) :
    (convertToPagesSafe.fill st current b seq).heap.rd j = st.heap.rd j := by
  simp only [convertToPagesSafe.fill]
  rw [Heap.rd_wr_ne _ _ h]

theorem finish_rd_same (st : Store) {current : Nat} (e : Bool) (h : current < st.heap.length) :
    (convertToPagesSafe.finish st current e).heap.rd current =
      { st.heap.rd current with end_ := e, next := none } := by
  simp only [convertToPagesSafe.finish]
  rw [Heap.rd_wr_same _ _ h]

theorem finish_rd_ne (st : Store) {current j : Nat} (e : Bool) (h : current ≠ j) :
    (convertToPagesSafe.finish st current e).heap.rd j = st.heap.rd j := by
  simp only [convertToPagesSafe.finish]
  rw [Heap.rd_wr_ne _ _ h]

theorem link_rd_current (st : Store) {current nx : Nat} (h1 : current ≠ nx)
    (h2 : current < st.heap.length) :
    (convertToPagesSafe.link st current nx).heap.rd current =
      { st.heap.rd current with next := some nx } := by
  simp only [convertToPagesSafe.link]
  rw [Heap.rd_wr_ne _ _ (Ne.symm h1), Heap.rd_wr_ne _ _ (Ne.symm h1), Heap.rd_wr_same _ _ h2]

theorem link_rd_new (st : Store) {current nx : Nat} (h1 : current ≠ nx)
    (h2 : nx < st.heap.length) :
    (convertToPagesSafe.link st current nx).heap.rd nx =
      { st.heap.rd nx with prev := some current, ac := none } := by
  simp only [convertToPagesSafe.link]
  rw [Heap.rd_wr_same _ _ (by simp only [Heap.length_wr]; exact h2),
    Heap.rd_wr_same _ _ (by simp only [Heap.length_wr]; exact h2), Heap.rd_wr_ne _ _ h1]

theorem extra_pages_step (len P : Nat) (hP : 0 < P) (h : P < len) :
    (len - 1) / P = (len - P - 1) / P + 1 := by
  have e : len - 1 = (len - P - 1) + P := by omega
  rw [e, Nat.add_div_right _ hP]

theorem extra_pages_zero (len P : Nat) (h : len ≤ P) (hP : 0 < P) : (len - 1) / P = 0 := by
  apply Nat.div_eq_of_lt
  omega

theorem loop_run (pageBytes : Nat) (hP : 0 < pageBytes) (lp : livePacket) (ts : Int)
    (first fuel0 : Nat) (used0 : Int) (s0 : Sequence) (b0 : List Nat) :
    ∀ (fuel : Nat) (st : Store) (current : Nat) (numPages : Int) (seq : Sequence)
      (bytes : List Nat) (pre : List Nat) (prvC : Option Nat),
      FullRun st.heap pageBytes none (some first) s0 b0 pre prvC (some current) seq bytes →
      (st.heap.rd current).prev = prvC →
      (st.heap.rd current).next = none →
      (pre ++ [current]).Nodup →
      (∀ i ∈ pre ++ [current], i < st.heap.length ∧ i ∉ st.pc.pagePool) →
      st.pc.pagePool.Nodup →
      (∀ i ∈ st.pc.pagePool, i < st.heap.length) →
      st.pc.used = used0 + ((pre.length : Int) + 1) →
      numPages = (pre.length : Int) + 1 →
      st.pc.used + (((bytes.length - 1) / pageBytes : Nat) : Int) ≤ st.pc.maxPages →
      (bytes.length - 1) / pageBytes < fuel →
      ∃ st' pre' prvL last seqL bytesL,
        convertToPagesSafe.loop pageBytes lp ts first fuel0 fuel st current numPages seq bytes =
            .ok (st', .ok (first, last, (pre'.length : Int) + 1)) ∧
          FullRun st'.heap pageBytes none (some first) s0 b0 pre' prvL (some last) seqL bytesL ∧
          (st'.heap.rd last).prev = prvL ∧ (st'.heap.rd last).next = none ∧
          (st'.heap.rd last).seq = seqL ∧ (st'.heap.rd last).bytes = bytesL ∧
          (st'.heap.rd last).end_ = lp.end_ ∧
          bytesL.length ≤ pageBytes ∧
          st'.pc.used = used0 + ((pre'.length : Int) + 1) ∧
          pre'.length = pre.length + (bytes.length - 1) / pageBytes := by
  intro fuel
  induction fuel with
  | zero =>
    intro st current numPages seq bytes pre prvC _ _ _ _ _ _ _ _ _ _ hfuel
    simp at hfuel
  | succ k ih =>
    intro st current numPages seq bytes pre prvC hrun hprev hnone hnd hacq hpnd hpb hused hnum
      hcap hfuel
    have hcurlt : current < st.heap.length := (hacq current (by simp)).1
    have hcurpre : current ∉ pre := by
      intro hc
      exact (List.nodup_append.mp hnd).2.2 hc (List.mem_singleton_self _)
    rw [convertToPagesSafe.loop]
    dsimp only
    rw [if_pos (Nat.min_le_right _ _)]
    rw [sliceFrom_ok _ _ ⟨by omega, by
      have := Nat.min_le_left bytes.length pageBytes
      omega⟩]
    dsimp only
    rw [Int.toNat_ofNat]
    by_cases hb : (List.drop (min bytes.length pageBytes) bytes).length = 0
    · rw [if_pos hb]
      have hle : bytes.length ≤ pageBytes := by
        rw [List.length_drop] at hb
        have := Nat.min_le_right bytes.length pageBytes
        omega
      have hmin : min bytes.length pageBytes = bytes.length := Nat.min_eq_left hle
      have hrd : (convertToPagesSafe.finish
          (convertToPagesSafe.fill st current (List.take (min bytes.length pageBytes) bytes) seq)
          current lp.end_).heap.rd current =
          { st.heap.rd current with bytes := bytes, seq := seq, end_ := lp.end_, next := none } := by
        rw [finish_rd_same _ _ (by rw [fill_length]; exact hcurlt), fill_rd_same _ _ _ hcurlt, hmin,
          List.take_length]
      refine ⟨convertToPagesSafe.finish
          (convertToPagesSafe.fill st current (List.take (min bytes.length pageBytes) bytes) seq)
          current lp.end_, pre, prvC, current, seq, bytes, ?_, ?_, ?_, ?_, ?_, ?_, ?_, hle, ?_, ?_⟩
      · rw [hnum]
      · apply FullRun_frame pageBytes pre _ _ _ _ _ _ _ _ _ hrun
        intro j hj
        have hne : current ≠ j := fun e => hcurpre (e ▸ hj)
        rw [finish_rd_ne _ _ hne, fill_rd_ne _ _ _ hne]
      · rw [hrd]
        exact hprev
      · rw [hrd]
      · rw [hrd]
      · rw [hrd]
      · rw [hrd]
      · rw [finish_pc, fill_pc, hused]
      · rw [extra_pages_zero _ _ hle hP]
        rfl
    · rw [if_neg hb]
      have hlt : pageBytes < bytes.length := by
        rw [List.length_drop] at hb
        by_contra hc
        have : min bytes.length pageBytes = bytes.length := Nat.min_eq_left (by omega)
        omega
      have hmin : min bytes.length pageBytes = pageBytes := Nat.min_eq_right (by omega)
      have hextra := extra_pages_step bytes.length pageBytes hP hlt
      rw [hmin]
      rw [hextra] at hcap hfuel
      have hnn := Int.ofNat_nonneg ((bytes.length - pageBytes - 1) / pageBytes)
      have hfree : st.pc.used < st.pc.maxPages := by
        simp only [Nat.cast_add, Nat.cast_one] at hcap
        simp only [Int.ofNat_eq_coe] at hnn
        generalize (((bytes.length - pageBytes - 1) / pageBytes : Nat) : Int) = X at hcap hnn
        omega
      obtain ⟨st1, nx, hnext, hu, hm, hlen1, hnx, hfresh, hpnd1, hpb1, hsub, hsame, hnxnone⟩ :=
        next_of_free (convertToPagesSafe.fill st current (List.take pageBytes bytes) seq)
          ts hfree hpnd (by
            intro i hi
            rw [fill_length]
            exact hpb i hi)
      rw [hnext]
      dsimp only
      rw [fill_length] at hlen1 hfresh hsame
      rw [fill_pc] at hu hm hfresh hsub
      have hnxacq : ∀ i ∈ pre ++ [current], i ≠ nx := by
        intro i hi e
        subst e
        rcases hfresh with hf | hf
        · exact (hacq i hi).2 hf
        · have := (hacq i hi).1
          omega
      have hcur : current ≠ nx := hnxacq current (by simp)
      have hcur1 : current < st1.heap.length := by omega
      have hrdcur : (convertToPagesSafe.link st1 current nx).heap.rd current =
          { st.heap.rd current with bytes := List.take pageBytes bytes, seq := seq, next := some nx } := by
        rw [link_rd_current st1 hcur hcur1, hsame current hcurlt hcur,
          fill_rd_same _ _ _ hcurlt]
      have hrdnx : (convertToPagesSafe.link st1 current nx).heap.rd nx =
          { st1.heap.rd nx with prev := some current, ac := none } :=
        link_rd_new st1 hcur hnx
      have hrec := ih (convertToPagesSafe.link st1 current nx) nx (numPages + 1)
        (Sequence.Add seq ↑pageBytes) (List.drop pageBytes bytes) (pre ++ [current])
        (some current)
        (by
          refine FullRun_snoc pageBytes pre none (some first) s0 b0 prvC current seq bytes
            (some nx) ?_ (by rw [hrdcur]; exact hprev) (by rw [hrdcur]) (by rw [hrdcur]) hlt
            (by rw [hrdcur])
          apply FullRun_frame pageBytes pre _ _ _ _ _ _ _ _ _ hrun
          intro j hj
          have hjm : j ∈ pre ++ [current] := List.mem_append_left _ hj
          have hjc : current ≠ j := fun e => hcurpre (e ▸ hj)
          rw [link_rd_other st1 hjc (Ne.symm (hnxacq j hjm)),
            hsame j (hacq j hjm).1 (hnxacq j hjm), fill_rd_ne _ _ _ hjc])
        (by rw [hrdnx])
        (by rw [hrdnx]; exact hnxnone)
        (by
          rw [List.nodup_append]
          refine ⟨hnd, List.nodup_singleton _, ?_⟩
          intro a ha hb'
          rw [List.mem_singleton] at hb'
          exact hnxacq a ha hb')
        (by
          intro i hi
          rw [link_length, link_pc]
          rcases List.mem_append.mp hi with hi | hi
          · exact ⟨by have := (hacq i hi).1; omega, fun hc => (hacq i hi).2 (hsub i hc).1⟩
          · rw [List.mem_singleton] at hi
            subst hi
            exact ⟨hnx, fun hc => (hsub i hc).2 rfl⟩)
        (by rw [link_pc]; exact hpnd1)
        (by rw [link_pc, link_length]; exact hpb1)
        (by
          rw [link_pc, hu, hused]
          simp only [List.length_append, List.length_singleton, Nat.cast_add, Nat.cast_one]
          omega)
        (by
          rw [hnum]
          simp only [List.length_append, List.length_singleton, Nat.cast_add, Nat.cast_one])
        (by
          rw [link_pc, hu, hm, List.length_drop]
          simp only [Nat.cast_add, Nat.cast_one] at hcap
          generalize (((bytes.length - pageBytes - 1) / pageBytes : Nat) : Int) = X at hcap ⊢
          omega)
        (by
          rw [List.length_drop]
          omega)
      obtain ⟨st', pre', prvL, last, seqL, bytesL, g1, g2, g3, g4, g5, g6, g7, g8, g9, g10⟩ := hrec
      refine ⟨st', pre', prvL, last, seqL, bytesL, g1, g2, g3, g4, g5, g6, g7, g8, g9, ?_⟩
      rw [g10, List.length_drop, hextra]
      simp only [List.length_append, List.length_singleton]
      omega

theorem FullRun_chain {h : Heap} (P : Nat) (last : Nat) :
    ∀ (pre : List Nat) (prv a : Option Nat) (s : Sequence) (bs : List Nat) (prvL : Option Nat)
      (seqL : Sequence) (bytesL : List Nat),
      FullRun h P prv a s bs pre prvL (some last) seqL bytesL →
      (h.rd last).prev = prvL → (h.rd last).seq = seqL → (h.rd last).bytes = bytesL →
      ∃ hd, (pre ++ [last]).head? = some hd ∧ a = some hd ∧ (h.rd hd).prev = prv ∧
        (h.rd hd).seq = s ∧ (pre ++ [last]).Chain' (RunLink h) ∧
        ((pre ++ [last]).map (fun i => (h.rd i).bytes)).flatten = bs ∧
        ∀ i ∈ pre, (h.rd i).bytes.length = P := by
  intro pre
  induction pre with
  | nil =>
    intro prv a s bs prvL seqL bytesL hf h1 h2 h3
    obtain ⟨e1, e2, e3, e4⟩ := hf
    refine ⟨last, rfl, e2, by rw [h1, e1], by rw [h2, e3], List.chain'_singleton _, ?_, ?_⟩
    · simp [h3, e4]
    · intro i hi
      cases hi
  | cons i rest ih =>
    intro prv a s bs prvL seqL bytesL hf h1 h2 h3
    obtain ⟨f1, f2, f3, f4, f5, f6⟩ := hf
    obtain ⟨hd, g1, g2, g3, g4, g5, g6, g7⟩ := ih _ _ _ _ _ _ _ f6 h1 h2 h3
    have hlen : (h.rd i).bytes.length = P := by
      rw [f4, List.length_take]
      omega
    refine ⟨i, rfl, f1, f2, f3, ?_, ?_, ?_⟩
    · rw [List.cons_append, List.chain'_cons']
      refine ⟨?_, g5⟩
      intro y hy
      rw [g1] at hy
      cases hy
      exact ⟨g2, g3, by rw [g4, f3, hlen]⟩
    · rw [List.cons_append, List.map_cons, List.flatten_cons, g6, f4, List.take_append_drop]
    · intro j hj
      rcases List.mem_cons.mp hj with hj | hj
      · rw [hj]
        exact hlen
      · exact g7 j hj

theorem pages_count (len P : Nat) (hP : 0 < P) :
    (len - 1) / P + 1 = max 1 ((len + P - 1) / P) := by
  rcases Nat.eq_zero_or_pos len with h | h
  · subst h
    have e1 : (0 - 1) / P = 0 := by simp
    have e2 : (0 + P - 1) / P = 0 := Nat.div_eq_of_lt (by omega)
    rw [e1, e2]
    rfl
  · have e : len + P - 1 = (len - 1) + P := by omega
    rw [e, Nat.add_div_right _ hP]
    generalize (len - 1) / P = q
    omega

/-- C12: with a positive page size, a skip within the payload, a well-formed
pool of free pages and room for the pages needed, `convertToPagesSafe` returns
a doubly linked run of `max 1 (ceil ((len b - skip) / pageBytes))` pages whose
bytes concatenate to `b[skip:]`, every page but the last is full, the first
page has sequence `lp.seq + skip` and every further page the sequence of its
predecessor plus the predecessor's length (modulo `2^32`), and `used` grows by
the number of pages. -/
theorem convertToPagesSafe_returns_run (fuel pageBytes : Nat) (lp : livePacket) (st : Store)
    (skip : Int) (ac : Option Nat) (hP : 0 < pageBytes)
    (hskip : 0 ≤ skip ∧ skip ≤ lp.bytes.length)
    (hpnd : st.pc.pagePool.Nodup) (hpb : ∀ i ∈ st.pc.pagePool, i < st.heap.length)
    (hcap : st.pc.used +
      ((max 1 ((lp.bytes.length - skip.toNat + pageBytes - 1) / pageBytes) : Nat) : Int) ≤
        st.pc.maxPages)
    (hfuel : (lp.bytes.length - skip.toNat + pageBytes - 1) / pageBytes < fuel) :
    ∃ (st' : Store) (ids : List Nat) (first last : Nat),
      lp.convertToPagesSafe fuel pageBytes st skip ac =
          .ok (st', .ok (first, last, (ids.length : Int))) ∧
        ids.length = max 1 ((lp.bytes.length - skip.toNat + pageBytes - 1) / pageBytes) ∧
        ids.head? = some first ∧ ids.getLast? = some last ∧
        (st'.heap.rd first).prev = none ∧ (st'.heap.rd last).next = none ∧
        ids.Chain' (RunLink st'.heap) ∧
        (ids.map (fun i => (st'.heap.rd i).bytes)).flatten = lp.bytes.drop skip.toNat ∧
        (∀ i ∈ ids.dropLast, (st'.heap.rd i).bytes.length = pageBytes) ∧
        (st'.heap.rd first).seq = lp.seq.Add skip ∧
        st'.pc.used = st.pc.used + (ids.length : Int) := by
  have hcount := pages_count (lp.bytes.length - skip.toNat) pageBytes hP
  rw [← hcount] at hcap
  have hfuel' : (lp.bytes.length - skip.toNat - 1) / pageBytes < fuel :=
    Nat.lt_of_le_of_lt (Nat.div_le_div_right (by omega)) hfuel
  unfold livePacket.convertToPagesSafe
  have hskip' : ¬ (skip < 0 ∨ skip > lp.bytes.length) := by omega
  rw [if_neg hskip']
  have hs := sliceFrom_ok lp.bytes skip ⟨by omega, by omega⟩
  simp only [hs]
  have hnn := Int.ofNat_nonneg ((lp.bytes.length - skip.toNat - 1) / pageBytes)
  simp only [Int.ofNat_eq_coe] at hnn
  simp only [Nat.cast_add, Nat.cast_one] at hcap
  have hfree : st.pc.used < st.pc.maxPages := by
    generalize (((lp.bytes.length - skip.toNat - 1) / pageBytes : Nat) : Int) = X at hcap hnn
    omega
  obtain ⟨st1, first, hnext, hu, hm, hlen1, hfirst, hfresh, hpnd1, hpb1, hsub, hsame, hnone⟩ :=
    next_of_free st lp.ci hfree hpnd hpb
  rw [hnext]
  dsimp only
  have hrec := loop_run pageBytes hP lp lp.ci first fuel st.pc.used (lp.seq.Add skip)
    (List.drop skip.toNat lp.bytes) fuel
    { heap := (st1.heap.wr first fun q => { q with prev := none }).wr first fun q =>
        { q with ac := ac, start := lp.start && decide (skip = 0) },
      pc := st1.pc }
    first 1 (lp.seq.Add skip) (List.drop skip.toNat lp.bytes) [] none
    ⟨rfl, rfl, rfl, rfl⟩
    (by
      dsimp only
      simp only [Heap.rd_wr]
      split_ifs <;> simp_all)
    (by
      dsimp only
      simp only [Heap.rd_wr]
      split_ifs <;> simp_all)
    (by simp)
    (by
      intro i hi
      simp only [List.nil_append, List.mem_singleton] at hi
      subst hi
      dsimp only
      simp only [Heap.length_wr]
      exact ⟨hfirst, fun hc => (hsub i hc).2 rfl⟩)
    hpnd1
    (by
      dsimp only
      simp only [Heap.length_wr]
      exact hpb1)
    (by
      dsimp only
      rw [hu]
      simp)
    (by simp)
    (by
      dsimp only
      rw [hu, hm, List.length_drop]
      generalize (((lp.bytes.length - skip.toNat - 1) / pageBytes : Nat) : Int) = X at hcap hnn ⊢
      omega)
    (by
      rw [List.length_drop]
      exact hfuel')
  obtain ⟨st', pre', prvL, last, seqL, bytesL, g1, g2, g3, g4, g5, g6, _, _, g9, g10⟩ := hrec
  obtain ⟨hd, c1, c2, c3, c4, c5, c6, c7⟩ := FullRun_chain pageBytes last pre' _ _ _ _ _ _ _ g2 g3 g5 g6
  have hhd : hd = first := by
    cases c2
    rfl
  subst hhd
  have hlen : (pre' ++ [last]).length = (lp.bytes.length - skip.toNat - 1) / pageBytes + 1 := by
    rw [List.length_append, List.length_singleton, g10, List.length_drop]
    simp
  refine ⟨st', pre' ++ [last], hd, last, ?_, ?_, c1, ?_, c3, g4, c5, c6, ?_, c4, ?_⟩
  · rw [g1]
    simp
  · rw [hlen, hcount]
  · simp
  · rw [List.dropLast_concat]
    exact c7
  · rw [g9]
    simp

/-- Witness for `convertToPagesSafe_returns_run`: five bytes from the second
byte on, in pages of two bytes taken from a pool of two recycled pages. -/
theorem convertToPagesSafe_returns_run_witness :
    ∃ (st' : Store) (ids : List Nat) (first last : Nat),
      shortPacket.convertToPagesSafe 5 2 recycledStore 1 none =
          .ok (st', .ok (first, last, (ids.length : Int))) ∧
        ids.length = max 1 ((shortPacket.bytes.length - (1 : Int).toNat + 2 - 1) / 2) ∧
        ids.head? = some first ∧ ids.getLast? = some last ∧
        (st'.heap.rd first).prev = none ∧ (st'.heap.rd last).next = none ∧
        ids.Chain' (RunLink st'.heap) ∧
        (ids.map (fun i => (st'.heap.rd i).bytes)).flatten =
          shortPacket.bytes.drop (1 : Int).toNat ∧
        (∀ i ∈ ids.dropLast, (st'.heap.rd i).bytes.length = 2) ∧
        (st'.heap.rd first).seq = shortPacket.seq.Add 1 ∧
        st'.pc.used = recycledStore.pc.used + (ids.length : Int) :=
  convertToPagesSafe_returns_run 5 2 shortPacket recycledStore 1 none (by decide) (by decide)
    (by decide) (by decide) (by decide) (by decide)

/-! ## The stream pool: sequences of calls -/

theorem getConnection_cases (factory : Flow → Flow → TCP → Option Nat → Option Nat)
    (p : SafeStreamPool) (k : key) (e : Bool) (ts : Int) (tcp : TCP) (ac : Option Nat) :
    ((p.getConnection factory k e ts tcp ac).1 = p ∧
        ((p.getConnection factory k e ts tcp ac).2 = .error .poolClosed ∨
          (p.closed = 0 ∧ ∃ r, p.getHalf k = some r ∧
            (p.getConnection factory k e ts tcp ac).2 = .ok (some r)) ∨
          (p.closed = 0 ∧ p.getHalf k = none ∧ e = true ∧
            (p.getConnection factory k e ts tcp ac).2 = .ok none) ∨
          (p.closed = 0 ∧ p.getHalf k = none ∧ e = false ∧ p.activeConns ≥ p.maxConns ∧
            (p.getConnection factory k e ts tcp ac).2 = .error .connectionLimit))) ∨
      (p.closed = 0 ∧ p.getHalf k = none ∧ e = false ∧ p.activeConns < p.maxConns ∧
        factory k.1 k.2 tcp ac = none ∧
        (p.getConnection factory k e ts tcp ac).1 = { p with factoryCalls := p.factoryCalls + 1 } ∧
        (p.getConnection factory k e ts tcp ac).2 = .error .nilStream) ∨
      (p.closed = 0 ∧ p.getHalf k = none ∧ e = false ∧ p.activeConns < p.maxConns ∧
        ∃ s, factory k.1 k.2 tcp ac = some s ∧
          (p.getConnection factory k e ts tcp ac).2 =
            .ok (some (p.connGet.2, (p.connGet.2, .c2s), (p.connGet.2, .s2c))) ∧
          (p.getConnection factory k e ts tcp ac).1 =
            { p.connGet.1 with
              objs := p.connGet.1.objs.set p.connGet.2 (connection.reset k (some s) ts),
              conns := connsSet p.conns k p.connGet.2,
              activeConns := p.activeConns + 1,
              newConnCount := p.newConnCount + 1,
              factoryCalls := p.factoryCalls + 1 }) := by
  unfold SafeStreamPool.getConnection
  by_cases hc : p.closed ≠ 0
  · rw [if_pos hc]
    exact Or.inl ⟨rfl, Or.inl rfl⟩
  · rw [if_neg hc]
    have hc0 : p.closed = 0 := by omega
    cases hg : p.getHalf k with
    | some r => exact Or.inl ⟨rfl, Or.inr (Or.inl ⟨hc0, r, rfl, rfl⟩)⟩
    | none =>
      dsimp only
      cases e with
      | true => exact Or.inl ⟨rfl, Or.inr (Or.inr (Or.inl ⟨hc0, rfl, rfl, rfl⟩))⟩
      | false =>
        rw [if_neg (by decide)]
        by_cases hl : p.activeConns ≥ p.maxConns
        · rw [if_pos hl]
          exact Or.inl ⟨rfl, Or.inr (Or.inr (Or.inr ⟨hc0, rfl, rfl, hl, rfl⟩))⟩
        · rw [if_neg hl]
          cases hs : factory k.1 k.2 tcp ac with
          | none => exact Or.inr (Or.inl ⟨hc0, rfl, rfl, by omega, rfl, rfl, rfl⟩)
          | some s =>
            refine Or.inr (Or.inr ⟨hc0, rfl, rfl, by omega, s, rfl, ?_⟩)
            dsimp only
            unfold SafeStreamPool.connGet
            cases p.connPool <;> exact ⟨rfl, rfl⟩

theorem connGet_fields (p : SafeStreamPool) :
    p.connGet.1.conns = p.conns ∧ p.connGet.1.maxConns = p.maxConns ∧
      p.connGet.1.activeConns = p.activeConns ∧ p.connGet.1.closed = p.closed ∧
      p.connGet.1.closeOnce = p.closeOnce ∧ p.connGet.1.newConnCount = p.newConnCount ∧
      p.connGet.1.factoryCalls = p.factoryCalls := by
  unfold SafeStreamPool.connGet
  cases p.connPool <;> exact ⟨rfl, rfl, rfl, rfl, rfl, rfl, rfl⟩

theorem getHalf_eq_none (p : SafeStreamPool) (k : key) (h : p.getHalf k = none) :
    connsGet p.conns k = none ∧ connsGet p.conns k.Reverse = none := by
  unfold SafeStreamPool.getHalf at h
  cases h1 : connsGet p.conns k with
  | some c => rw [h1] at h; cases h
  | none =>
    rw [h1] at h
    dsimp only at h
    cases h2 : connsGet p.conns k.Reverse with
    | some c => rw [h2] at h; cases h
    | none => exact ⟨rfl, rfl⟩

theorem getConnection_frame (factory : Flow → Flow → TCP → Option Nat → Option Nat)
    (p : SafeStreamPool) (k : key) (e : Bool) (ts : Int) (tcp : TCP) (ac : Option Nat) :
    (p.getConnection factory k e ts tcp ac).1.maxConns = p.maxConns ∧
      (p.getConnection factory k e ts tcp ac).1.closed = p.closed ∧
      (p.getConnection factory k e ts tcp ac).1.closeOnce = p.closeOnce := by
  obtain ⟨_, _, _, h4, h5, _, _⟩ := connGet_fields p
  rcases getConnection_cases factory p k e ts tcp ac with h | h | h
  · rw [h.1]
    exact ⟨rfl, rfl, rfl⟩
  · obtain ⟨_, _, _, _, _, h, _⟩ := h
    rw [h]
    exact ⟨rfl, rfl, rfl⟩
  · obtain ⟨_, _, _, _, s, _, _, h⟩ := h
    rw [h]
    exact ⟨(connGet_fields p).2.1, h4, h5⟩

theorem getConnection_conns (factory : Flow → Flow → TCP → Option Nat → Option Nat)
    (p : SafeStreamPool) (k : key) (e : Bool) (ts : Int) (tcp : TCP) (ac : Option Nat) :
    (p.getConnection factory k e ts tcp ac).1.conns = p.conns ∨
      (p.getHalf k = none ∧
        ∃ c, (p.getConnection factory k e ts tcp ac).1.conns = connsSet p.conns k c) := by
  rcases getConnection_cases factory p k e ts tcp ac with h | h | h
  · rw [h.1]
    exact Or.inl rfl
  · obtain ⟨_, _, _, _, _, h, _⟩ := h
    rw [h]
    exact Or.inl rfl
  · obtain ⟨_, hg, _, _, s, _, _, h⟩ := h
    rw [h]
    exact Or.inr ⟨hg, _, rfl⟩

theorem getConnection_activeConns (factory : Flow → Flow → TCP → Option Nat → Option Nat)
    (p : SafeStreamPool) (k : key) (e : Bool) (ts : Int) (tcp : TCP) (ac : Option Nat) :
    (p.getConnection factory k e ts tcp ac).1.activeConns = p.activeConns ∨
      (p.activeConns < p.maxConns ∧
        (p.getConnection factory k e ts tcp ac).1.activeConns = p.activeConns + 1) := by
  rcases getConnection_cases factory p k e ts tcp ac with h | h | h
  · rw [h.1]
    exact Or.inl rfl
  · obtain ⟨_, _, _, _, _, h, _⟩ := h
    rw [h]
    exact Or.inl rfl
  · obtain ⟨_, _, _, hl, s, _, _, h⟩ := h
    rw [h]
    exact Or.inr ⟨hl, rfl⟩

theorem connsGet_connsDelete_same (conns : List (key × Nat)) (k : key) :
    connsGet (connsDelete conns k) k = none := by
  unfold connsDelete
  induction conns with
  | nil => rfl
  | cons e rest ih =>
    obtain ⟨ke, c⟩ := e
    by_cases hke : ke = k
    · simp only [List.filter, ne_eq, hke, not_true_eq_false, decide_False]
      exact ih
    · simp only [List.filter, ne_eq, hke, not_false_eq_true, decide_True, connsGet, if_neg hke]
      exact ih

theorem connsGet_connsDelete_none (conns : List (key × Nat)) (k0 k : key)
    (h : connsGet conns k = none) : connsGet (connsDelete conns k0) k = none := by
  by_cases hk : k = k0
  · rw [hk]
    exact connsGet_connsDelete_same conns k0
  · unfold connsDelete
    rw [connsGet_filter_ne conns k0 k hk]
    exact h

theorem OneDirection_connsDelete (conns : List (key × Nat)) (k0 : key) (h : OneDirection conns) :
    OneDirection (connsDelete conns k0) := by
  intro k hk
  rcases h k hk with h1 | h1
  · exact Or.inl (connsGet_connsDelete_none conns k0 k h1)
  · exact Or.inr (connsGet_connsDelete_none conns k0 _ h1)

theorem OneDirection_foldl (l : List (key × Nat)) :
    ∀ m : List (key × Nat), OneDirection m →
      OneDirection (l.foldl (fun m e => connsDelete m e.1) m) := by
  induction l with
  | nil => intro m h; exact h
  | cons e rest ih =>
    intro m h
    exact ih _ (OneDirection_connsDelete m e.1 h)

theorem OneDirection_connsSet (conns : List (key × Nat)) (k0 : key) (c : Nat)
    (h : OneDirection conns) (h1 : connsGet conns k0 = none)
    (h2 : connsGet conns k0.Reverse = none) : OneDirection (connsSet conns k0 c) := by
  intro k hk
  by_cases e1 : k = k0
  · subst e1
    right
    rw [connsGet_connsSet_ne conns k _ c (Ne.symm hk)]
    exact h2
  · by_cases e2 : k.Reverse = k0
    · left
      rw [connsGet_connsSet_ne conns k0 k c e1]
      have : k = k0.Reverse := by rw [← e2, key_Reverse_Reverse]
      rw [this]
      exact h2
    · rw [connsGet_connsSet_ne conns k0 k c e1, connsGet_connsSet_ne conns k0 _ c e2]
      exact h k hk

theorem runPool_induction (factory : Flow → Flow → TCP → Option Nat → Option Nat)
    (I : SafeStreamPool → Prop)
    (hget : ∀ p k e ts tcp ac, I p → I (p.getConnection factory k e ts tcp ac).1)
    (hrem : ∀ p c, I p → I (p.remove c)) (hclose : ∀ p, I p → I p.Close.1) :
    ∀ (events : List PoolEvent) (p : SafeStreamPool), I p → I (runPool factory p events) := by
  intro events
  induction events with
  | nil => intro p h; exact h
  | cons ev rest ih =>
    intro p h
    cases ev with
    | getConnection k e ts tcp ac => exact ih _ (hget p k e ts tcp ac h)
    | remove c => exact ih _ (hrem p c h)
    | Close => exact ih _ (hclose p h)

theorem remove_fields (p : SafeStreamPool) (c : Option Nat) :
    (p.remove c).maxConns = p.maxConns ∧ (p.remove c).closed = p.closed ∧
      (p.remove c).closeOnce = p.closeOnce ∧ (p.remove c).activeConns ≤ p.activeConns ∧
      ((p.remove c).conns = p.conns ∨ ∃ k, (p.remove c).conns = connsDelete p.conns k) := by
  unfold SafeStreamPool.remove
  cases c with
  | none => exact ⟨rfl, rfl, rfl, le_refl _, Or.inl rfl⟩
  | some c =>
    dsimp only
    split
    · exact ⟨rfl, rfl, rfl, by dsimp only; omega, Or.inr ⟨_, rfl⟩⟩
    · exact ⟨rfl, rfl, rfl, le_refl _, Or.inl rfl⟩

theorem foldl_connsDelete_nil (l : List (key × Nat)) :
    ∀ m : List (key × Nat), (∀ e ∈ m, ∃ e' ∈ l, e'.1 = e.1) →
      l.foldl (fun m e => connsDelete m e.1) m = [] := by
  induction l with
  | nil =>
    intro m h
    cases m with
    | nil => rfl
    | cons e rest =>
      obtain ⟨e', he', _⟩ := h e (List.mem_cons_self _ _)
      cases he'
  | cons x rest ih =>
    intro m h
    apply ih
    intro e he
    unfold connsDelete at he
    rw [List.mem_filter] at he
    obtain ⟨hem, hne⟩ := he
    obtain ⟨e', he', hk⟩ := h e hem
    rcases List.mem_cons.mp he' with h1 | h1
    · subst h1
      simp only [ne_eq, decide_not, Bool.not_eq_eq_eq_not, Bool.not_true,
        decide_eq_false_iff_not] at hne
      exact absurd hk.symm hne
    · exact ⟨e', h1, hk⟩

theorem Close_fields (p : SafeStreamPool) :
    p.Close.2 = none ∧ p.Close.1.maxConns = p.maxConns ∧
      p.Close.1.activeConns = p.activeConns ∧ p.Close.1.closeOnce = true ∧
      (p.closeOnce = false → p.Close.1.closed = 1 ∧ p.Close.1.conns = []) ∧
      (p.closeOnce = true → p.Close.1 = p) := by
  unfold SafeStreamPool.Close
  cases h : p.closeOnce with
  | true => simp [h]
  | false =>
    simp only [Bool.false_eq_true, if_false, true_and, imp_false, not_true_eq_false,
      not_false_eq_true, and_true, forall_const]
    exact ⟨foldl_connsDelete_nil p.conns p.conns (fun e he => ⟨e, he, rfl⟩), fun hf => hf.elim⟩

theorem getConnections_found (factory : Flow → Flow → TCP → Option Nat → Option Nat)
    (k1 : key) (c : Nat) :
    ∀ (calls : List (key × Int × TCP × Option Nat)) (p : SafeStreamPool),
      p.closed = 0 → p.conns = [(k1, c)] → (∀ x ∈ calls, x.1 = k1 ∨ x.1 = k1.Reverse) →
      (getConnections factory p calls).1 = p ∧
        (getConnections factory p calls).2.length = calls.length ∧
        ∀ r ∈ (getConnections factory p calls).2, ∃ h1 h2, r = .ok (some (c, h1, h2)) := by
  intro calls
  induction calls with
  | nil =>
    intro p _ _ _
    exact ⟨rfl, rfl, fun r hr => by cases hr⟩
  | cons x rest ih =>
    intro p hopen hconns hkeys
    obtain ⟨k, ts, tcp, ac⟩ := x
    have hk : k = k1 ∨ k = k1.Reverse := hkeys _ (List.mem_cons_self _ _)
    have hgh : ∃ h1 h2, p.getHalf k = some (c, h1, h2) := by
      unfold SafeStreamPool.getHalf
      rw [hconns]
      rcases hk with hk | hk
      · subst hk
        exact ⟨(c, .c2s), (c, .s2c), by simp [connsGet]⟩
      · subst hk
        by_cases hs : k1 = k1.Reverse
        · exact ⟨(c, .c2s), (c, .s2c), by simp [connsGet, ← hs]⟩
        · exact ⟨(c, .s2c), (c, .c2s), by simp [connsGet, hs, key_Reverse_Reverse]⟩
    obtain ⟨h1, h2, hgh⟩ := hgh
    have hcall := getConnection_found factory p k false ts tcp ac _ hopen hgh
    obtain ⟨i1, i2, i3⟩ := ih p hopen hconns (fun y hy => hkeys y (List.mem_cons_of_mem _ hy))
    simp only [getConnections, hcall]
    refine ⟨i1, by rw [List.length_cons, List.length_cons, i2], ?_⟩
    intro r hr
    rcases List.mem_cons.mp hr with hr | hr
    · exact ⟨h1, h2, hr⟩
    · exact i3 r hr

theorem getConnection_created (factory : Flow → Flow → TCP → Option Nat → Option Nat)
    (p : SafeStreamPool) (k : key) (ts : Int) (tcp : TCP) (ac : Option Nat) (s : Nat)
    (hopen : p.closed = 0) (hg : p.getHalf k = none) (hl : p.activeConns < p.maxConns)
    (hs : factory k.1 k.2 tcp ac = some s) :
    p.getConnection factory k false ts tcp ac =
      ({ p.connGet.1 with
          objs := p.connGet.1.objs.set p.connGet.2 (connection.reset k (some s) ts),
          conns := connsSet p.conns k p.connGet.2,
          activeConns := p.activeConns + 1,
          newConnCount := p.newConnCount + 1,
          factoryCalls := p.factoryCalls + 1 },
        .ok (some (p.connGet.2, (p.connGet.2, .c2s), (p.connGet.2, .s2c)))) := by
  unfold SafeStreamPool.getConnection
  rw [if_neg (by rw [hopen]; decide), hg]
  dsimp only
  rw [if_neg (by decide), if_neg (by omega), hs]
  dsimp only
  unfold SafeStreamPool.connGet
  cases p.connPool <;> rfl

theorem getConnections_fresh (factory : Flow → Flow → TCP → Option Nat → Option Nat)
    (hf : ∀ a b t c, factory a b t c ≠ none) (maxConns : Int) (k : key)
    (calls : List (key × Int × TCP × Option Nat)) (hne : calls ≠ [])
    (hkeys : ∀ x ∈ calls, x.1 = k ∨ x.1 = k.Reverse) :
    (getConnections factory (NewSafeStreamPool maxConns) calls).1.factoryCalls = 1 ∧
      (getConnections factory (NewSafeStreamPool maxConns) calls).1.activeConns = 1 ∧
      (getConnections factory (NewSafeStreamPool maxConns) calls).1.newConnCount = 1 ∧
      (getConnections factory (NewSafeStreamPool maxConns) calls).2.length = calls.length ∧
      ∃ c, ∀ r ∈ (getConnections factory (NewSafeStreamPool maxConns) calls).2,
        ∃ h1 h2, r = .ok (some (c, h1, h2)) := by
  cases calls with
  | nil => exact absurd rfl hne
  | cons x rest =>
    obtain ⟨k1, ts, tcp, ac⟩ := x
    have hk1 : k1 = k ∨ k1 = k.Reverse := hkeys _ (List.mem_cons_self _ _)
    have hlim : (NewSafeStreamPool maxConns).activeConns < (NewSafeStreamPool maxConns).maxConns := by
      unfold NewSafeStreamPool
      dsimp only
      split <;> omega
    have hg : (NewSafeStreamPool maxConns).getHalf k1 = none := rfl
    cases hs : factory k1.1 k1.2 tcp ac with
    | none => exact absurd hs (hf _ _ _ _)
    | some s =>
      have hcall := getConnection_created factory (NewSafeStreamPool maxConns) k1 ts tcp ac s rfl hg
        hlim hs
      have hrest : ∀ y ∈ rest, y.1 = k1 ∨ y.1 = k1.Reverse := by
        intro y hy
        have := hkeys y (List.mem_cons_of_mem _ hy)
        rcases hk1 with e | e
        · rw [e]
          exact this
        · rw [e, key_Reverse_Reverse]
          exact this.symm
      obtain ⟨i1, i2, i3⟩ := getConnections_found factory k1 (NewSafeStreamPool maxConns).connGet.2
        rest ((NewSafeStreamPool maxConns).getConnection factory k1 false ts tcp ac).1
        (by rw [hcall]; rfl) (by rw [hcall]; rfl) hrest
      simp only [getConnections]
      rw [i1]
      refine ⟨by rw [hcall]; rfl, by rw [hcall]; rfl, by rw [hcall]; rfl,
        by rw [List.length_cons, List.length_cons, i2], (NewSafeStreamPool maxConns).connGet.2, ?_⟩
      intro r hr
      rcases List.mem_cons.mp hr with hr | hr
      · rw [hr, hcall]
        exact ⟨_, _, rfl⟩
      · exact i3 r hr

/-- C21: a pool made by `NewSafeStreamPool` goes through any sequence of
`getConnection`, `remove` and `Close` calls; for a key `k` that differs from
its reverse, the table never has an entry under `k` and an entry under the
reverse of `k`. -/
theorem table_never_holds_key_and_reverse
    (factory : Flow → Flow → TCP → Option Nat → Option Nat) (maxConns : Int)
    (events : List PoolEvent) (k : key) (hk : k ≠ k.Reverse) :
    ¬ ((connsGet (runPool factory (NewSafeStreamPool maxConns) events).conns k).isSome = true ∧
      (connsGet (runPool factory (NewSafeStreamPool maxConns) events).conns k.Reverse).isSome =
        true) := by
  have hI := runPool_induction factory (fun p => OneDirection p.conns)
    (by
      intro p k e ts tcp ac h
      rcases getConnection_conns factory p k e ts tcp ac with h1 | ⟨hg, c, h1⟩
      · rw [h1]
        exact h
      · rw [h1]
        obtain ⟨g1, g2⟩ := getHalf_eq_none p k hg
        exact OneDirection_connsSet p.conns k c h g1 g2)
    (by
      intro p c h
      rcases (remove_fields p c).2.2.2.2 with h1 | ⟨k0, h1⟩
      · rw [h1]
        exact h
      · rw [h1]
        exact OneDirection_connsDelete p.conns k0 h)
    (by
      intro p h
      cases hc : p.closeOnce with
      | true =>
        rw [(Close_fields p).2.2.2.2.2 hc]
        exact h
      | false =>
        rw [((Close_fields p).2.2.2.2.1 hc).2]
        intro k _
        exact Or.inl rfl)
    events (NewSafeStreamPool maxConns) (by
      intro k _
      exact Or.inl rfl)
  intro hboth
  rcases hI k hk with h | h
  · rw [h] at hboth
    exact absurd hboth.1 (by decide)
  · rw [h] at hboth
    exact absurd hboth.2 (by decide)

/-- Witness of C21: the key of the test file is looked up, looked up by its
reverse, removed, created again under the reverse, and the pool is closed. -/
theorem table_never_holds_key_and_reverse_witness :
    exKey ≠ exKey.Reverse ∧
      ¬ ((connsGet (runPool testStreamFactory (NewSafeStreamPool 10)
          [.getConnection exKey false 0 synPacket none,
            .getConnection exKey.Reverse false 1 synPacket none, .remove (some 0),
            .getConnection exKey.Reverse false 2 synPacket none, .Close]).conns exKey).isSome =
          true ∧
        (connsGet (runPool testStreamFactory (NewSafeStreamPool 10)
          [.getConnection exKey false 0 synPacket none,
            .getConnection exKey.Reverse false 1 synPacket none, .remove (some 0),
            .getConnection exKey.Reverse false 2 synPacket none, .Close]).conns
            exKey.Reverse).isSome = true) :=
  ⟨by decide, table_never_holds_key_and_reverse testStreamFactory 10 _ exKey (by decide)⟩

/-- C22: in a pool made by `NewSafeStreamPool` whose factory returns streams,
`n >= 1` calls of `getConnection` with `end = false`, each for the key `k` or
for its reverse, made one after the other, call `factory.New` once and all
return the same connection; afterwards `Stats().ActiveConnections` and
`Stats().TotalCreated` are 1. -/
theorem same_key_calls_create_one_connection
    (factory : Flow → Flow → TCP → Option Nat → Option Nat)
    (hf : ∀ a b t c, factory a b t c ≠ none) (maxConns : Int) (k : key)
    (calls : List (key × Int × TCP × Option Nat)) (hn : 1 ≤ calls.length)
    (hkeys : ∀ x ∈ calls, x.1 = k ∨ x.1 = k.Reverse) :
    (getConnections factory (NewSafeStreamPool maxConns) calls).1.factoryCalls = 1 ∧
      (getConnections factory (NewSafeStreamPool maxConns) calls).2.length = calls.length ∧
      (∃ c, ∀ r ∈ (getConnections factory (NewSafeStreamPool maxConns) calls).2,
        ∃ h1 h2, r = .ok (some (c, h1, h2))) ∧
      (getConnections factory (NewSafeStreamPool maxConns) calls).1.Stats.ActiveConnections = 1 ∧
      (getConnections factory (NewSafeStreamPool maxConns) calls).1.Stats.TotalCreated = 1 := by
  have hne : calls ≠ [] := by
    intro h
    rw [h] at hn
    cases hn
  obtain ⟨h1, h2, h3, h4, h5⟩ := getConnections_fresh factory hf maxConns k calls hne hkeys
  exact ⟨h1, h4, h5, h2, h3⟩

/-- Witness of C22: three calls, for the key of the test file, its reverse,
and the key again. -/
theorem same_key_calls_create_one_connection_witness :
    (getConnections testStreamFactory (NewSafeStreamPool 1000)
        [(exKey, 0, synPacket, none), (exKey.Reverse, 1, synPacket, none),
          (exKey, 2, synPacket, none)]).1.factoryCalls = 1 ∧
      (getConnections testStreamFactory (NewSafeStreamPool 1000)
        [(exKey, 0, synPacket, none), (exKey.Reverse, 1, synPacket, none),
          (exKey, 2, synPacket, none)]).2.length = 3 ∧
      (∃ c, ∀ r ∈ (getConnections testStreamFactory (NewSafeStreamPool 1000)
        [(exKey, 0, synPacket, none), (exKey.Reverse, 1, synPacket, none),
          (exKey, 2, synPacket, none)]).2, ∃ h1 h2, r = .ok (some (c, h1, h2))) ∧
      (getConnections testStreamFactory (NewSafeStreamPool 1000)
        [(exKey, 0, synPacket, none), (exKey.Reverse, 1, synPacket, none),
          (exKey, 2, synPacket, none)]).1.Stats.ActiveConnections = 1 ∧
      (getConnections testStreamFactory (NewSafeStreamPool 1000)
        [(exKey, 0, synPacket, none), (exKey.Reverse, 1, synPacket, none),
          (exKey, 2, synPacket, none)]).1.Stats.TotalCreated = 1 :=
  same_key_calls_create_one_connection testStreamFactory (by intro a b t c; simp [testStreamFactory]) 1000 exKey
    [(exKey, 0, synPacket, none), (exKey.Reverse, 1, synPacket, none),
      (exKey, 2, synPacket, none)] (by decide) (by decide)

theorem created_of_all_ok :
    ∀ (rs : List (Except GoError (Option (Nat × HalfRef × HalfRef)))) (c : Nat),
      (∀ r ∈ rs, ∃ h1 h2, r = .ok (some (c, h1, h2))) → created rs = rs.length := by
  intro rs c
  induction rs with
  | nil => intro _; rfl
  | cons r rest ih =>
    intro h
    obtain ⟨h1, h2, hr⟩ := h r (List.mem_cons_self _ _)
    have hrest := ih (fun y hy => h y (List.mem_cons_of_mem _ hy))
    unfold created at hrest ⊢
    rw [hr]
    simp only [List.filter, List.length_cons]
    rw [hrest]

/-- C23 fails on the code: the ten calls of
`TestSafeAssemblerRaceCondition`, made one after the other, all return the
connection with a nil error, so the test's counter `created` is 10, where the
test and the claim ask for 1. -/
theorem every_same_key_call_counts_as_created :
    created (getConnections testStreamFactory (NewSafeStreamPool 1000)
      (List.replicate 10 (exKey, 0, synPacket, none))).2 = 10 := by
  decide

/-- The run of `every_same_key_call_counts_as_created` in general: with a
factory that returns streams, `n >= 2` calls of `getConnection` with
`end = false` for the same key all return a non-nil connection with a nil error
(the counter `created` is `n`), and one of them creates the connection:
`factory.New` is called once and the pool's count of created connections is
1. -/
theorem same_key_calls_all_return_the_connection
    (factory : Flow → Flow → TCP → Option Nat → Option Nat)
    (hf : ∀ a b t c, factory a b t c ≠ none) (maxConns : Int) (k : key)
    (calls : List (key × Int × TCP × Option Nat)) (hn : 2 ≤ calls.length)
    (hkeys : ∀ x ∈ calls, x.1 = k) :
    created (getConnections factory (NewSafeStreamPool maxConns) calls).2 = calls.length ∧
      (getConnections factory (NewSafeStreamPool maxConns) calls).1.factoryCalls = 1 ∧
      (getConnections factory (NewSafeStreamPool maxConns) calls).1.newConnCount = 1 := by
  have hne : calls ≠ [] := by
    intro h
    rw [h] at hn
    cases hn
  obtain ⟨h1, _, h3, h4, c, h5⟩ := getConnections_fresh factory hf maxConns k calls hne
    (fun x hx => Or.inl (hkeys x hx))
  exact ⟨by rw [created_of_all_ok _ c h5, h4], h1, h3⟩

/-- Two calls for the key of the test file: both count as `created`. -/
theorem same_key_calls_all_return_the_connection_witness :
    created (getConnections testStreamFactory (NewSafeStreamPool 1000)
        [(exKey, 0, synPacket, none), (exKey, 1, synPacket, none)]).2 = 2 ∧
      (getConnections testStreamFactory (NewSafeStreamPool 1000)
        [(exKey, 0, synPacket, none), (exKey, 1, synPacket, none)]).1.factoryCalls = 1 ∧
      (getConnections testStreamFactory (NewSafeStreamPool 1000)
        [(exKey, 0, synPacket, none), (exKey, 1, synPacket, none)]).1.newConnCount = 1 :=
  same_key_calls_all_return_the_connection testStreamFactory (by intro a b t c; simp [testStreamFactory]) 1000
    exKey [(exKey, 0, synPacket, none), (exKey, 1, synPacket, none)] (by decide) (by decide)

theorem runPool_induction_open (factory : Flow → Flow → TCP → Option Nat → Option Nat)
    (I : SafeStreamPool → Prop)
    (hget : ∀ p k e ts tcp ac, I p → I (p.getConnection factory k e ts tcp ac).1)
    (hrem : ∀ p c, I p → I (p.remove c)) :
    ∀ (events : List PoolEvent) (p : SafeStreamPool), PoolEvent.Close ∉ events → I p →
      I (runPool factory p events) := by
  intro events
  induction events with
  | nil => intro p _ h; exact h
  | cons ev rest ih =>
    intro p hev h
    have hrest : PoolEvent.Close ∉ rest := fun hc => hev (List.mem_cons_of_mem _ hc)
    cases ev with
    | getConnection k e ts tcp ac => exact ih _ hrest (hget p k e ts tcp ac h)
    | remove c => exact ih _ hrest (hrem p c h)
    | Close => exact absurd (List.mem_cons_self _ _) hev

theorem getConnection_at_limit (factory : Flow → Flow → TCP → Option Nat → Option Nat)
    (p : SafeStreamPool) (k : key) (ts : Int) (tcp : TCP) (ac : Option Nat)
    (hopen : p.closed = 0) (h1 : connsGet p.conns k = none)
    (h2 : connsGet p.conns k.Reverse = none) (hl : p.activeConns ≥ p.maxConns) :
    p.getConnection factory k false ts tcp ac = (p, .error .connectionLimit) := by
  have hg : p.getHalf k = none := by
    simp only [SafeStreamPool.getHalf, h1, h2]
  unfold SafeStreamPool.getConnection
  rw [if_neg (by rw [hopen]; decide), hg]
  dsimp only
  rw [if_neg (by decide), if_pos hl]

/-- C25: a pool made by `NewSafeStreamPool(factory, m)` with `m > 0` goes
through any sequence of `getConnection` and `remove` calls.  Afterwards (hence
after every call) `Stats().ActiveConnections` is at most `m`; when it is at
least `m` and neither `k` nor its reverse is in the table, `getConnection` with
`end = false` returns the error of the connection limit and leaves the pool as
it is, the table, the counters and the count of factory calls included; and a
key that is in the table is still found. -/
theorem active_connections_within_limit
    (factory : Flow → Flow → TCP → Option Nat → Option Nat) (m : Int) (hm : 0 < m)
    (events : List PoolEvent) (hev : PoolEvent.Close ∉ events) :
    (runPool factory (NewSafeStreamPool m) events).Stats.ActiveConnections ≤ m ∧
      (∀ (k : key) (ts : Int) (tcp : TCP) (ac : Option Nat),
        (runPool factory (NewSafeStreamPool m) events).Stats.ActiveConnections ≥ m →
        connsGet (runPool factory (NewSafeStreamPool m) events).conns k = none →
        connsGet (runPool factory (NewSafeStreamPool m) events).conns k.Reverse = none →
        (runPool factory (NewSafeStreamPool m) events).getConnection factory k false ts tcp ac =
          (runPool factory (NewSafeStreamPool m) events, .error .connectionLimit)) ∧
      (∀ (k : key) (c : Nat) (e : Bool) (ts : Int) (tcp : TCP) (ac : Option Nat),
        connsGet (runPool factory (NewSafeStreamPool m) events).conns k = some c →
        (runPool factory (NewSafeStreamPool m) events).getConnection factory k e ts tcp ac =
          (runPool factory (NewSafeStreamPool m) events,
            .ok (some (c, (c, .c2s), (c, .s2c))))) := by
  have hI := runPool_induction_open factory
    (fun p => p.maxConns = m ∧ p.activeConns ≤ p.maxConns ∧ p.closed = 0)
    (by
      intro p k e ts tcp ac ⟨h1, h2, h3⟩
      obtain ⟨f1, f2, _⟩ := getConnection_frame factory p k e ts tcp ac
      refine ⟨by rw [f1]; exact h1, ?_, by rw [f2]; exact h3⟩
      rw [f1]
      rcases getConnection_activeConns factory p k e ts tcp ac with g | ⟨g1, g2⟩
      · rw [g]
        exact h2
      · rw [g2]
        omega)
    (by
      intro p c ⟨h1, h2, h3⟩
      obtain ⟨f1, f2, _, f4, _⟩ := remove_fields p c
      exact ⟨by rw [f1]; exact h1, by rw [f1]; omega, by rw [f2]; exact h3⟩)
    events (NewSafeStreamPool m) hev (by
      unfold NewSafeStreamPool
      dsimp only
      rw [if_neg (by omega)]
      exact ⟨rfl, by omega, rfl⟩)
  obtain ⟨h1, h2, h3⟩ := hI
  refine ⟨?_, ?_, ?_⟩
  · show (runPool factory (NewSafeStreamPool m) events).activeConns ≤ m
    omega
  · intro k ts tcp ac hge g1 g2
    apply getConnection_at_limit factory _ k ts tcp ac h3 g1 g2
    have : (runPool factory (NewSafeStreamPool m) events).activeConns ≥ m := hge
    omega
  · intro k c e ts tcp ac g
    apply getConnection_found factory _ k e ts tcp ac _ h3
    simp only [SafeStreamPool.getHalf, g]

/-- Witness of C25: a pool for one connection, in which a connection is
created, a second one is refused, and the first one is removed. -/
theorem active_connections_within_limit_witness :
    (runPool testStreamFactory (NewSafeStreamPool 1)
        [.getConnection exKey false 0 synPacket none,
          .getConnection (exKey.1, { src := 81, dst := 8080 }) false 1 synPacket none,
          .remove (some 0)]).Stats.ActiveConnections ≤ 1 :=
  (active_connections_within_limit testStreamFactory 1 (by decide)
    [.getConnection exKey false 0 synPacket none,
      .getConnection (exKey.1, { src := 81, dst := 8080 }) false 1 synPacket none,
      .remove (some 0)] (by decide)).1

/-- C27: a pool made by `NewSafeStreamPool` goes through any sequence of
calls and is then closed.  `Close` returns nil; afterwards every
`getConnection` call, for any key and any `end` flag, returns `ErrPoolClosed`
(with no connection and no halves) and leaves the pool as it is, the count of
factory calls included; and a second `Close` returns nil and leaves the pool as
it is. -/
theorem getConnection_after_Close_fails
    (factory : Flow → Flow → TCP → Option Nat → Option Nat) (maxConns : Int)
    (events : List PoolEvent) :
    (runPool factory (NewSafeStreamPool maxConns) events).Close.2 = none ∧
      (∀ (k : key) (e : Bool) (ts : Int) (tcp : TCP) (ac : Option Nat),
        (runPool factory (NewSafeStreamPool maxConns) events).Close.1.getConnection factory k e
            ts tcp ac =
          ((runPool factory (NewSafeStreamPool maxConns) events).Close.1, .error .poolClosed)) ∧
      (runPool factory (NewSafeStreamPool maxConns) events).Close.1.Close =
        ((runPool factory (NewSafeStreamPool maxConns) events).Close.1, none) := by
  have hI := runPool_induction factory (fun p => p.closeOnce = true → p.closed ≠ 0)
    (by
      intro p k e ts tcp ac h
      obtain ⟨_, f2, f3⟩ := getConnection_frame factory p k e ts tcp ac
      rw [f2, f3]
      exact h)
    (by
      intro p c h
      obtain ⟨_, f2, f3, _⟩ := remove_fields p c
      rw [f2, f3]
      exact h)
    (by
      intro p h _
      cases hc : p.closeOnce with
      | true =>
        rw [(Close_fields p).2.2.2.2.2 hc]
        exact h hc
      | false =>
        rw [((Close_fields p).2.2.2.2.1 hc).1]
        decide)
    events (NewSafeStreamPool maxConns) (by
      intro h
      cases h)
  obtain ⟨c1, _, _, c4, c5, c6⟩ := Close_fields (runPool factory (NewSafeStreamPool maxConns) events)
  have hclosed : (runPool factory (NewSafeStreamPool maxConns) events).Close.1.closed ≠ 0 := by
    cases hc : (runPool factory (NewSafeStreamPool maxConns) events).closeOnce with
    | true =>
      rw [c6 hc]
      exact hI hc
    | false =>
      rw [(c5 hc).1]
      decide
  refine ⟨c1, ?_, ?_⟩
  · intro k e ts tcp ac
    unfold SafeStreamPool.getConnection
    rw [if_pos hclosed]
  · generalize (runPool factory (NewSafeStreamPool maxConns) events).Close.1 = q at c4
    unfold SafeStreamPool.Close
    rw [if_pos c4]

/-- C28 fails on the code: a pool holds one connection and is closed; the
table is empty and `Stats().ActiveConnections` is still 1. -/
theorem Close_keeps_active_connections :
    (runPool testStreamFactory (NewSafeStreamPool 1000)
        [.getConnection exKey false 0 synPacket none]).Stats.ActiveConnections = 1 ∧
      (runPool testStreamFactory (NewSafeStreamPool 1000)
        [.getConnection exKey false 0 synPacket none, .Close]).conns = [] ∧
      (runPool testStreamFactory (NewSafeStreamPool 1000)
        [.getConnection exKey false 0 synPacket none, .Close]).Stats.ActiveConnections = 1 := by
  decide

/-! ## `AssembleWithContext`: the lookup of the connection -/

/-- C24 fails on the code: an open assembler with an empty table gets a
segment with FIN and without SYN.  `AssembleWithContext` asks for the
connection with `end = false`, so the factory is called once and the table
holds a new connection afterwards (one active, one created); the call returns
nil and delivers nothing. -/
theorem AssembleWithContext_FIN_creates_connection :
    freshAssembler.connPool.conns = [] ∧ freshAssembler.connPool.factoryCalls = 0 ∧
      (SafeAssembler.AssembleWithContext testStreamFactory (fun _ => testStream) 8 1900
          freshAssembler exKey.1 (some finPacket) 0 (some 1)).map
          (fun r => (r.2, r.1.connPool.factoryCalls)) = .ok (none, 1) ∧
      (SafeAssembler.AssembleWithContext testStreamFactory (fun _ => testStream) 8 1900
          freshAssembler exKey.1 (some finPacket) 0 (some 1)).map
          (fun r => (r.1.connPool.conns, r.1.delivered)) = .ok ([(exKey, 0)], []) ∧
      (SafeAssembler.AssembleWithContext testStreamFactory (fun _ => testStream) 8 1900
          freshAssembler exKey.1 (some finPacket) 0 (some 1)).map
          (fun r => (r.1.connPool.Stats.ActiveConnections, r.1.connPool.Stats.TotalCreated)) =
        .ok (1, 1) := by
  decide

theorem getConnection_nilStream (factory : Flow → Flow → TCP → Option Nat → Option Nat)
    (p : SafeStreamPool) (k : key) (ts : Int) (tcp : TCP) (ac : Option Nat)
    (hopen : p.closed = 0) (hl : p.activeConns < p.maxConns)
    (h1 : connsGet p.conns k = none) (h2 : connsGet p.conns k.Reverse = none)
    (hs : factory k.1 k.2 tcp ac = none) :
    p.getConnection factory k false ts tcp ac =
      ({ p with factoryCalls := p.factoryCalls + 1 }, .error .nilStream) := by
  have hg : p.getHalf k = none := by
    simp only [SafeStreamPool.getHalf, h1, h2]
  unfold SafeStreamPool.getConnection
  rw [if_neg (by rw [hopen]; decide), hg]
  dsimp only
  rw [if_neg (by decide), if_neg (by omega), hs]

/-- C26: in an open pool below its limit whose table holds neither the key
nor its reverse, a factory that returns nil makes `getConnection` with
`end = false` return `ErrNilStream` (with no connection and no halves); the
table, `ActiveConnections` and `TotalCreated` are as before.
`AssembleWithContext` on a segment with such a key, in an open assembler and
with a context that is not nil, returns an error that wraps `ErrNilStream`,
and `Errors` grows by 1. -/
theorem nil_stream_is_reported (factory : Flow → Flow → TCP → Option Nat → Option Nat) :
    (∀ (p : SafeStreamPool) (k : key) (ts : Int) (tcp : TCP) (ac : Option Nat),
        p.closed = 0 → p.activeConns < p.maxConns → connsGet p.conns k = none →
        connsGet p.conns k.Reverse = none → factory k.1 k.2 tcp ac = none →
        (p.getConnection factory k false ts tcp ac).2 = .error .nilStream ∧
          (p.getConnection factory k false ts tcp ac).1.conns = p.conns ∧
          (p.getConnection factory k false ts tcp ac).1.Stats.ActiveConnections =
            p.Stats.ActiveConnections ∧
          (p.getConnection factory k false ts tcp ac).1.Stats.TotalCreated =
            p.Stats.TotalCreated) ∧
      (∀ (streams : Nat → Stream) (fuel pageBytes : Nat) (w : AssemblerState) (netFlow : Flow)
        (t : TCP) (timestamp : Int) (ctx : Nat),
        w.ctxErr = none → w.connPool.closed = 0 → w.connPool.activeConns < w.connPool.maxConns →
        connsGet w.connPool.conns (netFlow, t.TransportFlow) = none →
        connsGet w.connPool.conns (key.Reverse (netFlow, t.TransportFlow)) = none →
        factory netFlow t.TransportFlow t (some ctx) = none →
        ∃ w' err, SafeAssembler.AssembleWithContext factory streams fuel pageBytes w netFlow
              (some t) timestamp (some ctx) = .ok (w', some err) ∧
            err.Is .nilStream = true ∧
            w'.a.stats.Errors = (w.a.stats.Errors + 1) % 18446744073709551616 ∧
            w'.connPool.conns = w.connPool.conns) := by
  constructor
  · intro p k ts tcp ac hopen hl h1 h2 hs
    rw [getConnection_nilStream factory p k ts tcp ac hopen hl h1 h2 hs]
    exact ⟨rfl, rfl, rfl, rfl⟩
  · intro streams fuel pageBytes w netFlow t timestamp ctx hctx hopen hl h1 h2 hs
    have hcall := getConnection_nilStream factory w.connPool (netFlow, t.TransportFlow) timestamp
      t (some ctx) hopen hl h1 h2 hs
    unfold SafeAssembler.AssembleWithContext
    rw [hctx]
    dsimp only
    rw [hcall]
    exact ⟨_, _, rfl, rfl, rfl, rfl⟩

/-- Witness of C26: the assembler of the test file with the factory that
returns nil. -/
theorem nil_stream_is_reported_witness :
    ∃ w' err, SafeAssembler.AssembleWithContext nilStreamFactory (fun _ => testStream) 8 1900
          freshAssembler exKey.1 (some synPacket) 0 (some 1) = .ok (w', some err) ∧
        err.Is .nilStream = true ∧
        w'.a.stats.Errors = (freshAssembler.a.stats.Errors + 1) % 18446744073709551616 ∧
        w'.connPool.conns = freshAssembler.connPool.conns :=
  (nil_stream_is_reported nilStreamFactory).2 (fun _ => testStream) 8 1900 freshAssembler exKey.1
    synPacket 0 1 (by decide) (by decide) (by decide) (by decide) (by decide) (by decide)

/-- C29 fails on the code: in every open assembler, `AssembleWithContext` with
a nil TCP layer ends in a nil pointer dereference: the statistics statement
reads `t.Payload` before `t` is compared with `nil`. -/
theorem AssembleWithContext_nil_TCP_panics
    (factory : Flow → Flow → TCP → Option Nat → Option Nat) (streams : Nat → Stream)
    (fuel pageBytes : Nat) (w : AssemblerState) (netFlow : Flow) (timestamp : Int)
    (ac : Option Nat) (hctx : w.ctxErr = none) :
    SafeAssembler.AssembleWithContext factory streams fuel pageBytes w netFlow none timestamp ac =
      .error .nilPointerDereference := by
  unfold SafeAssembler.AssembleWithContext
  rw [hctx]

/-- Witness of C29's failure: the assembler of the test file, with a context
that is not nil. -/
theorem AssembleWithContext_nil_TCP_panics_witness :
    SafeAssembler.AssembleWithContext testStreamFactory (fun _ => testStream) 8 1900
        freshAssembler exKey.1 none 0 (some 1) = .error .nilPointerDereference :=
  AssembleWithContext_nil_TCP_panics testStreamFactory (fun _ => testStream) 8 1900
    freshAssembler exKey.1 0 (some 1) (by decide)

/-! ## Options -/

/-- C30: when `MaxBufferedPagesTotal` or `MaxBufferedPagesPerConnection` is
negative, `Validate` returns an error that wraps `ErrInvalidOptions` and leaves
the options as they are, and `NewSafeAssembler` returns that error and no
assembler; when both are at least 0, `Validate` returns nil (whatever the
durations are). -/
theorem Validate_rejects_negative_page_limits (o : SafeAssemblerOptions)
    (pool : SafeStreamPool) :
    ((o.MaxBufferedPagesTotal < 0 ∨ o.MaxBufferedPagesPerConnection < 0) →
        ∃ err, o.Validate = (o, some err) ∧ err.Is .invalidOptions = true ∧
          NewSafeAssembler pool o = .ok (.error err)) ∧
      ((0 ≤ o.MaxBufferedPagesTotal ∧ 0 ≤ o.MaxBufferedPagesPerConnection) →
        o.Validate.2 = none) := by
  constructor
  · intro h
    have hv : o.Validate = (o, some (.wrapping .invalidOptions)) := by
      unfold SafeAssemblerOptions.Validate
      by_cases h1 : o.MaxBufferedPagesTotal < 0
      · rw [if_pos h1]
      · rw [if_neg h1, if_pos (by omega)]
    refine ⟨_, hv, rfl, ?_⟩
    unfold NewSafeAssembler
    rw [hv]
  · intro h
    unfold SafeAssemblerOptions.Validate
    rw [if_neg (by omega), if_neg (by omega)]

/-- Witness of C30: the two rejected cases and the accepted case of
`TestSafeAssemblerInvalidOptions`. -/
theorem Validate_rejects_negative_page_limits_witness :
    (∃ err, ({ MaxBufferedPagesTotal := -1 } : SafeAssemblerOptions).Validate =
          ({ MaxBufferedPagesTotal := -1 }, some err) ∧ err.Is .invalidOptions = true ∧
        NewSafeAssembler (NewSafeStreamPool 100) { MaxBufferedPagesTotal := -1 } =
          .ok (.error err)) ∧
      (∃ err, ({ MaxBufferedPagesPerConnection := -1 } : SafeAssemblerOptions).Validate =
          ({ MaxBufferedPagesPerConnection := -1 }, some err) ∧ err.Is .invalidOptions = true ∧
        NewSafeAssembler (NewSafeStreamPool 100) { MaxBufferedPagesPerConnection := -1 } =
          .ok (.error err)) ∧
      ({ MaxBufferedPagesTotal := 100, MaxBufferedPagesPerConnection := 10 } :
        SafeAssemblerOptions).Validate.2 = none :=
  ⟨(Validate_rejects_negative_page_limits { MaxBufferedPagesTotal := -1 }
      (NewSafeStreamPool 100)).1 (by decide),
    (Validate_rejects_negative_page_limits { MaxBufferedPagesPerConnection := -1 }
      (NewSafeStreamPool 100)).1 (by decide),
    (Validate_rejects_negative_page_limits
      { MaxBufferedPagesTotal := 100, MaxBufferedPagesPerConnection := 10 }
      (NewSafeStreamPool 100)).2 (by decide)⟩

/-! ## A panic of `ReassembledSG` -/

theorem cleanSG_recovered (k : Nat) :
    ∀ (l : List byteContainer) (m : Machine),
      cleanSG { m with recovered := k } l = { cleanSG m l with recovered := k } := by
  intro l
  induction l with
  | nil => intro m; rfl
  | cons c rest ih =>
    intro m
    cases c with
    | cacheLP => exact ih m
    | page p =>
      exact ih { m with
        st := (page.release m.st p).1,
        half := { m.half with pages := m.half.pages - (page.release m.st p).2 } }

theorem protectedCall_shape (s : Stream) (m : Machine) (batch : List Nat) :
    ∃ k, sendToConnectionSafe.protectedCall s m batch =
      { m with delivered := m.delivered ++ [batch], recovered := k } := by
  unfold sendToConnectionSafe.protectedCall
  cases s.ReassembledSG batch
  · exact ⟨m.recovered, rfl⟩
  · exact ⟨m.recovered + 1, rfl⟩

theorem sendToConnectionSafe_shape (fuel : Nat) (s : Stream) (m : Machine) :
    ∃ k : Nat → Nat, sendToConnectionSafe fuel s m =
      (sendToConnectionSafe fuel testStream m).map
        (fun r => ({ r.1 with recovered := k r.1.recovered }, r.2)) := by
  unfold sendToConnectionSafe
  by_cases hs : m.half.stream = none
  · rw [if_pos hs, if_pos hs]
    exact ⟨id, rfl⟩
  · rw [if_neg hs, if_neg hs]
    cases hb : buildSG fuel m with
    | error f => exact ⟨id, rfl⟩
    | ok r =>
      obtain ⟨m1, e, ns⟩ := r
      dsimp only
      obtain ⟨k, hk⟩ := protectedCall_shape s m1 ((m1.a.ret.map (fun c => c.getBytes m1)).flatten)
      rw [hk]
      have ht : sendToConnectionSafe.protectedCall testStream m1
          ((m1.a.ret.map (fun c => c.getBytes m1)).flatten) =
          { m1 with delivered := m1.delivered ++ [(m1.a.ret.map (fun c => c.getBytes m1)).flatten] } :=
        rfl
      rw [ht]
      refine ⟨fun _ => k, ?_⟩
      have h1 := cleanSG_recovered k m1.a.ret
        { m1 with delivered := m1.delivered ++ [(m1.a.ret.map (fun c => c.getBytes m1)).flatten] }
      dsimp only at h1 ⊢
      rw [h1]
      cases e <;> rfl

theorem sendToConnectionSafe_erase (fuel : Nat) (s s' : Stream) (m : Machine) :
    (sendToConnectionSafe fuel s' m).map (fun r => ({ r.1 with recovered := 0 }, r.2)) =
      (sendToConnectionSafe fuel s m).map (fun r => ({ r.1 with recovered := 0 }, r.2)) := by
  obtain ⟨k, hk⟩ := sendToConnectionSafe_shape fuel s m
  obtain ⟨k', hk'⟩ := sendToConnectionSafe_shape fuel s' m
  rw [hk, hk']
  cases sendToConnectionSafe fuel testStream m <;> rfl

theorem finish_erase (fuel : Nat) (s s' : Stream) (t : TCP)
    (r : Except Fault (Machine × Option GoError)) :
    (AssembleWithContext.finish fuel s' t r).map (fun x => ({ x.1 with recovered := 0 }, x.2)) =
      (AssembleWithContext.finish fuel s t r).map (fun x => ({ x.1 with recovered := 0 }, x.2)) := by
  unfold AssembleWithContext.finish
  cases r with
  | error f => rfl
  | ok x =>
    obtain ⟨m, e⟩ := x
    cases e with
    | some err => rfl
    | none =>
      dsimp only
      by_cases hret : m.a.ret.length > 0
      · rw [if_pos hret, if_pos hret]
        obtain ⟨k, hk⟩ := sendToConnectionSafe_shape fuel s m
        obtain ⟨k', hk'⟩ := sendToConnectionSafe_shape fuel s' m
        rw [hk, hk']
        cases sendToConnectionSafe fuel testStream m with
        | error f => rfl
        | ok y =>
          obtain ⟨m2, ns, e2⟩ := y
          cases e2 with
          | some err => rfl
          | none =>
            simp only [Except.map]
            split_ifs <;> rfl
      · rw [if_neg hret, if_neg hret]

theorem found_erase (fuel pageBytes : Nat) (s s' : Stream) (hacc : s'.Accept = s.Accept)
    (m : Machine) (t : TCP) (timestamp : Int) (ac : Option Nat) :
    (AssembleWithContext.found fuel pageBytes s' m t timestamp ac).map
        (fun x => ({ x.1 with recovered := 0 }, x.2)) =
      (AssembleWithContext.found fuel pageBytes s m t timestamp ac).map
        (fun x => ({ x.1 with recovered := 0 }, x.2)) := by
  rw [found_eq, found_eq, hacc]
  split_ifs
  · rfl
  · rfl
  · exact finish_erase fuel s s' t _

theorem popContiguous_stats :
    ∀ (fuel : Nat) (m : Machine) (pos : Sequence) (r : Machine × Sequence),
      popContiguous fuel m pos = .ok r → r.1.a.stats = m.a.stats := by
  intro fuel
  induction fuel with
  | zero =>
    intro m pos r h
    cases h
  | succ k ih =>
    intro m pos r h
    unfold popContiguous at h
    split at h
    · injection h with h
      rw [← h]
    · dsimp only at h
      split_ifs at h
      · have := ih _ _ _ h
        rw [this]
        split <;> rfl
      · injection h with h
        rw [← h]

theorem addNextFromConn_stats (fuel : Nat) (m m' : Machine)
    (h : addNextFromConn fuel m = .ok m') : m'.a.stats = m.a.stats := by
  unfold addNextFromConn at h
  split at h
  · injection h with h
    rw [← h]
  · split at h
    · cases h
    · rename_i r hr
      injection h with h
      rw [← h]
      exact popContiguous_stats _ _ _ _ hr

theorem handleBytesSafe_stats (fuel pageBytes : Nat) (m m' : Machine) (bytes : List Nat)
    (seq : Sequence) (start end_ queue : Bool) (ac : Option Nat)
    (h : handleBytesSafe fuel pageBytes m bytes seq start end_ queue ac = .ok (m', none)) :
    m'.a.stats = m.a.stats := by
  unfold handleBytesSafe at h
  dsimp only at h
  split at h
  · cases h
  · cases h
  · rename_i m1 q1 hq
    have hm1 : m1.a.stats = m.a.stats := by
      split_ifs at hq with hqueue
      · split at hq
        · cases hq
        · cases hq
        · split_ifs at hq
          · split at hq
            · cases hq
            · rename_i m2 ha
              injection hq with hq
              injection hq with hq _
              rw [← hq]
              exact (addNextFromConn_stats _ _ _ ha).trans rfl
          · injection hq with hq
            injection hq with hq _
            rw [← hq]
      · injection hq with hq
        injection hq with hq _
        rw [← hq]
    split_ifs at h with hq1
    · split at h
      · cases h
      · split at h
        · cases h
        · cases h
        · split_ifs at h
          · injection h with h
            injection h with h _
            rw [← h]
            exact hm1
          · injection h with h
            injection h with h _
            rw [← h]
            exact hm1
    · injection h with h
      injection h with h _
      rw [← h]
      exact hm1

theorem cleanSG_a : ∀ (l : List byteContainer) (m : Machine), (cleanSG m l).a = m.a := by
  intro l
  induction l with
  | nil => intro m; rfl
  | cons c rest ih =>
    intro m
    cases c with
    | cacheLP => exact ih m
    | page p =>
      exact ih { m with
        st := (page.release m.st p).1,
        half := { m.half with pages := m.half.pages - (page.release m.st p).2 } }

theorem sendToConnectionSafe_stats (fuel : Nat) (s : Stream) (m m' : Machine) (ns : Sequence)
    (e : Option GoError) (h : sendToConnectionSafe fuel s m = .ok (m', ns, e)) :
    m'.a.stats = m.a.stats := by
  unfold sendToConnectionSafe at h
  split_ifs at h
  · injection h with h
    injection h with h _
    rw [← h]
  · split at h
    · cases h
    · rename_i m1 e1 ns1 hb
      have hm1 : m1.a.stats = m.a.stats := by
        unfold buildSG at hb
        dsimp only at hb
        split at hb
        · cases hb
        · rename_i m2 ns2 hp
          injection hb with hb
          injection hb with hb _
          rw [← hb]
          exact popContiguous_stats _ _ _ _ hp
      injection h with h
      injection h with h _
      rw [← h, ← hm1]
      obtain ⟨k, hk⟩ := protectedCall_shape s m1 ((m1.a.ret.map (fun c => c.getBytes m1)).flatten)
      rw [hk]
      cases e1
      · simp only [Bool.false_eq_true, if_false]
        rw [cleanSG_a]
      · simp only [if_true, closeHalfConnection]
        rw [cleanSG_a]

theorem found_nil_keeps_Errors (fuel pageBytes : Nat) (s : Stream) (m m' : Machine) (t : TCP)
    (timestamp : Int) (ac : Option Nat)
    (h : AssembleWithContext.found fuel pageBytes s m t timestamp ac = .ok (m', none)) :
    m'.a.stats.Errors = m.a.stats.Errors := by
  rw [found_eq] at h
  obtain ⟨p1, p2, p3, p4, p5, p6, p7, p8, p9, p10, p11⟩ := prelude_frame m t timestamp
  split_ifs at h with h1 h2
  · injection h with h
    injection h with h _
    rw [← h]
    exact p11
  · injection h with h
    injection h with h _
    rw [← h]
    exact p11
  · obtain ⟨q1, q2, q3, q4, q5, q6, q7, q8⟩ :=
      position_frame (AssembleWithContext.prelude m t timestamp) t
        (s.Accept t (AssembleWithContext.prelude m t timestamp).half.nextSeq
          (decide ((AssembleWithContext.prelude m t timestamp).half.nextSeq = invalidSequence)
            && t.SYN)).2
    unfold AssembleWithContext.finish at h
    split at h
    · cases h
    · cases h
    · rename_i m1 hh
      have hm1 : m1.a.stats.Errors = m.a.stats.Errors := by
        rw [handleBytesSafe_stats _ _ _ _ _ _ _ _ _ _ hh, q3, p11]
      by_cases hret : m1.a.ret.length > 0
      · rw [if_pos hret] at h
        split at h
        · cases h
        · cases h
        · rename_i m2 ns hs
          have hm2 := sendToConnectionSafe_stats _ _ _ _ _ _ hs
          split_ifs at h <;>
            (injection h with h
             injection h with h _
             rw [← h]
             rw [hm2]
             exact hm1)
      · rw [if_neg hret] at h
        injection h with h
        injection h with h _
        rw [← h]
        exact hm1

/-- C33 fails on the code: the stream's `ReassembledSG` panics on the first
segment of a connection (a SYN with three bytes).  `AssembleWithContext`
returns nil, the panic is recovered and logged, the half connection's `nextSeq`
is what it is after a callback that returns, and `Errors` is 0 as before the
call. -/
theorem recovered_panic_leaves_Errors :
    freshAssembler.a.stats.Errors = 0 ∧
      (SafeAssembler.AssembleWithContext testStreamFactory (fun _ => panickingStream) 8 1900
          freshAssembler exKey.1 (some synDataPacket) 0 (some 1)).map
          (fun r => (r.2, r.1.a.stats.Errors)) = .ok (none, 0) ∧
      (SafeAssembler.AssembleWithContext testStreamFactory (fun _ => panickingStream) 8 1900
          freshAssembler exKey.1 (some synDataPacket) 0 (some 1)).map
          (fun r => (r.1.recovered, r.1.delivered)) = .ok (1, [[2, 3]]) ∧
      (SafeAssembler.AssembleWithContext testStreamFactory (fun _ => panickingStream) 8 1900
          freshAssembler exKey.1 (some synDataPacket) 0 (some 1)).map
          (fun r => (r.1.connPool.objs.map (fun c => c.c2s.nextSeq))) = .ok [1003] ∧
      (SafeAssembler.AssembleWithContext testStreamFactory (fun _ => testStream) 8 1900
          freshAssembler exKey.1 (some synDataPacket) 0 (some 1)).map
          (fun r => (r.1.connPool.objs.map (fun c => c.c2s.nextSeq))) = .ok [1003] := by
  decide

/-- C33 as amended: let two tables of streams differ in `ReassembledSG` only,
so that the callback may panic in one and return in the other.
`AssembleWithContext` returns the same result with both (nil where it returns
nil) and leaves the same state, the half connections with their `nextSeq` and
the statistics included; the only difference is the log, to which a recovered
panic adds a line.  Whenever the call returns nil, `Errors` is what it was
before the call. -/
theorem recovered_panic_is_not_counted (factory : Flow → Flow → TCP → Option Nat → Option Nat)
    (streams streams' : Nat → Stream) (hacc : ∀ h, (streams' h).Accept = (streams h).Accept)
    (fuel pageBytes : Nat) (w : AssemblerState) (netFlow : Flow) (t : Option TCP)
    (timestamp : Int) (ac : Option Nat) :
    (SafeAssembler.AssembleWithContext factory streams' fuel pageBytes w netFlow t timestamp
          ac).map (fun r => ({ r.1 with recovered := 0 }, r.2)) =
        (SafeAssembler.AssembleWithContext factory streams fuel pageBytes w netFlow t timestamp
          ac).map (fun r => ({ r.1 with recovered := 0 }, r.2)) ∧
      ∀ w', SafeAssembler.AssembleWithContext factory streams' fuel pageBytes w netFlow t
          timestamp ac = .ok (w', none) → w'.a.stats.Errors = w.a.stats.Errors := by
  unfold SafeAssembler.AssembleWithContext
  cases w.ctxErr with
  | some err =>
    refine ⟨rfl, ?_⟩
    intro w' h
    cases h
  | none =>
    cases t with
    | none =>
      refine ⟨rfl, ?_⟩
      intro w' h
      cases h
    | some t =>
      dsimp only
      cases ac with
      | none =>
        refine ⟨rfl, ?_⟩
        intro w' h
        cases h
      | some ctx =>
        dsimp only
        cases w.connPool.getConnection factory (netFlow, t.TransportFlow) false timestamp t (some ctx) with
        | mk pool res =>
          cases res with
          | error e =>
            refine ⟨rfl, ?_⟩
            intro w' h
            cases h
          | ok o =>
            cases o with
            | none =>
              refine ⟨rfl, ?_⟩
              intro w' h
              injection h with h
              injection h with h _
              rw [← h]
              rfl
            | some x =>
              obtain ⟨conn, half, rev⟩ := x
              dsimp only
              cases ((pool.objs.getD conn {}).half half.2).stream with
              | none =>
                refine ⟨rfl, ?_⟩
                intro w' h
                cases h
              | some sh =>
                dsimp only
                have he := found_erase fuel pageBytes (streams sh) (streams' sh) (hacc sh)
                  { st := w.st, a := w.a, half := (pool.objs.getD conn {}).half half.2, delivered := w.delivered, recovered := w.recovered }
                  t timestamp (some ctx)
                constructor
                · cases h1 : AssembleWithContext.found fuel pageBytes (streams sh)
                      { st := w.st, a := w.a, half := (pool.objs.getD conn {}).half half.2, delivered := w.delivered, recovered := w.recovered }
                      t timestamp (some ctx) with
                  | error f =>
                    rw [h1] at he
                    cases h2 : AssembleWithContext.found fuel pageBytes (streams' sh)
                        { st := w.st, a := w.a, half := (pool.objs.getD conn {}).half half.2, delivered := w.delivered, recovered := w.recovered }
                        t timestamp (some ctx) with
                    | error f' =>
                      rw [h2] at he
                      injection he with he
                      rw [he]
                    | ok y =>
                      rw [h2] at he
                      cases he
                  | ok y =>
                    rw [h1] at he
                    cases h2 : AssembleWithContext.found fuel pageBytes (streams' sh)
                        { st := w.st, a := w.a, half := (pool.objs.getD conn {}).half half.2, delivered := w.delivered, recovered := w.recovered }
                        t timestamp (some ctx) with
                    | error f' =>
                      rw [h2] at he
                      cases he
                    | ok y' =>
                      rw [h2] at he
                      obtain ⟨m1, e1⟩ := y
                      obtain ⟨m2, e2⟩ := y'
                      simp only [Except.map, Except.ok.injEq, Prod.mk.injEq, Machine.mk.injEq,
                        and_true] at he
                      obtain ⟨⟨a1, a2, a3, a4⟩, a5⟩ := he
                      simp only [Except.map, a1, a2, a3, a4, a5]
                · intro w' h
                  split at h
                  · cases h
                  · rename_i m1 e1 hf
                    injection h with h
                    injection h with h h'
                    cases e1 with
                    | some e => cases h'
                    | none =>
                      rw [← h]
                      exact found_nil_keeps_Errors _ _ _ _ _ _ _ _ hf

/-- Witness of C33 as amended: the stream of the test file and the stream
whose `ReassembledSG` panics, on the first segment of a connection. -/
theorem recovered_panic_is_not_counted_witness :
    (SafeAssembler.AssembleWithContext testStreamFactory (fun _ => panickingStream) 8 1900
          freshAssembler exKey.1 (some synDataPacket) 0 (some 1)).map
          (fun r => ({ r.1 with recovered := 0 }, r.2)) =
        (SafeAssembler.AssembleWithContext testStreamFactory (fun _ => testStream) 8 1900
          freshAssembler exKey.1 (some synDataPacket) 0 (some 1)).map
          (fun r => ({ r.1 with recovered := 0 }, r.2)) ∧
      ∀ w', SafeAssembler.AssembleWithContext testStreamFactory (fun _ => panickingStream) 8 1900
          freshAssembler exKey.1 (some synDataPacket) 0 (some 1) = .ok (w', none) →
        w'.a.stats.Errors = freshAssembler.a.stats.Errors :=
  recovered_panic_is_not_counted testStreamFactory (fun _ => testStream)
    (fun _ => panickingStream) (fun _ => rfl) 8 1900 freshAssembler exKey.1 (some synDataPacket)
    0 (some 1)

/-! ## Options: durations and defaults -/

theorem Validate_accepted (o : SafeAssemblerOptions)
    (h1 : 0 ≤ o.MaxBufferedPagesTotal) (h2 : 0 ≤ o.MaxBufferedPagesPerConnection) :
    o.Validate =
      ({ MaxBufferedPagesTotal := if o.MaxBufferedPagesTotal = 0 then 50000 else o.MaxBufferedPagesTotal,
         MaxBufferedPagesPerConnection := if o.MaxBufferedPagesPerConnection = 0 then 1000 else o.MaxBufferedPagesPerConnection,
         ConnectionTimeout := if o.ConnectionTimeout = 0 then 120000000000 else o.ConnectionTimeout,
         FlushInterval := if o.FlushInterval = 0 then 10000000000 else o.FlushInterval },
        none) := by
  unfold SafeAssemblerOptions.Validate
  rw [if_neg (by omega), if_neg (by omega)]
  dsimp only
  split_ifs <;> rfl

theorem Validate_accepted_iff (o : SafeAssemblerOptions) (h : o.Validate.2 = none) :
    0 ≤ o.MaxBufferedPagesTotal ∧ 0 ≤ o.MaxBufferedPagesPerConnection := by
  unfold SafeAssemblerOptions.Validate at h
  by_cases h1 : o.MaxBufferedPagesTotal < 0
  · rw [if_pos h1] at h
    cases h
  · rw [if_neg h1] at h
    by_cases h2 : o.MaxBufferedPagesPerConnection < 0
    · rw [if_pos h2] at h
      cases h
    · omega

theorem NewSafeAssembler_accepted (o : SafeAssemblerOptions) (pool : SafeStreamPool)
    (h : o.Validate.2 = none) :
    NewSafeAssembler pool o =
      if o.Validate.1.FlushInterval ≤ 0 then .error .nonPositiveInterval
      else .ok (.ok
        { st := { heap := [], pc := newSafePageCache o.Validate.1.MaxBufferedPagesTotal },
          a := { MaxBufferedPagesTotal := o.Validate.1.MaxBufferedPagesTotal, MaxBufferedPagesPerConnection := o.Validate.1.MaxBufferedPagesPerConnection, ConnectionTimeout := o.Validate.1.ConnectionTimeout, FlushInterval := o.Validate.1.FlushInterval, ret := [] },
          connPool := pool, ctxErr := none }) := by
  have hv : o.Validate = (o.Validate.1, none) := by
    rw [← h]
  unfold NewSafeAssembler
  rw [hv]

/-- C31 fails on the code: `Validate` looks at the two page limits only.  With
both limits at least 0 it returns nil whatever the durations are and leaves a
negative duration as it is; with a negative `FlushInterval`, `NewSafeAssembler`
goes on to `time.NewTicker`, which panics; with a negative `ConnectionTimeout`
and a `FlushInterval` that is not negative it returns an assembler that keeps
the negative timeout. -/
theorem Validate_accepts_negative_durations (o : SafeAssemblerOptions) (pool : SafeStreamPool)
    (h1 : 0 ≤ o.MaxBufferedPagesTotal) (h2 : 0 ≤ o.MaxBufferedPagesPerConnection) :
    o.Validate.2 = none ∧
      (o.FlushInterval < 0 →
        o.Validate.1.FlushInterval = o.FlushInterval ∧
          NewSafeAssembler pool o = .error .nonPositiveInterval) ∧
      (o.ConnectionTimeout < 0 →
        o.Validate.1.ConnectionTimeout = o.ConnectionTimeout ∧
          (0 ≤ o.FlushInterval →
            ∃ w, NewSafeAssembler pool o = .ok (.ok w) ∧
              w.a.ConnectionTimeout = o.ConnectionTimeout)) := by
  have hv := Validate_accepted o h1 h2
  have hacc : o.Validate.2 = none := by rw [hv]
  have hF : o.Validate.1.FlushInterval =
      if o.FlushInterval = 0 then 10000000000 else o.FlushInterval := by rw [hv]
  have hC : o.Validate.1.ConnectionTimeout =
      if o.ConnectionTimeout = 0 then 120000000000 else o.ConnectionTimeout := by rw [hv]
  refine ⟨hacc, ?_, ?_⟩
  · intro hf
    have hF' : o.Validate.1.FlushInterval = o.FlushInterval := by
      rw [hF, if_neg (by omega)]
    refine ⟨hF', ?_⟩
    rw [NewSafeAssembler_accepted o pool hacc, if_pos (by omega)]
  · intro hc
    have hC' : o.Validate.1.ConnectionTimeout = o.ConnectionTimeout := by
      rw [hC, if_neg (by omega)]
    refine ⟨hC', ?_⟩
    intro hf
    have hF' : ¬ o.Validate.1.FlushInterval ≤ 0 := by
      rw [hF]
      split_ifs <;> omega
    rw [NewSafeAssembler_accepted o pool hacc, if_neg hF']
    exact ⟨_, rfl, hC'⟩

/-- Witness of C31's failure: the options with `FlushInterval = -1` and
nothing else set. -/
theorem Validate_accepts_negative_durations_witness :
    ({ FlushInterval := -1 } : SafeAssemblerOptions).Validate.2 = none ∧
      ({ FlushInterval := -1 } : SafeAssemblerOptions).Validate.1.FlushInterval = -1 ∧
      NewSafeAssembler (NewSafeStreamPool 100) { FlushInterval := -1 } =
        .error .nonPositiveInterval :=
  ⟨(Validate_accepts_negative_durations { FlushInterval := -1 } (NewSafeStreamPool 100)
      (by decide) (by decide)).1,
    (Validate_accepts_negative_durations { FlushInterval := -1 } (NewSafeStreamPool 100)
      (by decide) (by decide)).2.1 (by decide)⟩

/-- C32: when `Validate` accepts the options, each field that is 0 gets its
default (50000 pages, 1000 pages, 2 minutes, 10 seconds) and each other field
stays as given; an assembler that `NewSafeAssembler` builds from the options
has a page cache with `maxPages` equal to the resulting `MaxBufferedPagesTotal`
(and one is built when `FlushInterval` is not negative); and a second
`Validate` returns nil and changes nothing. -/
theorem Validate_fills_defaults (o : SafeAssemblerOptions) (pool : SafeStreamPool)
    (h : o.Validate.2 = none) :
    o.Validate.1.MaxBufferedPagesTotal =
        (if o.MaxBufferedPagesTotal = 0 then 50000 else o.MaxBufferedPagesTotal) ∧
      o.Validate.1.MaxBufferedPagesPerConnection =
        (if o.MaxBufferedPagesPerConnection = 0 then 1000 else o.MaxBufferedPagesPerConnection) ∧
      o.Validate.1.ConnectionTimeout =
        (if o.ConnectionTimeout = 0 then 120000000000 else o.ConnectionTimeout) ∧
      o.Validate.1.FlushInterval =
        (if o.FlushInterval = 0 then 10000000000 else o.FlushInterval) ∧
      (∀ w, NewSafeAssembler pool o = .ok (.ok w) →
        w.st.pc.maxPages = o.Validate.1.MaxBufferedPagesTotal ∧
          w.a.MaxBufferedPagesTotal = o.Validate.1.MaxBufferedPagesTotal) ∧
      (0 ≤ o.FlushInterval → ∃ w, NewSafeAssembler pool o = .ok (.ok w)) ∧
      o.Validate.1.Validate = (o.Validate.1, none) := by
  obtain ⟨h1, h2⟩ := Validate_accepted_iff o h
  have hv := Validate_accepted o h1 h2
  have hT : o.Validate.1.MaxBufferedPagesTotal =
      if o.MaxBufferedPagesTotal = 0 then 50000 else o.MaxBufferedPagesTotal := by rw [hv]
  have hP : o.Validate.1.MaxBufferedPagesPerConnection =
      if o.MaxBufferedPagesPerConnection = 0 then 1000 else o.MaxBufferedPagesPerConnection := by
    rw [hv]
  have hC : o.Validate.1.ConnectionTimeout =
      if o.ConnectionTimeout = 0 then 120000000000 else o.ConnectionTimeout := by rw [hv]
  have hF : o.Validate.1.FlushInterval =
      if o.FlushInterval = 0 then 10000000000 else o.FlushInterval := by rw [hv]
  have hTpos : 0 < o.Validate.1.MaxBufferedPagesTotal := by
    rw [hT]
    split_ifs <;> omega
  have hPpos : 0 < o.Validate.1.MaxBufferedPagesPerConnection := by
    rw [hP]
    split_ifs <;> omega
  have hCne : o.Validate.1.ConnectionTimeout ≠ 0 := by
    rw [hC]
    split_ifs <;> omega
  have hFne : o.Validate.1.FlushInterval ≠ 0 := by
    rw [hF]
    split_ifs <;> omega
  refine ⟨hT, hP, hC, hF, ?_, ?_, ?_⟩
  · intro w hw
    rw [NewSafeAssembler_accepted o pool h] at hw
    split_ifs at hw
    injection hw with hw
    injection hw with hw
    rw [← hw]
    dsimp only
    unfold newSafePageCache
    dsimp only
    rw [if_neg (by omega)]
    exact ⟨rfl, rfl⟩
  · intro hf
    have hF' : ¬ o.Validate.1.FlushInterval ≤ 0 := by
      rw [hF]
      split_ifs <;> omega
    rw [NewSafeAssembler_accepted o pool h, if_neg hF']
    exact ⟨_, rfl⟩
  · rw [Validate_accepted _ (by omega) (by omega), if_neg (by omega), if_neg (by omega),
      if_neg hCne, if_neg hFne]

/-- Witness of C32: the options of `TestSafeAssemblerGracefulShutdown`, with a
flush interval of 100 milliseconds and nothing else set. -/
theorem Validate_fills_defaults_witness :
    ({ FlushInterval := 100000000 } : SafeAssemblerOptions).Validate.1 =
        { MaxBufferedPagesTotal := 50000, MaxBufferedPagesPerConnection := 1000, ConnectionTimeout := 120000000000, FlushInterval := 100000000 } ∧
      (∃ w, NewSafeAssembler (NewSafeStreamPool 100) { FlushInterval := 100000000 } =
        .ok (.ok w)) ∧
      ({ FlushInterval := 100000000 } : SafeAssemblerOptions).Validate.1.Validate =
        (({ FlushInterval := 100000000 } : SafeAssemblerOptions).Validate.1, none) :=
  ⟨by decide,
    (Validate_fills_defaults { FlushInterval := 100000000 } (NewSafeStreamPool 100)
      (by decide)).2.2.2.2.2.1 (by decide),
    (Validate_fills_defaults { FlushInterval := 100000000 } (NewSafeStreamPool 100)
      (by decide)).2.2.2.2.2.2⟩

/-! ## `handleBytesSafe`: the buffer limits are checked after queueing -/

theorem popContiguous_cacheLP :
    ∀ (fuel : Nat) (m : Machine) (pos : Sequence) (r : Machine × Sequence),
      popContiguous fuel m pos = .ok r → r.1.a.cacheLP = m.a.cacheLP := by
  intro fuel
  induction fuel with
  | zero =>
    intro m pos r h
    cases h
  | succ k ih =>
    intro m pos r h
    unfold popContiguous at h
    split at h
    · injection h with h
      rw [← h]
    · dsimp only at h
      split_ifs at h
      · have := ih _ _ _ h
        rw [this]
        split <;> rfl
      · injection h with h
        rw [← h]

theorem addNextFromConn_cacheLP (fuel : Nat) (m m' : Machine)
    (h : addNextFromConn fuel m = .ok m') : m'.a.cacheLP = m.a.cacheLP := by
  unfold addNextFromConn at h
  split at h
  · injection h with h
    rw [← h]
  · split at h
    · cases h
    · rename_i r hr
      injection h with h
      rw [← h]
      exact popContiguous_cacheLP _ _ _ _ hr

theorem handleBytesSafe_error_queue (fuel pageBytes : Nat) (m m' : Machine) (bytes : List Nat)
    (seq : Sequence) (start end_ queue : Bool) (ac : Option Nat) (err : GoError)
    (h : handleBytesSafe fuel pageBytes m bytes seq start end_ queue ac = .ok (m', some err)) :
    queue = true ∧ m'.a.ret = m.a.ret := by
  unfold handleBytesSafe at h
  dsimp only at h
  split at h
  · cases h
  · rename_i m1 q1 e1 hq
    injection h with h
    injection h with h1 h2
    injection h2 with h2
    subst h1
    subst h2
    split_ifs at hq with hqueue
    · split at hq
      · cases hq
      · rename_i st1 half1 e2 hc
        injection hq with hq
        injection hq with hq1 hq2
        subst hq1
        exact ⟨hqueue, rfl⟩
      · split_ifs at hq
        · split at hq
          · cases hq
          · cases hq
        · cases hq
    · cases hq
  · rename_i m1 q1 hq
    split_ifs at h with hq1
    · split at h
      · cases h
      · split at h
        · cases h
        · rename_i hc
          have := (checkOverlapSafe_error _ _ _ _ _ _ _ _ _ _ hc).1
          cases this
        · split_ifs at h <;> cases h
    · cases h

theorem handleBytesSafe_flush (fuel pageBytes : Nat) (m : Machine) (bytes : List Nat)
    (seq : Sequence) (start end_ : Bool) (ac : Option Nat) (st1 : Store)
    (half1 : halfconnection) (m2 : Machine)
    (hq : checkOverlapSafe fuel pageBytes
        { m.a.cacheLP with bytes := bytes, start := start, end_ := end_, seq := seq, ac := ac }
        m.st m.half true ac = .ok (st1, half1, none))
    (hlim : (m.a.MaxBufferedPagesPerConnection > 0 ∧
          half1.pages ≥ m.a.MaxBufferedPagesPerConnection) ∨
        (m.a.MaxBufferedPagesTotal > 0 ∧ st1.pc.used ≥ m.a.MaxBufferedPagesTotal))
    (hd : addNextFromConn fuel
        { m with
          st := st1, half := half1,
          a := { m.a with cacheLP := { m.a.cacheLP with bytes := bytes, start := start, end_ := end_, seq := seq, ac := ac } } } =
      .ok m2) :
    handleBytesSafe fuel pageBytes m bytes seq start end_ true ac =
      handleBytesSafe fuel pageBytes m2 bytes seq start end_ false ac := by
  have hc := addNextFromConn_cacheLP _ _ _ hd
  have hm2 : ({ m2 with a := { m2.a with cacheLP := { m2.a.cacheLP with bytes := bytes, start := start, end_ := end_, seq := seq, ac := ac } } } : Machine) = m2 := by
    cases m2 with
    | mk st2 a2 half2 del2 rec2 =>
      cases a2 with
      | mk f1 f2 f3 f4 ret2 lp2 stats2 =>
        dsimp only at hc ⊢
        subst hc
        rfl
  unfold handleBytesSafe
  dsimp only
  rw [hm2]
  rw [if_pos rfl, hq]
  dsimp only
  rw [if_pos hlim, hd]
  simp only [Bool.false_eq_true, if_false, if_true]

theorem handleBytesSafe_immediate_no_error (fuel pageBytes : Nat) (m m' : Machine)
    (bytes : List Nat) (seq : Sequence) (start end_ : Bool) (ac : Option Nat)
    (e : Option GoError)
    (h : handleBytesSafe fuel pageBytes m bytes seq start end_ false ac = .ok (m', e)) :
    e = none := by
  cases e with
  | none => rfl
  | some err =>
    have := (handleBytesSafe_error_queue _ _ _ _ _ _ _ _ _ _ _ h).1
    cases this

theorem handleBytesSafe_refused (fuel pageBytes : Nat) (m : Machine) (bytes : List Nat)
    (seq : Sequence) (start end_ : Bool) (ac : Option Nat) (hfuel : 0 < fuel)
    (hne : bytes ≠ []) (hlast : m.half.last = none) (hfull : m.st.pc.maxPages ≤ m.st.pc.used) :
    ∃ m', handleBytesSafe fuel pageBytes m bytes seq start end_ true ac =
      .ok (m', some .pageCacheLimit) := by
  obtain ⟨k, rfl⟩ : ∃ k, fuel = k + 1 := ⟨fuel - 1, by omega⟩
  have hlen : bytes.length ≠ 0 := by
    intro h
    exact hne (List.length_eq_zero.mp h)
  obtain ⟨st', hnext, _, _, _⟩ := next_of_full m.st m.a.cacheLP.ci hfull
  have hco : checkOverlapSafe (k + 1) pageBytes
      { m.a.cacheLP with bytes := bytes, start := start, end_ := end_, seq := seq, ac := ac }
      m.st m.half true ac = .ok (st', m.half, some .pageCacheLimit) := by
    unfold checkOverlapSafe
    dsimp only
    rw [if_neg (by simp)]
    unfold checkOverlapSafe.walk
    dsimp only
    rw [hlast]
    dsimp only
    rw [if_pos ⟨by omega, rfl⟩]
    unfold livePacket.convertToPagesSafe
    dsimp only
    rw [if_neg (by omega), hnext]
  unfold handleBytesSafe
  dsimp only
  rw [if_pos rfl, hco]
  exact ⟨_, rfl⟩

/-- C16 as amended: `handleBytesSafe` queues a segment that is marked for
queueing before it checks the buffer limits.  A non-empty segment that arrives
while the page cache is full (`used >= maxPages`) on a half connection without
queued pages is refused, and `handleBytesSafe` returns the error of the page
cache; whenever `handleBytesSafe` returns an error, nothing was drained into
`a.ret` and nothing delivered.  When the queueing succeeds and, after it,
`half.pages` has reached `MaxBufferedPagesPerConnection` or `used` has reached
`MaxBufferedPagesTotal`, `handleBytesSafe` drains the queued prefix of the half
connection into `a.ret` (`addNextFromConn`) and goes on exactly as a call for
an immediate delivery of the segment does on the drained state, which returns
no error. -/
theorem handleBytesSafe_checks_limits_after_queueing (fuel pageBytes : Nat) (m : Machine)
    (bytes : List Nat) (seq : Sequence) (start end_ : Bool) (ac : Option Nat) :
    (0 < fuel → bytes ≠ [] → m.half.last = none → m.st.pc.maxPages ≤ m.st.pc.used →
        ∃ m', handleBytesSafe fuel pageBytes m bytes seq start end_ true ac =
          .ok (m', some .pageCacheLimit)) ∧
      (∀ m' err, handleBytesSafe fuel pageBytes m bytes seq start end_ true ac =
          .ok (m', some err) → m'.a.ret = m.a.ret ∧ m'.delivered = m.delivered) ∧
      (∀ (st1 : Store) (half1 : halfconnection) (m2 : Machine),
        checkOverlapSafe fuel pageBytes
            { m.a.cacheLP with bytes := bytes, start := start, end_ := end_, seq := seq, ac := ac }
            m.st m.half true ac = .ok (st1, half1, none) →
        ((m.a.MaxBufferedPagesPerConnection > 0 ∧
            half1.pages ≥ m.a.MaxBufferedPagesPerConnection) ∨
          (m.a.MaxBufferedPagesTotal > 0 ∧ st1.pc.used ≥ m.a.MaxBufferedPagesTotal)) →
        addNextFromConn fuel
            { m with
              st := st1, half := half1,
              a := { m.a with cacheLP := { m.a.cacheLP with bytes := bytes, start := start, end_ := end_, seq := seq, ac := ac } } } =
          .ok m2 →
        handleBytesSafe fuel pageBytes m bytes seq start end_ true ac =
            handleBytesSafe fuel pageBytes m2 bytes seq start end_ false ac ∧
          ∀ m' e, handleBytesSafe fuel pageBytes m2 bytes seq start end_ false ac = .ok (m', e) →
            e = none) := by
  refine ⟨?_, ?_, ?_⟩
  · intro hfuel hne hlast hfull
    exact handleBytesSafe_refused fuel pageBytes m bytes seq start end_ ac hfuel hne hlast hfull
  · intro m' err h
    exact ⟨(handleBytesSafe_error_queue _ _ _ _ _ _ _ _ _ _ _ h).2,
      (handleBytesSafe_error _ _ _ _ _ _ _ _ _ _ _ h).1⟩
  · intro st1 half1 m2 hq hlim hd
    exact ⟨handleBytesSafe_flush fuel pageBytes m bytes seq start end_ ac st1 half1 m2 hq hlim hd,
      fun m' e h => handleBytesSafe_immediate_no_error _ _ _ _ _ _ _ _ _ _ h⟩

/-- Witness of C16 as amended: after a SYN at 4 and four bytes at 10, four
bytes at 20 take the second and last page of the cache; the queued page is
drained into `a.ret`, the segment is handled as an immediate delivery, and the
call returns nil. -/
theorem handleBytesSafe_checks_limits_after_queueing_witness :
    ∃ m2, handleBytesSafe 8 1900 pressedMachine [4, 5, 6, 7] 20 false false true (some 1) =
        handleBytesSafe 8 1900 m2 [4, 5, 6, 7] 20 false false false (some 1) ∧
      m2.a.ret = [.page 1] ∧
      (handleBytesSafe 8 1900 pressedMachine [4, 5, 6, 7] 20 false false true (some 1)).map
        (fun r => (r.2, r.1.a.ret)) = .ok (none, [.page 1, .cacheLP]) := by
  have hq : checkOverlapSafe 8 1900
      { pressedMachine.a.cacheLP with bytes := [4, 5, 6, 7], start := false, end_ := false, seq := 20, ac := some 1 }
      pressedMachine.st pressedMachine.half true (some 1) =
      .ok ({ heap := [{ bytes := [0, 1, 2, 3], seq := 10 }, { bytes := [4, 5, 6, 7], seq := 20, ac := some 1 }],
             pc := { newSafePageCache 2 with used := 2, pageRequests := 1 } },
           { pressedMachine.half with pages := 2, first := some 1, last := some 1, queuedPackets := 2, queuedBytes := 8 },
           none) := by
    rfl
  have hd : addNextFromConn 8
      { pressedMachine with
        st := { heap := [{ bytes := [0, 1, 2, 3], seq := 10 }, { bytes := [4, 5, 6, 7], seq := 20, ac := some 1 }],
                pc := { newSafePageCache 2 with used := 2, pageRequests := 1 } },
        half := { pressedMachine.half with pages := 2, first := some 1, last := some 1, queuedPackets := 2, queuedBytes := 8 },
        a := { pressedMachine.a with cacheLP := { pressedMachine.a.cacheLP with bytes := [4, 5, 6, 7], start := false, end_ := false, seq := 20, ac := some 1 } } } =
      .ok
        { st := { heap := [{ bytes := [0, 1, 2, 3], seq := 10 }, { bytes := [4, 5, 6, 7], seq := 20, ac := some 1 }],
                  pc := { newSafePageCache 2 with used := 2, pageRequests := 1 } },
          half := { pressedMachine.half with pages := 2, first := none, last := none, queuedPackets := 2, queuedBytes := 8 },
          a := { pressedMachine.a with
            ret := [.page 1],
            cacheLP := { pressedMachine.a.cacheLP with bytes := [4, 5, 6, 7], start := false, end_ := false, seq := 20, ac := some 1 } } } := by
    rfl
  exact ⟨_,
    ((handleBytesSafe_checks_limits_after_queueing 8 1900 pressedMachine [4, 5, 6, 7] 20 false
      false (some 1)).2.2 _ _ _ hq (Or.inr (by decide)) hd).1, rfl, by decide⟩

end Reassembly
